import Mathlib

/-!
# falco: the statement formatter

A shallow embedding of `formatter/statement_format.go`.

* The `ast` package is imported by the source but is not part of it; the node
  types below carry exactly the fields the formatter reads (and the fields the
  parser tests construct).
* The formatter helpers `formatComment`, `indent`, `trailing`,
  `formatExpression` and `formatString` live in other files of the package;
  they are the fields of `Formatter`.
* A `bytes.Buffer` is only ever written to and read once at the end, so the
  result of a function is the concatenation of its writes, in order; a loop
  contributes the concatenation of the writes of its iterations.
* The functions are written once, for any output type with an append and a
  way to write a Go string (`Writer`). At `String` they are the program; at
  `List Comment` (`commentTrace`) the same functions give the comments handed
  to the comment writers, in output order.
-/

namespace Falco

/-! ## The AST (package `ast`) -/

/-- One comment token, `ast.Comment`: its raw text. -/
structure Comment where
  Value : String
  deriving DecidableEq, Repr

/-- A sequence of comments, `ast.Comments`. -/
abbrev Comments := List Comment

/-- Node metadata, `ast.Meta`: the nesting depth (a Go `int`) and the three
comment slots. -/
structure Meta where
  Nest : Int
  Leading : Comments := []
  Trailing : Comments := []
  Infix : Comments := []
  deriving DecidableEq, Repr

/-- An identifier, `ast.Ident`. -/
structure Ident extends Meta where
  Value : String
  deriving DecidableEq, Repr

/-- A string literal, `ast.String`. -/
structure Str extends Meta where
  Value : String
  LongString : Bool := false
  deriving DecidableEq, Repr

/-- An assignment operator, `ast.Operator`. -/
structure Operator extends Meta where
  Operator : String
  deriving DecidableEq, Repr

mutual
/-- Expressions, `ast.Expression`: the variants the sources construct. -/
inductive Expression where
  | ident (t : Ident)
  | string (t : Str)
  | ifExpr (m : Meta) (Condition Consequence Alternative : Expression)
  | infixExpr (t : InfixExpression)
  | functionCall (m : Meta) (Function : Ident) (Arguments : List Expression)
/-- A binary operation, `ast.InfixExpression`. -/
inductive InfixExpression where
  | mk (m : Meta) (Left : Expression) (Operator : String) (Right : Expression)
end

/-- The field `Operator` of an infix expression. -/
def InfixExpression.Operator : InfixExpression → String
  | .mk _ _ op _ => op

/-- The field `Right` of an infix expression. -/
def InfixExpression.Right : InfixExpression → Expression
  | .mk _ _ _ r => r

structure ImportStatement extends Meta where
  Name : Ident

structure IncludeStatement extends Meta where
  Module : Str

structure DeclareStatement extends Meta where
  Name : Ident
  ValueType : Ident

structure SetStatement extends Meta where
  Ident : Ident
  Operator : Operator
  Value : Expression

structure UnsetStatement extends Meta where
  Ident : Ident

structure RemoveStatement extends Meta where
  Ident : Ident

structure RestartStatement extends Meta

structure EsiStatement extends Meta

structure AddStatement extends Meta where
  Ident : Ident
  Operator : Operator
  Value : Expression

structure CallStatement extends Meta where
  Subroutine : Ident

/-- An error statement: `Argument` is nil when absent. -/
structure ErrorStatement extends Meta where
  Code : Expression
  Argument : Option Expression

structure LogStatement extends Meta where
  Value : Expression

/-- A return statement: `ReturnExpression` is a nil-able pointer. -/
structure ReturnStatement extends Meta where
  ReturnExpression : Option Expression

structure SyntheticStatement extends Meta where
  Value : Expression

structure SyntheticBase64Statement extends Meta where
  Value : Expression

structure GotoStatement extends Meta where
  Destination : Ident

structure GotoDestinationStatement extends Meta where
  Name : Ident

structure FunctionCallStatement extends Meta where
  Function : Ident
  Arguments : List Expression

/-- A break statement, `ast.BreakStatement`: only its type is inspected. -/
structure BreakStatement extends Meta

mutual
/-- Statements, `ast.Statement`: the node types `formatStatement` switches on,
and the break statement that `formatSwitchStatement` recognises. -/
inductive Statement where
  | blockStmt (t : BlockStatement)
  | importStmt (t : ImportStatement)
  | includeStmt (t : IncludeStatement)
  | declareStmt (t : DeclareStatement)
  | setStmt (t : SetStatement)
  | unsetStmt (t : UnsetStatement)
  | removeStmt (t : RemoveStatement)
  | ifStmt (t : IfStatement)
  | switchStmt (t : SwitchStatement)
  | restartStmt (t : RestartStatement)
  | esiStmt (t : EsiStatement)
  | addStmt (t : AddStatement)
  | callStmt (t : CallStatement)
  | errorStmt (t : ErrorStatement)
  | logStmt (t : LogStatement)
  | returnStmt (t : ReturnStatement)
  | syntheticStmt (t : SyntheticStatement)
  | syntheticBase64Stmt (t : SyntheticBase64Statement)
  | gotoStmt (t : GotoStatement)
  | gotoDestinationStmt (t : GotoDestinationStatement)
  | functionCallStmt (t : FunctionCallStatement)
  | breakStmt (t : BreakStatement)
/-- A block, `ast.BlockStatement`. -/
inductive BlockStatement where
  | mk (m : Meta) (Statements : List Statement)
/-- An if statement, `ast.IfStatement`; the entries of `Another` are the
else-if branches, `Alternative` is the else block (nil when absent). -/
inductive IfStatement where
  | mk (m : Meta) (Keyword : String) (Condition : Expression)
      (Consequence : BlockStatement) (Another : List IfStatement)
      (Alternative : Option BlockStatement)
/-- A switch statement, `ast.SwitchStatement`. -/
inductive SwitchStatement where
  | mk (m : Meta) (Control : Expression) (Cases : List CaseStatement)
/-- One case of a switch, `ast.CaseStatement`; `Test` is nil for default. -/
inductive CaseStatement where
  | mk (m : Meta) (Test : Option InfixExpression) (Statements : List Statement)
      (Fallthrough : Bool)
end

/-- The metadata of a block (the embedded `*Meta`). -/
def BlockStatement.toMeta : BlockStatement → Meta
  | .mk m _ => m

/-- The field `Statements` of a block. -/
def BlockStatement.Statements : BlockStatement → List Statement
  | .mk _ stmts => stmts

/-! ## The formatter (package `formatter`) -/

/-- The style options read by the statement formatter, `f.conf`. -/
structure Config where
  ElseIf : Bool
  ReturnArgumentParenthesis : Bool
  deriving DecidableEq, Repr

/-- The formatter: its configuration and the helper methods that
`statement_format.go` calls and that are defined in other files. -/
structure Formatter (β : Type) where
  conf : Config
  formatComment : Comments → String → Int → β
  indent : Int → β
  trailing : Comments → β
  formatExpression : Expression → β
  formatString : Str → β

/-- What `buf.WriteString` needs of the output type: writing a Go string. -/
class Writer (β : Type) where
  str : String → β

/-- The program's output type: text. -/
instance : Writer String := ⟨fun s => s⟩

/-- The comment trace: text that is not a comment leaves no trace. -/
instance : Writer (List Comment) := ⟨fun _ => []⟩

open Writer (str)

section Format

variable {β : Type} [Append β] [Writer β]

def formatImportStatement (f : Formatter β) (stmt : ImportStatement) : β :=
  f.formatComment stmt.Leading "\n" stmt.Nest
    ++ f.indent stmt.Nest
    ++ str "import "
    ++ str stmt.Name.Value
    ++ str ";"
    ++ f.trailing stmt.Trailing

def formatIncludeStatement (f : Formatter β) (stmt : IncludeStatement) : β :=
  f.formatComment stmt.Leading "\n" stmt.Nest
    ++ f.indent stmt.Nest
    ++ str "include "
    ++ f.formatString stmt.Module
    ++ str ";"
    ++ f.trailing stmt.Trailing

def formatDeclareStatement (f : Formatter β) (stmt : DeclareStatement) : β :=
  f.formatComment stmt.Leading "\n" stmt.Nest
    ++ f.indent stmt.Nest
    ++ str ("declare local " ++ stmt.Name.Value)
    ++ str (" " ++ stmt.ValueType.Value)
    ++ str ";"
    ++ f.trailing stmt.Trailing

def formatSetStatement (f : Formatter β) (stmt : SetStatement) : β :=
  f.formatComment stmt.Leading "\n" stmt.Nest
    ++ f.indent stmt.Nest
    ++ str ("set " ++ stmt.Ident.Value)
    ++ str (" " ++ stmt.Operator.Operator ++ " ")
    ++ f.formatExpression stmt.Value
    ++ str ";"
    ++ f.trailing stmt.Trailing

def formatUnsetStatement (f : Formatter β) (stmt : UnsetStatement) : β :=
  f.formatComment stmt.Leading "\n" stmt.Nest
    ++ f.indent stmt.Nest
    ++ str ("unset " ++ stmt.Ident.Value)
    ++ str ";"
    ++ f.trailing stmt.Trailing

def formatRemoveStatement (f : Formatter β) (stmt : RemoveStatement) : β :=
  f.formatComment stmt.Leading "\n" stmt.Nest
    ++ f.indent stmt.Nest
    ++ str ("remove " ++ stmt.Ident.Value)
    ++ str ";"
    ++ f.trailing stmt.Trailing

def formatRestartStatement (f : Formatter β) (stmt : RestartStatement) : β :=
  f.formatComment stmt.Leading "\n" stmt.Nest
    ++ f.indent stmt.Nest
    ++ str "restart;"
    ++ f.trailing stmt.Trailing

def formatEsiStatement (f : Formatter β) (stmt : EsiStatement) : β :=
  f.formatComment stmt.Leading "\n" stmt.Nest
    ++ f.indent stmt.Nest
    ++ str "esi;"
    ++ f.trailing stmt.Trailing

def formatAddStatement (f : Formatter β) (stmt : AddStatement) : β :=
  f.formatComment stmt.Leading "\n" stmt.Nest
    ++ f.indent stmt.Nest
    ++ str ("add " ++ stmt.Ident.Value)
    ++ str (" " ++ stmt.Operator.Operator ++ " ")
    ++ f.formatExpression stmt.Value
    ++ str ";"
    ++ f.trailing stmt.Trailing

def formatCallStatement (f : Formatter β) (stmt : CallStatement) : β :=
  f.formatComment stmt.Leading "\n" stmt.Nest
    ++ f.indent stmt.Nest
    ++ str ("call " ++ stmt.Subroutine.Value)
    ++ str ";"
    ++ f.trailing stmt.Trailing

def formatErrorStatement (f : Formatter β) (stmt : ErrorStatement) : β :=
  f.formatComment stmt.Leading "\n" stmt.Nest
    ++ f.indent stmt.Nest
    ++ (str "error " ++ f.formatExpression stmt.Code)
    ++ (match stmt.Argument with
        | some arg => str " " ++ f.formatExpression arg
        | none => str "")
    ++ str ";"
    ++ f.trailing stmt.Trailing

def formatLogStatement (f : Formatter β) (stmt : LogStatement) : β :=
  f.formatComment stmt.Leading "\n" stmt.Nest
    ++ f.indent stmt.Nest
    ++ (str "log " ++ f.formatExpression stmt.Value)
    ++ str ";"
    ++ f.trailing stmt.Trailing

def formatReturnStatement (f : Formatter β) (stmt : ReturnStatement) : β :=
  f.formatComment stmt.Leading "\n" stmt.Nest
    ++ f.indent stmt.Nest
    ++ str "return"
    ++ (match stmt.ReturnExpression with
        | some e =>
          let pre := if f.conf.ReturnArgumentParenthesis then " (" else " "
          let suf := if f.conf.ReturnArgumentParenthesis then ")" else ""
          str pre ++ f.formatExpression e ++ str suf
        | none => str "")
    ++ str ";"
    ++ f.trailing stmt.Trailing

def formatSyntheticStatement (f : Formatter β) (stmt : SyntheticStatement) : β :=
  f.formatComment stmt.Leading "\n" stmt.Nest
    ++ f.indent stmt.Nest
    ++ (str "synthetic " ++ f.formatExpression stmt.Value)
    ++ str ";"
    ++ f.trailing stmt.Trailing

def formatSyntheticBase64Statement (f : Formatter β)
    (stmt : SyntheticBase64Statement) : β :=
  f.formatComment stmt.Leading "\n" stmt.Nest
    ++ f.indent stmt.Nest
    ++ (str "synthetic.base64 " ++ f.formatExpression stmt.Value)
    ++ str ";"
    ++ f.trailing stmt.Trailing

def formatGotoStatement (f : Formatter β) (stmt : GotoStatement) : β :=
  f.formatComment stmt.Leading "\n" stmt.Nest
    ++ f.indent stmt.Nest
    ++ str ("goto " ++ stmt.Destination.Value)
    ++ str ";"
    ++ f.trailing stmt.Trailing

def formatGotoDestinationStatement (f : Formatter β)
    (stmt : GotoDestinationStatement) : β :=
  f.formatComment stmt.Leading "\n" stmt.Nest
    ++ f.indent stmt.Nest
    ++ str stmt.Name.Value
    ++ f.trailing stmt.Trailing

/-- The argument loop of `formatFunctionCallStatement`: `n` is
`len(stmt.Arguments)`, `i` the index of the first argument of the list. -/
def formatArguments (f : Formatter β) (n : Nat) : Nat → List Expression → β
  | _, [] => str ""
  | i, a :: rest =>
    f.formatExpression a
      ++ (if (i : Int) ≠ (n : Int) - 1 then str ", " else str "")
      ++ formatArguments f n (i + 1) rest

def formatFunctionCallStatement (f : Formatter β)
    (stmt : FunctionCallStatement) : β :=
  f.formatComment stmt.Leading "\n" stmt.Nest
    ++ f.indent stmt.Nest
    ++ str (stmt.Function.Value ++ "(")
    ++ formatArguments f stmt.Arguments.length 0 stmt.Arguments
    ++ str ");"
    ++ f.trailing stmt.Trailing

/-- The label of a switch case: `case <value>:` or `default:`. -/
def formatCaseLabel (f : Formatter β) : Option InfixExpression → β
  | some test =>
    str "case "
      ++ (if test.Operator = "~" then str "~ " else str "")
      ++ f.formatExpression test.Right
      ++ str ":\n"
  | none => str "default:\n"

/-- What an else-if branch or the else branch writes before its keyword. -/
def formatBranchLeading (f : Formatter β) (m : Meta) : β :=
  if m.Leading.length > 0 then
    str "\n" ++ f.formatComment m.Leading "\n" m.Nest ++ f.indent m.Nest
  else
    str " "

mutual
def formatStatement (f : Formatter β) : Statement → β
  | .blockStmt t => formatBlockStatement f t true
  | .importStmt t => formatImportStatement f t
  | .includeStmt t => formatIncludeStatement f t
  | .declareStmt t => formatDeclareStatement f t
  | .setStmt t => formatSetStatement f t
  | .unsetStmt t => formatUnsetStatement f t
  | .removeStmt t => formatRemoveStatement f t
  | .ifStmt t => formatIfStatement f t
  | .switchStmt t => formatSwitchStatement f t
  | .restartStmt t => formatRestartStatement f t
  | .esiStmt t => formatEsiStatement f t
  | .addStmt t => formatAddStatement f t
  | .callStmt t => formatCallStatement f t
  | .errorStmt t => formatErrorStatement f t
  | .logStmt t => formatLogStatement f t
  | .returnStmt t => formatReturnStatement f t
  | .syntheticStmt t => formatSyntheticStatement f t
  | .syntheticBase64Stmt t => formatSyntheticBase64Statement f t
  | .gotoStmt t => formatGotoStatement f t
  | .gotoDestinationStmt t => formatGotoDestinationStatement f t
  | .functionCallStmt t => formatFunctionCallStatement f t
  | .breakStmt _ => str ""
def formatBlockStatement (f : Formatter β) : BlockStatement → Bool → β
  | .mk m stmts, isIndependent =>
    (if isIndependent then
        f.formatComment m.Leading "\n" (m.Nest - 1) ++ f.indent (m.Nest - 1)
      else str "")
      ++ str "\x7b\n"
      ++ formatBlockChildren f stmts
      ++ (if m.Infix.length > 0 then f.formatComment m.Infix "\n" m.Nest
          else str "")
      ++ f.indent (m.Nest - 1)
      ++ str "\x7d"
      ++ f.trailing m.Trailing
/-- The loop over `stmt.Statements` of `formatBlockStatement`. -/
def formatBlockChildren (f : Formatter β) : List Statement → β
  | [] => str ""
  | s :: rest => formatStatement f s ++ str "\n" ++ formatBlockChildren f rest
def formatIfStatement (f : Formatter β) : IfStatement → β
  | .mk m keyword cond cons another alt =>
    f.formatComment m.Leading "\n" m.Nest
      ++ f.indent m.Nest
      ++ (str keyword ++ str " (" ++ f.formatExpression cond ++ str ") ")
      ++ formatBlockStatement f cons false
      ++ formatAnother f another
      ++ formatAlternative f alt
      ++ f.trailing m.Trailing
/-- The loop over `stmt.Another` of `formatIfStatement`. -/
def formatAnother (f : Formatter β) : List IfStatement → β
  | [] => str ""
  | a :: rest => formatElseIf f a ++ formatAnother f rest
/-- One iteration of the loop over `stmt.Another`. -/
def formatElseIf (f : Formatter β) : IfStatement → β
  | .mk m keyword cond cons _ _ =>
    formatBranchLeading f m
      ++ (str (if f.conf.ElseIf then "else if" else keyword)
          ++ str " (" ++ f.formatExpression cond ++ str ") ")
      ++ formatBlockStatement f cons false
/-- The else branch of `formatIfStatement`. -/
def formatAlternative (f : Formatter β) : Option BlockStatement → β
  | none => str ""
  | some alt =>
    formatBranchLeading f alt.toMeta
      ++ str "else "
      ++ formatBlockStatement f alt false
def formatSwitchStatement (f : Formatter β) : SwitchStatement → β
  | .mk m control cases =>
    f.formatComment m.Leading "\n" m.Nest
      ++ f.indent m.Nest
      ++ (str "switch (" ++ f.formatExpression control ++ str ") \x7b\n")
      ++ formatCases f cases
      ++ (if m.Infix.length > 0 then f.formatComment m.Infix "\n" m.Nest
          else str "")
      ++ f.indent m.Nest
      ++ str "\x7d"
      ++ f.trailing m.Trailing
/-- The loop over `stmt.Cases` of `formatSwitchStatement`. -/
def formatCases (f : Formatter β) : List CaseStatement → β
  | [] => str ""
  | c :: rest => formatCase f c ++ formatCases f rest
/-- One iteration of the loop over `stmt.Cases`. -/
def formatCase (f : Formatter β) : CaseStatement → β
  | .mk m test stmts fall =>
    f.formatComment m.Leading "\n" m.Nest
      ++ f.indent m.Nest
      ++ formatCaseLabel f test
      ++ formatCaseStatements f m.Nest stmts
      ++ (if fall then f.indent (m.Nest + 1) ++ str "fallthrough;\n"
          else str "")
/-- The loop over `c.Statements` of `formatSwitchStatement`; `nest` is
`c.Meta.Nest`. -/
def formatCaseStatements (f : Formatter β) (nest : Int) : List Statement → β
  | [] => str ""
  | s :: rest =>
    (match s with
      | .breakStmt _ => f.indent (nest + 1) ++ str "break;"
      | s => formatStatement f s)
      ++ str "\n"
      ++ formatCaseStatements f nest rest
end

end Format

/-! ## Field accessors of the recursive node types -/

/-- The metadata of an if statement (the embedded `*Meta`). -/
def IfStatement.toMeta : IfStatement → Meta
  | .mk m _ _ _ _ _ => m

/-- The field `Keyword` of an if statement. -/
def IfStatement.Keyword : IfStatement → String
  | .mk _ keyword _ _ _ _ => keyword

/-- The field `Condition` of an if statement. -/
def IfStatement.Condition : IfStatement → Expression
  | .mk _ _ cond _ _ _ => cond

/-- The field `Consequence` of an if statement. -/
def IfStatement.Consequence : IfStatement → BlockStatement
  | .mk _ _ _ cons _ _ => cons

/-- The field `Another` of an if statement. -/
def IfStatement.Another : IfStatement → List IfStatement
  | .mk _ _ _ _ another _ => another

/-- The field `Alternative` of an if statement. -/
def IfStatement.Alternative : IfStatement → Option BlockStatement
  | .mk _ _ _ _ _ alt => alt

/-- The metadata of a switch statement. -/
def SwitchStatement.toMeta : SwitchStatement → Meta
  | .mk m _ _ => m

/-- The field `Control` of a switch statement. -/
def SwitchStatement.Control : SwitchStatement → Expression
  | .mk _ control _ => control

/-- The field `Cases` of a switch statement. -/
def SwitchStatement.Cases : SwitchStatement → List CaseStatement
  | .mk _ _ cases => cases

/-- The metadata of a case. -/
def CaseStatement.toMeta : CaseStatement → Meta
  | .mk m _ _ _ => m

/-- The field `Test` of a case. -/
def CaseStatement.Test : CaseStatement → Option InfixExpression
  | .mk _ test _ _ => test

/-- The field `Statements` of a case. -/
def CaseStatement.Statements : CaseStatement → List Statement
  | .mk _ _ stmts _ => stmts

/-- The field `Fallthrough` of a case. -/
def CaseStatement.Fallthrough : CaseStatement → Bool
  | .mk _ _ _ fall => fall

/-- The type test `s.(*ast.BreakStatement)`. -/
def Statement.isBreak : Statement → Bool
  | .breakStmt _ => true
  | _ => false

/-- The metadata of a statement, whatever its kind. -/
def Statement.toMeta : Statement → Meta
  | .blockStmt t => t.toMeta
  | .importStmt t => t.toMeta
  | .includeStmt t => t.toMeta
  | .declareStmt t => t.toMeta
  | .setStmt t => t.toMeta
  | .unsetStmt t => t.toMeta
  | .removeStmt t => t.toMeta
  | .ifStmt t => t.toMeta
  | .switchStmt t => t.toMeta
  | .restartStmt t => t.toMeta
  | .esiStmt t => t.toMeta
  | .addStmt t => t.toMeta
  | .callStmt t => t.toMeta
  | .errorStmt t => t.toMeta
  | .logStmt t => t.toMeta
  | .returnStmt t => t.toMeta
  | .syntheticStmt t => t.toMeta
  | .syntheticBase64Stmt t => t.toMeta
  | .gotoStmt t => t.toMeta
  | .gotoDestinationStmt t => t.toMeta
  | .functionCallStmt t => t.toMeta
  | .breakStmt t => t.toMeta

/-! ## A concrete formatter

The helper methods are not part of the sources. The text formatter below
fixes them as the specification describes them, so that the functions above
can be run on concrete trees. -/

namespace Sample

/-- Modelled from the spec: `indent`, which is not in the sources; one fixed
indent unit (two spaces) per nesting level. -/
def indent (n : Int) : String :=
  String.mk (List.replicate (2 * n.toNat) ' ')

/-- Modelled from the spec: `formatComment`, which is not in the sources; each
comment on its own line, at the given indent, followed by the separator. -/
def formatComment (cs : Comments) (sep : String) (n : Int) : String :=
  String.join (cs.map fun c => indent n ++ c.Value ++ sep)

/-- Modelled from the spec: `trailing`, which is not in the sources; the
trailing comment appended on the same line if present. -/
def trailing (cs : Comments) : String :=
  String.join (cs.map fun c => " " ++ c.Value)

/-- Modelled from the spec: `formatString`, which is not in the sources; a
plain string in double quotes, a long string in its brace delimiters. -/
def formatString (t : Str) : String :=
  if t.LongString then "\x7b\"" ++ t.Value ++ "\"\x7d"
  else "\"" ++ t.Value ++ "\""

mutual
/-- Modelled from the spec: `formatExpression`, which is not in the sources;
expressions on one line, arguments separated by a comma and a space. -/
def formatExpression : Expression → String
  | .ident t => t.Value
  | .string t => formatString t
  | .ifExpr _ c a b =>
    "if (" ++ formatExpression c ++ ", " ++ formatExpression a ++ ", "
      ++ formatExpression b ++ ")"
  | .infixExpr t => formatInfixExpression t
  | .functionCall _ fn args => fn.Value ++ "(" ++ formatExpressions args ++ ")"
/-- The infix case of the sample `formatExpression`. -/
def formatInfixExpression : InfixExpression → String
  | .mk _ l op r => formatExpression l ++ " " ++ op ++ " " ++ formatExpression r
/-- The argument list of the sample `formatExpression`. -/
def formatExpressions : List Expression → String
  | [] => ""
  | [a] => formatExpression a
  | a :: b :: rest =>
    formatExpression a ++ ", " ++ formatExpressions (b :: rest)
end

end Sample

/-- The text formatter: the program with the sample helper methods. -/
def textFormatter (conf : Config) : Formatter String where
  conf := conf
  formatComment := Sample.formatComment
  indent := Sample.indent
  trailing := Sample.trailing
  formatExpression := Sample.formatExpression
  formatString := Sample.formatString

/-- The comment trace: the comment writers `formatComment` and `trailing`
record the comments they are handed; indentation and expressions record
nothing. Run with it, a format function returns the statement comments it
writes, in output order. -/
def commentTrace (conf : Config) : Formatter (List Comment) where
  conf := conf
  formatComment := fun cs _ _ => cs
  indent := fun _ => []
  trailing := fun cs => cs
  formatExpression := fun _ => []
  formatString := fun _ => []

/-- The default style: the keywords of the source are kept. -/
def defaultConfig : Config :=
  { ElseIf := false, ReturnArgumentParenthesis := false }

/-! ## Specification-side definitions -/

/-- The keyword and content of a simple statement, the text that stands between
the indent and the terminating semicolon; none for the statements that are no
such statement (block, if, switch, goto label, break). -/
def simpleStatementContent (f : Formatter String) : Statement → Option String
  | .importStmt t => some ("import " ++ t.Name.Value)
  | .includeStmt t => some ("include " ++ f.formatString t.Module)
  | .declareStmt t => some ("declare local " ++ t.Name.Value ++ " " ++ t.ValueType.Value)
  | .setStmt t =>
    some ("set " ++ t.Ident.Value ++ " " ++ t.Operator.Operator ++ " "
      ++ f.formatExpression t.Value)
  | .unsetStmt t => some ("unset " ++ t.Ident.Value)
  | .removeStmt t => some ("remove " ++ t.Ident.Value)
  | .restartStmt _ => some "restart"
  | .esiStmt _ => some "esi"
  | .addStmt t =>
    some ("add " ++ t.Ident.Value ++ " " ++ t.Operator.Operator ++ " "
      ++ f.formatExpression t.Value)
  | .callStmt t => some ("call " ++ t.Subroutine.Value)
  | .errorStmt t =>
    some ("error " ++ f.formatExpression t.Code
      ++ (match t.Argument with
          | some arg => " " ++ f.formatExpression arg
          | none => ""))
  | .logStmt t => some ("log " ++ f.formatExpression t.Value)
  | .returnStmt t =>
    some ("return"
      ++ (match t.ReturnExpression with
          | some e =>
            if f.conf.ReturnArgumentParenthesis then " (" ++ f.formatExpression e ++ ")"
            else " " ++ f.formatExpression e
          | none => ""))
  | .syntheticStmt t => some ("synthetic " ++ f.formatExpression t.Value)
  | .syntheticBase64Stmt t => some ("synthetic.base64 " ++ f.formatExpression t.Value)
  | .gotoStmt t => some ("goto " ++ t.Destination.Value)
  | .functionCallStmt t =>
    some (t.Function.Value ++ "("
      ++ ", ".intercalate (t.Arguments.map f.formatExpression) ++ ")")
  | .blockStmt _ => none
  | .ifStmt _ => none
  | .switchStmt _ => none
  | .gotoDestinationStmt _ => none
  | .breakStmt _ => none

/-- The comments of the three slots of a node, around the comments `inner` of
the nodes it contains. -/
def Meta.allSlots (m : Meta) (inner : List Comment) : List Comment :=
  m.Leading ++ inner ++ m.Infix ++ m.Trailing

mutual
/-- Every comment held in a leading, infix or trailing slot of a statement
node of the tree, in source order. -/
def Statement.allComments : Statement → List Comment
  | .blockStmt t => t.allComments
  | .ifStmt t => t.allComments
  | .switchStmt t => t.allComments
  | s => s.toMeta.allSlots []
/-- The comments of a block and of the statements in it. -/
def BlockStatement.allComments : BlockStatement → List Comment
  | .mk m stmts => m.allSlots (allCommentsOfStatements stmts)
/-- The comments of a list of statements. -/
def allCommentsOfStatements : List Statement → List Comment
  | [] => []
  | s :: rest => s.allComments ++ allCommentsOfStatements rest
/-- The comments of an if statement, of its branches and of their blocks. -/
def IfStatement.allComments : IfStatement → List Comment
  | .mk m _ _ cons another alt =>
    m.allSlots (cons.allComments ++ allCommentsOfBranches another
      ++ allCommentsOfAlternative alt)
/-- The comments of a list of else-if branches. -/
def allCommentsOfBranches : List IfStatement → List Comment
  | [] => []
  | a :: rest => a.allComments ++ allCommentsOfBranches rest
/-- The comments of the else block, when there is one. -/
def allCommentsOfAlternative : Option BlockStatement → List Comment
  | none => []
  | some b => b.allComments
/-- The comments of a switch statement and of its cases. -/
def SwitchStatement.allComments : SwitchStatement → List Comment
  | .mk m _ cases => m.allSlots (allCommentsOfCases cases)
/-- The comments of a list of cases. -/
def allCommentsOfCases : List CaseStatement → List Comment
  | [] => []
  | c :: rest => c.allComments ++ allCommentsOfCases rest
/-- The comments of a case and of the statements in it. -/
def CaseStatement.allComments : CaseStatement → List Comment
  | .mk m _ stmts _ => m.allSlots (allCommentsOfStatements stmts)
end

/-! ## Concrete trees -/

/-- The identifier expression `name`, at depth 0. -/
def var (name : String) : Expression :=
  .ident { Nest := 0, Value := name }

/-- The tree of `if (a) { } // t` followed by `else if (b) { }`: the first
block carries a trailing comment, the else-if branch no leading comment. -/
def ifTrailingThenElseIf : IfStatement :=
  .mk { Nest := 0 } "if" (var "a")
    (.mk { Nest := 1, Trailing := [⟨"// t"⟩] } [])
    [.mk { Nest := 0 } "elsif" (var "b") (.mk { Nest := 1 } []) [] none]
    none

/-- The tree of an if statement with a commented `elseif` branch and an else
branch. -/
def ifElseIfElse : IfStatement :=
  .mk { Nest := 1 } "if" (var "a")
    (.mk { Nest := 2 } [])
    [.mk { Nest := 1, Leading := [⟨"// second"⟩] } "elseif" (var "b")
      (.mk { Nest := 2 } []) [] none]
    (some (.mk { Nest := 2 } []))

/-- The tree of the label statement `retry:`. -/
def retryLabel : Statement :=
  .gotoDestinationStmt { Nest := 0, Name := { Nest := 0, Value := "retry:" } }

/-- The tree of the call statement `regsub(a, b);` with a leading comment. -/
def regsubCall : Statement :=
  .functionCallStmt
    { Nest := 1, Leading := [⟨"// call"⟩], Function := { Nest := 1, Value := "regsub" },
      Arguments := [var "a", var "b"] }

/-- The tree of a break statement with a leading comment. -/
def commentedBreak : Statement :=
  .breakStmt { Nest := 1, Leading := [⟨"// stop"⟩] }

/-- The tree of a switch statement whose only case has no test value. -/
def switchWithoutTest : SwitchStatement :=
  .mk { Nest := 1 } (var "x") [.mk { Nest := 1 } none [.breakStmt { Nest := 2 }] false]

/-- The tree of a switch statement whose default case holds a break statement
with a leading and a trailing comment, the tree of
`switch (x) { default: // stop` / `break; // done` / `}`. -/
def switchCommentedBreak : SwitchStatement :=
  .mk { Nest := 1 } (var "x")
    [.mk { Nest := 1 } none
      [.breakStmt { Nest := 2, Leading := [⟨"// stop"⟩], Trailing := [⟨"// done"⟩] }] false]

/-- The tree of `switchCommentedBreak` with an esi statement in the place of
the break statement, the comments the same. -/
def switchCommentedEsi : SwitchStatement :=
  .mk { Nest := 1 } (var "x")
    [.mk { Nest := 1 } none
      [.esiStmt { Nest := 2, Leading := [⟨"// stop"⟩], Trailing := [⟨"// done"⟩] }] false]

/-- The indent level at which `formatStatement` starts a statement: the
recorded `Nest` of the statement, and one less for a block statement, whose
`Nest` is that of its contents. -/
def Statement.indentLevel : Statement → Int
  | .blockStmt t => t.toMeta.Nest - 1
  | s => s.toMeta.Nest

/-- The tree of a case at depth 1 that holds `esi;` recorded at depth 3, a
break statement and the fallthrough flag. -/
def caseWithDeepStatement : CaseStatement :=
  .mk { Nest := 1 } (some (.mk { Nest := 1 } (var "x") "==" (.string { Nest := 1, Value := "a" })))
    [.esiStmt { Nest := 3 }, .breakStmt { Nest := 2 }] true

/-- The tree of a switch statement with a pattern case and a default case. -/
def switchTwoCases : SwitchStatement :=
  .mk { Nest := 1 } (var "x")
    [.mk { Nest := 1 } (some (.mk { Nest := 1 } (var "x") "~" (.string { Nest := 1, Value := "a" })))
      [.esiStmt { Nest := 2 }, .breakStmt { Nest := 2 }] false,
     .mk { Nest := 1 } none [.restartStmt { Nest := 2 }] false]

/-! ## The test assertion `assert.ends_with` (package `testings`)

A shallow embedding of `interpreter/function/testings/assert_ends_with.go`.
The packages `value` and `errors` are imported by the source but are not part
of it: values are the kinds the function tells apart, errors are recorded by
the constructor that builds them and its arguments. A Go function that indexes
a slice or asserts a type can panic; `Outcome` keeps the two ways out apart. -/

namespace Testings

/-- The type tag of a value, `value.Type`. -/
inductive ValueType where
  | StringType
  | IntegerType
  | BooleanType
  deriving DecidableEq, Repr

/-- A runtime value, `value.Value`: a string, and two kinds that are no
string. -/
inductive Value where
  | String (Value : String)
  | Integer (Value : Int)
  | Boolean (Value : Bool)
  deriving DecidableEq, Repr

/-- The method `Type()` of a value. -/
def Value.Type : Value → ValueType
  | .String _ => .StringType
  | .Integer _ => .IntegerType
  | .Boolean _ => .BooleanType

/-- The errors built by `Assert_ends_with_lookup_Validate`, by constructor:
`errors.ArgumentNotInRange(name, min, max, args)` and
`errors.TypeMismatch(name, num, expect, actual)`. -/
inductive ValidateError where
  | ArgumentNotInRange (name : String) (min max : Nat) (args : List Value)
  | TypeMismatch (name : String) (num : Nat) (expect actual : ValueType)
  deriving DecidableEq, Repr

/-- The errors returned by `Assert_ends_with`, by constructor:
`errors.NewTestingError(err.Error())`, kept with the error whose text it
carries, and `errors.NewAssertionError(format, args...)`. -/
inductive AssertError where
  | TestingError (cause : ValidateError)
  | AssertionError (format : String) (args : List String)
  deriving DecidableEq, Repr

/-- How a Go call ends: it returns, or it panics (an index out of range, a
failed unwrap). -/
inductive Outcome (α : Type) where
  | returned (result : α)
  | panicked
  deriving DecidableEq, Repr

def Assert_ends_with_lookup_Name : String := "assert"

def Assert_ends_with_lookup_ArgumentTypes : List ValueType :=
  [.StringType, .StringType]

/-- The loop `for i := range Assert_ends_with_lookup_ArgumentTypes` of
`Assert_ends_with_lookup_Validate`, from index `i` on, `types` being the
argument types from that index. Indexing `args[i]` outside the list panics. -/
def validateArgumentTypes (args : List Value) : Nat → List ValueType →
    Outcome (Option ValidateError)
  | _, [] => .returned none
  | i, ty :: rest =>
    match args[i]? with
    | none => .panicked
    | some a =>
      if a.Type ≠ ty then
        .returned (some (.TypeMismatch Assert_ends_with_lookup_Name (i + 1) ty a.Type))
      else validateArgumentTypes args (i + 1) rest

/-- The validation of the arguments; `returned none` is the nil error. -/
def Assert_ends_with_lookup_Validate (args : List Value) :
    Outcome (Option ValidateError) :=
  if args.length < 2 ∨ args.length > 3 then
    .returned (some (.ArgumentNotInRange Assert_ends_with_lookup_Name 2 3 args))
  else
    match validateArgumentTypes args 0 Assert_ends_with_lookup_ArgumentTypes with
    | .panicked => .panicked
    | .returned (some err) => .returned (some err)
    | .returned none =>
      if args.length = 3 then
        match args[2]? with
        | none => .panicked
        | some a =>
          if a.Type ≠ .StringType then
            .returned (some (.TypeMismatch Assert_ends_with_lookup_Name 3 .StringType a.Type))
          else .returned none
      else .returned none

/-- The string held by `value.Unwrap[*value.String](v)`; unwrapping a value of
another kind and reading its field panics. -/
def unwrapString : Value → Outcome String
  | .String s => .returned s
  | _ => .panicked

/-- The function `strings.HasSuffix` of the Go standard library:
`len(s) >= len(suffix) && s[len(s)-len(suffix):] == suffix`, on the sequence
of the elements of the strings. -/
def HasSuffix (s suffix : String) : Bool :=
  decide (suffix.length ≤ s.length)
    && (s.toList.drop (s.length - suffix.length) == suffix.toList)

/-- The assertion: the pair of the returned value and the returned error,
each nil (`none`) or not. -/
def Assert_ends_with (args : List Value) : Outcome (Option Value × Option AssertError) :=
  match Assert_ends_with_lookup_Validate args with
  | .panicked => .panicked
  | .returned (some err) => .returned (none, some (.TestingError err))
  | .returned none =>
    -- Check custom message
    match (if args.length = 3 then
            match args[2]? with
            | none => Outcome.panicked
            | some a => unwrapString a
          else Outcome.returned "") with
    | .panicked => .panicked
    | .returned message =>
      match args[0]? with
      | none => .panicked
      | some a0 =>
        match unwrapString a0 with
        | .panicked => .panicked
        | .returned expect =>
          match args[1]? with
          | none => .panicked
          | some a1 =>
            match unwrapString a1 with
            | .panicked => .panicked
            | .returned actual =>
              let ret := HasSuffix expect actual
              if !ret then
                if message ≠ "" then
                  .returned (some (.Boolean ret), some (.AssertionError message []))
                else
                  .returned (some (.Boolean ret),
                    some (.AssertionError "%s should end with string %s" [expect, actual]))
              else .returned (some (.Boolean ret), none)

/-- The arguments are valid: there are two or three of them and each of them
is of string type. -/
def ValidArguments (args : List Value) : Prop :=
  (args.length = 2 ∨ args.length = 3) ∧ ∀ a ∈ args, a.Type = .StringType

end Testings

/-! ## The lexer and the parser (packages `lexer` and `parser`)

The sources hold the tests of the parser and neither the lexer nor the parser.
Both are modelled here from the specification (sections 3, 4.1, 4.2, 4.3 and
9): a lexer from text to tokens with out-of-band comment tokens, a
precedence-climbing expression parser and a recursive-descent statement parser
that threads the pending comments and the nesting depth. The model covers the
expressions of `Expression` and the statements the parser tests exercise
(subroutine, set, add, unset, remove, log, if with its branches, block); the
recursive functions take fuel, one unit a call. -/

namespace Parser

/-- Modelled from the spec: the kinds of token of the lexer, which is not in
the sources (keywords, identifiers, literals, operators, punctuation, comments,
the end marker). -/
inductive TokenType where
  | IDENT | STRING | LONG_STRING | COMMENT
  | LEFT_PAREN | RIGHT_PAREN | LEFT_BRACE | RIGHT_BRACE | COMMA | SEMICOLON
  | OPERATOR | ASSIGNMENT
  | SUBROUTINE | SET | ADD | UNSET | REMOVE | LOG | IF | ELSE | ELSEIF
  | EOF
  deriving DecidableEq, Repr

/-- Modelled from the spec: a token of the lexer, which is not in the sources;
its kind, its raw text and the source line it starts on. -/
structure Token where
  Kind : TokenType
  Literal : String
  Line : Nat
  deriving DecidableEq, Repr

/-- Modelled from the spec: the error of the lexer, which is not in the
sources; a line and a message. -/
structure LexError where
  Line : Nat
  Message : String
  deriving DecidableEq, Repr

/-- Modelled from the spec: the characters an identifier of the language
starts with. -/
def isIdentStart (c : Char) : Bool :=
  c.isAlpha || c == '_'

/-- Modelled from the spec: the characters an identifier of the language goes
on with (`req.http.X-Trace-Id`, `uuid.version4`, `vcl_recv`). -/
def isIdentChar (c : Char) : Bool :=
  c.isAlphanum || c == '_' || c == '.' || c == '-'

/-- Modelled from the spec: the keywords among the identifiers. -/
def keywordOf (name : String) : TokenType :=
  if name = "sub" then .SUBROUTINE
  else if name = "set" then .SET
  else if name = "add" then .ADD
  else if name = "unset" then .UNSET
  else if name = "remove" then .REMOVE
  else if name = "log" then .LOG
  else if name = "if" then .IF
  else if name = "else" then .ELSE
  else if name = "elseif" ∨ name = "elsif" then .ELSEIF
  else .IDENT

/-- Modelled from the spec: the text up to the end of the line, and the rest
from the line feed on. -/
def takeLine : List Char → List Char × List Char
  | [] => ([], [])
  | c :: cs => if c = '\n' then ([], c :: cs) else (c :: (takeLine cs).1, (takeLine cs).2)

/-- Modelled from the spec: the text up to the two closing characters `a`
`b`, and the rest after them; none when the text is not closed. -/
def takeUntilClose (a b : Char) : List Char → Option (List Char × List Char)
  | [] => none
  | [_] => none
  | c :: d :: cs =>
    if c = a ∧ d = b then some ([], cs)
    else
      match takeUntilClose a b (d :: cs) with
      | none => none
      | some (body, rest) => some (c :: body, rest)

/-- Modelled from the spec: the text up to the closing double quote, and the
rest after it; none when the string is not closed. -/
def takeString : List Char → Option (List Char × List Char)
  | [] => none
  | c :: cs =>
    if c = '"' then some ([], cs)
    else
      match takeString cs with
      | none => none
      | some (body, rest) => some (c :: body, rest)

/-- Modelled from the spec: the identifier characters at the head of the
text, and the rest. -/
def takeIdent : List Char → List Char × List Char
  | [] => ([], [])
  | c :: cs => if isIdentChar c then (c :: (takeIdent cs).1, (takeIdent cs).2) else ([], c :: cs)

/-- Modelled from the spec: the number of line feeds in a text. -/
def countLines (cs : List Char) : Nat :=
  (cs.filter (· = '\n')).length

/-- Modelled from the spec: a token put before the tokens of the rest of the
text. -/
def emit (t : Token) : Except LexError (List Token) → Except LexError (List Token)
  | .ok ts => .ok (t :: ts)
  | .error e => .error e

/-- Modelled from the spec: the operator or punctuation token at the head of
the text, longest first, and the rest; none when there is none. -/
def takeSymbol : List Char → Option (TokenType × String × List Char)
  | '&' :: '&' :: cs => some (.OPERATOR, "&&", cs)
  | '|' :: '|' :: cs => some (.OPERATOR, "||", cs)
  | '=' :: '=' :: cs => some (.OPERATOR, "==", cs)
  | '!' :: '=' :: cs => some (.OPERATOR, "!=", cs)
  | '!' :: '~' :: cs => some (.OPERATOR, "!~", cs)
  | '<' :: '=' :: cs => some (.OPERATOR, "<=", cs)
  | '>' :: '=' :: cs => some (.OPERATOR, ">=", cs)
  | '+' :: '=' :: cs => some (.ASSIGNMENT, "+=", cs)
  | '-' :: '=' :: cs => some (.ASSIGNMENT, "-=", cs)
  | '~' :: cs => some (.OPERATOR, "~", cs)
  | '<' :: cs => some (.OPERATOR, "<", cs)
  | '>' :: cs => some (.OPERATOR, ">", cs)
  | '+' :: cs => some (.OPERATOR, "+", cs)
  | '-' :: cs => some (.OPERATOR, "-", cs)
  | '=' :: cs => some (.ASSIGNMENT, "=", cs)
  | '(' :: cs => some (.LEFT_PAREN, "(", cs)
  | ')' :: cs => some (.RIGHT_PAREN, ")", cs)
  | '\x7b' :: cs => some (.LEFT_BRACE, "\x7b", cs)
  | '\x7d' :: cs => some (.RIGHT_BRACE, "\x7d", cs)
  | ',' :: cs => some (.COMMA, ",", cs)
  | ';' :: cs => some (.SEMICOLON, ";", cs)
  | _ => none

/-- Modelled from the spec: the lexer, which is not in the sources. The tokens
of a text from line `line` on, ended by the end marker; comments are tokens of
their own and keep their delimiters, a long string is one token and keeps its
line feeds; an unterminated literal or comment and an unrecognised character
are errors. One unit of fuel a token or blank. -/
def lexFuel : Nat → Nat → List Char → Except LexError (List Token)
  | 0, line, _ => .error ⟨line, "out of fuel"⟩
  | _ + 1, line, [] => .ok [⟨.EOF, "", line⟩]
  | n + 1, line, c :: cs =>
    if c = '\n' then lexFuel n (line + 1) cs
    else if c = ' ' ∨ c = '\t' ∨ c = '\r' then lexFuel n line cs
    else if c = '#' ∨ (c = '/' ∧ cs.head? = some '/') then
      emit ⟨.COMMENT, String.mk (takeLine (c :: cs)).1, line⟩
        (lexFuel n line (takeLine (c :: cs)).2)
    else if c = '/' ∧ cs.head? = some '*' then
      match takeUntilClose '*' '/' cs.tail with
      | none => .error ⟨line, "unterminated comment"⟩
      | some (body, rest) =>
        emit ⟨.COMMENT, "/*" ++ String.mk body ++ "*/", line⟩
          (lexFuel n (line + countLines body) rest)
    else if c = '\x7b' ∧ cs.head? = some '"' then
      match takeUntilClose '"' '\x7d' cs.tail with
      | none => .error ⟨line, "unterminated long string"⟩
      | some (body, rest) =>
        emit ⟨.LONG_STRING, String.mk body, line⟩ (lexFuel n (line + countLines body) rest)
    else if c = '"' then
      match takeString cs with
      | none => .error ⟨line, "unterminated string"⟩
      | some (body, rest) =>
        emit ⟨.STRING, String.mk body, line⟩ (lexFuel n (line + countLines body) rest)
    else
      match takeSymbol (c :: cs) with
      | some (ty, text, rest) => emit ⟨ty, text, line⟩ (lexFuel n line rest)
      | none =>
        if isIdentStart c then
          emit ⟨keywordOf (String.mk (takeIdent (c :: cs)).1),
              String.mk (takeIdent (c :: cs)).1, line⟩
            (lexFuel n line (takeIdent (c :: cs)).2)
        else .error ⟨line, "unrecognized character"⟩

/-- Modelled from the spec: the tokens of a source text; the fuel of the
model is the length of the text plus one, a unit for a step of the lexer. -/
def lex (input : String) : Except LexError (List Token) :=
  lexFuel (input.length + 1) 1 input.toList

/-- Modelled from the spec: the error of the parser, which is not in the
sources; the token found (it carries the position) and what was expected, the
end of the tokens, or the exhaustion of the fuel of the model. -/
inductive ParseError where
  | unexpected (found : Token) (expected : String)
  | unexpectedEnd (expected : String)
  | outOfFuel
  deriving DecidableEq, Repr

/-- Modelled from the spec: the result of a parsing function, the node and the
tokens left, or an error. -/
abbrev Parsed (α : Type) := Except ParseError (α × List Token)

/-- Modelled from the spec: a comment token as a comment of the tree. -/
def Token.toComment (t : Token) : Comment :=
  ⟨t.Literal⟩

/-- Modelled from the spec: the comment collector; the comments at the head of
the tokens (the pending comments) and the tokens from the first code token
on. -/
def takeComments : List Token → Comments × List Token
  | [] => ([], [])
  | t :: ts =>
    if t.Kind = .COMMENT then (t.toComment :: (takeComments ts).1, (takeComments ts).2)
    else ([], t :: ts)

/-- Modelled from the spec: the trailing comment of a node whose terminating
token is on line `line`; the next token when it is a comment on that line. -/
def takeTrailing (line : Nat) : List Token → Comments × List Token
  | [] => ([], [])
  | t :: ts =>
    if t.Kind = .COMMENT ∧ t.Line = line then ([t.toComment], ts) else ([], t :: ts)

/-- Modelled from the spec: the next code token when it is of kind `kind`,
with the comments before it and the tokens after it; an error otherwise. -/
def expect (kind : TokenType) (expected : String) (ts : List Token) :
    Except ParseError (Comments × Token × List Token) :=
  match takeComments ts with
  | (_, []) => .error (.unexpectedEnd expected)
  | (cs, t :: rest) =>
    if t.Kind = kind then .ok (cs, t, rest) else .error (.unexpected t expected)

/-- Modelled from the spec: the levels of the precedence table, logical-or <
logical-and < equality < relational < additive and concatenation. -/
def LOWEST : Nat := 0

/-- Modelled from the spec: the precedence of `||`. -/
def OR : Nat := 1

/-- Modelled from the spec: the precedence of `&&`. -/
def AND : Nat := 2

/-- Modelled from the spec: the precedence of equality and match operators. -/
def EQUALS : Nat := 3

/-- Modelled from the spec: the precedence of relational operators. -/
def LESS_GREATER : Nat := 4

/-- Modelled from the spec: the precedence of the additive operators and of
concatenation by juxtaposition. -/
def CONCAT : Nat := 5

/-- Modelled from the spec: the binding power of a token met after an
operand; an operator has that of its table entry, a token that starts an
operand (identifier, string, `if`) that of concatenation, any other token the
lowest. -/
def infixPrecedence (t : Token) : Nat :=
  match t.Kind with
  | .OPERATOR =>
    if t.Literal = "||" then OR
    else if t.Literal = "&&" then AND
    else if t.Literal = "==" ∨ t.Literal = "!=" ∨ t.Literal = "~" ∨ t.Literal = "!~" then EQUALS
    else if t.Literal = "+" ∨ t.Literal = "-" then CONCAT
    else LESS_GREATER
  | .IDENT | .STRING | .LONG_STRING | .IF => CONCAT
  | _ => LOWEST

mutual
/-- Modelled from the spec: `parseExpression(minPrecedence)`, which is not in
the sources; an operand, then operators and operands while the binding power
of the next token exceeds `precedence`. `nest` is the nesting depth recorded
in the nodes. -/
def parseExpression : Nat → Int → Nat → List Token → Parsed Expression
  | 0, _, _, _ => .error .outOfFuel
  | n + 1, nest, precedence, ts =>
    match parseOperand n nest (takeComments ts).1 (takeComments ts).2 with
    | .error e => .error e
    | .ok (left, rest) => parseInfix n nest precedence left rest
/-- Modelled from the spec: a primary expression, the pending comments
`leading` being its leading comments: an identifier, a function call (an
identifier immediately followed by an opening parenthesis), a string, a long
string, or the if-expression `if (condition, consequence, alternative)`. The
comments before a separator of the if-expression are its infix comments. -/
def parseOperand : Nat → Int → Comments → List Token → Parsed Expression
  | 0, _, _, _ => .error .outOfFuel
  | _ + 1, _, _, [] => .error (.unexpectedEnd "expression")
  | n + 1, nest, leading, t :: rest =>
    match t.Kind with
    | .IDENT =>
      match rest with
      | [] => .ok (.ident { Nest := nest, Leading := leading, Value := t.Literal }, rest)
      | p :: rest1 =>
        if p.Kind = .LEFT_PAREN then
          match parseArguments n nest rest1 with
          | .error e => .error e
          | .ok ((args, cs), rest2) =>
            .ok (.functionCall { Nest := nest, Leading := leading, Infix := cs }
              { Nest := nest, Value := t.Literal } args, rest2)
        else .ok (.ident { Nest := nest, Leading := leading, Value := t.Literal }, rest)
    | .STRING =>
      .ok (.string { Nest := nest, Leading := leading, Value := t.Literal }, rest)
    | .LONG_STRING =>
      .ok (.string { Nest := nest, Leading := leading, Value := t.Literal, LongString := true },
        rest)
    | .IF =>
      match expect .LEFT_PAREN "(" rest with
      | .error e => .error e
      | .ok (c0, _, r0) =>
        match parseExpression n nest LOWEST r0 with
        | .error e => .error e
        | .ok (condition, r1) =>
          match expect .COMMA "," r1 with
          | .error e => .error e
          | .ok (c1, _, r2) =>
            match parseExpression n nest LOWEST r2 with
            | .error e => .error e
            | .ok (consequence, r3) =>
              match expect .COMMA "," r3 with
              | .error e => .error e
              | .ok (c2, _, r4) =>
                match parseExpression n nest LOWEST r4 with
                | .error e => .error e
                | .ok (alternative, r5) =>
                  match expect .RIGHT_PAREN ")" r5 with
                  | .error e => .error e
                  | .ok (c3, _, r6) =>
                    .ok (.ifExpr
                      { Nest := nest, Leading := leading, Infix := c0 ++ c1 ++ c2 ++ c3 }
                      condition consequence alternative, r6)
    | _ => .error (.unexpected t "expression")
/-- Modelled from the spec: the loop of `parseExpression` after the operand
`left`. An operator token whose binding power exceeds `precedence` is consumed
and its right operand parsed at the binding power of the operator; the
comments before the operator lead the infix node. A token that starts an
operand is not consumed: the operand is parsed at the precedence of
concatenation and joined to `left` by an infix node with operator `+`. The
loop goes on with the node built, so operators of one level nest to the
left. -/
def parseInfix : Nat → Int → Nat → Expression → List Token → Parsed Expression
  | 0, _, _, _, _ => .error .outOfFuel
  | n + 1, nest, precedence, left, ts =>
    match (takeComments ts).2 with
    | [] => .ok (left, ts)
    | t :: rest =>
      if precedence < infixPrecedence t then
        if t.Kind = .OPERATOR then
          match parseExpression n nest (infixPrecedence t) rest with
          | .error e => .error e
          | .ok (right, rest1) =>
            parseInfix n nest precedence
              (.infixExpr (.mk { Nest := nest, Leading := (takeComments ts).1 } left
                t.Literal right)) rest1
        else
          match parseExpression n nest CONCAT ts with
          | .error e => .error e
          | .ok (right, rest1) =>
            parseInfix n nest precedence
              (.infixExpr (.mk { Nest := nest } left "+" right)) rest1
      else .ok (left, ts)
/-- Modelled from the spec: the argument list of a function call after its
opening parenthesis, possibly empty, up to the closing parenthesis; with the
arguments, the comments met before a separator. -/
def parseArguments : Nat → Int → List Token → Parsed (List Expression × Comments)
  | 0, _, _ => .error .outOfFuel
  | n + 1, nest, ts =>
    match (takeComments ts).2 with
    | [] => .error (.unexpectedEnd ")")
    | t :: rest =>
      if t.Kind = .RIGHT_PAREN then .ok (([], (takeComments ts).1), rest)
      else parseArgumentList n nest ts
/-- Modelled from the spec: one argument and the arguments after it; after an
argument comes a comma and another argument, or the closing parenthesis. -/
def parseArgumentList : Nat → Int → List Token → Parsed (List Expression × Comments)
  | 0, _, _ => .error .outOfFuel
  | n + 1, nest, ts =>
    match parseExpression n nest LOWEST ts with
    | .error e => .error e
    | .ok (argument, rest) =>
      match (takeComments rest).2 with
      | [] => .error (.unexpectedEnd ")")
      | t :: rest1 =>
        if t.Kind = .COMMA then
          match parseArgumentList n nest rest1 with
          | .error e => .error e
          | .ok ((arguments, cs), rest2) =>
            .ok ((argument :: arguments, (takeComments rest).1 ++ cs), rest2)
        else if t.Kind = .RIGHT_PAREN then .ok (([argument], (takeComments rest).1), rest1)
        else .error (.unexpected t ", or )")
end

/-- A subroutine declaration, `ast.SubroutineDeclaration`, as the parser
tests construct it. It is a top-level statement of the Go tree; the statement
formatter never meets it, and it is a type of its own here. -/
structure SubroutineDeclaration extends Meta where
  Name : Ident
  Block : BlockStatement

/-- The root of the tree, `ast.VCL`, as the parser tests construct it: the
top-level statements in order; `Infix` holds the comments after the last of
them. -/
structure VCL where
  Statements : List SubroutineDeclaration
  Infix : Comments := []

/-- Modelled from the spec: the statements `set` and `add` after their
keyword; the target identifier, the operator token and the value expression,
then one terminating semicolon and the trailing comment on its line. `build`
makes the node of the metadata, the identifier, the operator and the value. -/
def parseAssignment (build : Meta → Ident → Operator → Expression → Statement)
    (n : Nat) (nest : Int) (leading : Comments) (ts : List Token) : Parsed Statement :=
  match expect .IDENT "identifier" ts with
  | .error e => .error e
  | .ok (c0, name, r0) =>
    match expect .ASSIGNMENT "assignment operator" r0 with
    | .error e => .error e
    | .ok (c1, op, r1) =>
      match parseExpression n nest LOWEST r1 with
      | .error e => .error e
      | .ok (value, r2) =>
        match expect .SEMICOLON ";" r2 with
        | .error e => .error e
        | .ok (c2, semicolon, r3) =>
          .ok (build
            { Nest := nest, Leading := leading, Trailing := (takeTrailing semicolon.Line r3).1,
              Infix := c0 ++ c1 ++ c2 }
            { Nest := nest, Value := name.Literal }
            { Nest := nest, Operator := op.Literal } value, (takeTrailing semicolon.Line r3).2)

/-- Modelled from the spec: the statements `unset` and `remove` after their
keyword; the target identifier, then one terminating semicolon and the
trailing comment on its line. -/
def parseTarget (build : Meta → Ident → Statement)
    (nest : Int) (leading : Comments) (ts : List Token) : Parsed Statement :=
  match expect .IDENT "identifier" ts with
  | .error e => .error e
  | .ok (c0, name, r0) =>
    match expect .SEMICOLON ";" r0 with
    | .error e => .error e
    | .ok (c1, semicolon, r1) =>
      .ok (build
        { Nest := nest, Leading := leading, Trailing := (takeTrailing semicolon.Line r1).1,
          Infix := c0 ++ c1 }
        { Nest := nest, Value := name.Literal }, (takeTrailing semicolon.Line r1).2)

/-- Modelled from the spec: the statement `log` after its keyword; the value
expression, then one terminating semicolon and the trailing comment on its
line. -/
def parseLogStatement (n : Nat) (nest : Int) (leading : Comments) (ts : List Token) :
    Parsed Statement :=
  match parseExpression n nest LOWEST ts with
  | .error e => .error e
  | .ok (value, r0) =>
    match expect .SEMICOLON ";" r0 with
    | .error e => .error e
    | .ok (c0, semicolon, r1) =>
      .ok (.logStmt
        { Nest := nest, Leading := leading, Trailing := (takeTrailing semicolon.Line r1).1,
          Infix := c0, Value := value }, (takeTrailing semicolon.Line r1).2)

/-- Modelled from the spec: the head of an if statement or of an else-if
branch after its keyword; the condition between parentheses and the opening
brace of the block. With the condition, the comments before the parentheses
and the comments before the brace. -/
def parseCondition (n : Nat) (nest : Int) (ts : List Token) :
    Parsed (Expression × Comments × Comments) :=
  match expect .LEFT_PAREN "(" ts with
  | .error e => .error e
  | .ok (c0, _, r0) =>
    match parseExpression n nest LOWEST r0 with
    | .error e => .error e
    | .ok (condition, r1) =>
      match expect .RIGHT_PAREN ")" r1 with
      | .error e => .error e
      | .ok (c1, _, r2) =>
        match expect .LEFT_BRACE "\x7b" r2 with
        | .error e => .error e
        | .ok (c2, _, r3) => .ok ((condition, c0 ++ c1, c2), r3)

mutual
/-- Modelled from the spec: `parseStatement()`, which is not in the sources;
it dispatches on the keyword `t` and makes the pending comments `leading` the
leading comments of the node. `nest` is the current nesting depth. -/
def parseStatement : Nat → Int → Comments → List Token → Parsed Statement
  | 0, _, _, _ => .error .outOfFuel
  | _ + 1, _, _, [] => .error (.unexpectedEnd "statement")
  | n + 1, nest, leading, t :: rest =>
    match t.Kind with
    | .SET => parseAssignment (fun m i o v => .setStmt { toMeta := m, Ident := i, Operator := o, Value := v }) n nest leading rest
    | .ADD => parseAssignment (fun m i o v => .addStmt { toMeta := m, Ident := i, Operator := o, Value := v }) n nest leading rest
    | .UNSET => parseTarget (fun m i => .unsetStmt { toMeta := m, Ident := i }) nest leading rest
    | .REMOVE => parseTarget (fun m i => .removeStmt { toMeta := m, Ident := i }) nest leading rest
    | .LOG => parseLogStatement n nest leading rest
    | .IF =>
      match parseCondition n nest rest with
      | .error e => .error e
      | .ok ((condition, cs, blockLeading), r0) =>
        match parseBlockStatement n nest blockLeading r0 with
        | .error e => .error e
        | .ok ((consequence, line), r1) =>
          match parseElse n nest line r1 with
          | .error e => .error e
          | .ok ((another, alternative, last), r2) =>
            .ok (.ifStmt (.mk
              { Nest := nest, Leading := leading, Trailing := (takeTrailing last r2).1,
                Infix := cs }
              t.Literal condition consequence another alternative), (takeTrailing last r2).2)
    | .LEFT_BRACE =>
      match parseBlockStatement n nest leading rest with
      | .error e => .error e
      | .ok ((.mk m stmts, line), r0) =>
        .ok (.blockStmt (.mk { m with Trailing := (takeTrailing line r0).1 } stmts),
          (takeTrailing line r0).2)
    | _ => .error (.unexpected t "statement")
/-- Modelled from the spec: a block after its opening brace; the nesting
depth is incremented for its contents and recorded in the block, the
statements are parsed until the closing brace, the comments after the last
statement and before the closing brace are the infix comments. With the block,
the line of the closing brace. `leading`: the comments before the opening
brace. -/
def parseBlockStatement : Nat → Int → Comments → List Token → Parsed (BlockStatement × Nat)
  | 0, _, _, _ => .error .outOfFuel
  | n + 1, nest, leading, ts =>
    match parseBlockItems n (nest + 1) ts with
    | .error e => .error e
    | .ok ((stmts, cs, line), rest) =>
      .ok ((.mk { Nest := nest + 1, Leading := leading, Infix := cs } stmts, line), rest)
/-- Modelled from the spec: the statements of a block up to its closing
brace, each with the comments pending before it; with them, the comments
pending before the closing brace and the line of the brace. -/
def parseBlockItems : Nat → Int → List Token → Parsed (List Statement × Comments × Nat)
  | 0, _, _ => .error .outOfFuel
  | n + 1, nest, ts =>
    match (takeComments ts).2 with
    | [] => .error (.unexpectedEnd "\x7d")
    | t :: rest =>
      if t.Kind = .RIGHT_BRACE then .ok (([], (takeComments ts).1, t.Line), rest)
      else
        match parseStatement n nest (takeComments ts).1 (t :: rest) with
        | .error e => .error e
        | .ok (stmt, rest1) =>
          match parseBlockItems n nest rest1 with
          | .error e => .error e
          | .ok ((stmts, cs, line), rest2) => .ok ((stmt :: stmts, cs, line), rest2)
/-- Modelled from the spec: the branches after the block of an if statement,
zero or more else-if branches and at most one else branch; the comments
before a branch keyword are the leading comments of the branch, the comments
between `else` and `if` are infix comments of the branch. When no branch
follows, nothing is consumed. `line` is the line of the last closing brace;
the result holds the line of the closing brace of the last branch. -/
def parseElse : Nat → Int → Nat → List Token →
    Parsed (List IfStatement × Option BlockStatement × Nat)
  | 0, _, _, _ => .error .outOfFuel
  | n + 1, nest, line, ts =>
    match (takeComments ts).2 with
    | [] => .ok (([], none, line), ts)
    | t :: rest =>
      if t.Kind = .ELSEIF then
        match parseCondition n nest rest with
        | .error e => .error e
        | .ok ((condition, cs, blockLeading), r0) =>
          match parseBlockStatement n nest blockLeading r0 with
          | .error e => .error e
          | .ok ((consequence, line1), r1) =>
            match parseElse n nest line1 r1 with
            | .error e => .error e
            | .ok ((another, alternative, last), r2) =>
              .ok ((.mk { Nest := nest, Leading := (takeComments ts).1, Infix := cs }
                  t.Literal condition consequence [] none :: another, alternative, last), r2)
      else if t.Kind = .ELSE ∧ ((takeComments rest).2.head?.map (·.Kind)) = some .IF then
        match parseCondition n nest (takeComments rest).2.tail with
        | .error e => .error e
        | .ok ((condition, cs, blockLeading), r0) =>
          match parseBlockStatement n nest blockLeading r0 with
          | .error e => .error e
          | .ok ((consequence, line1), r1) =>
            match parseElse n nest line1 r1 with
            | .error e => .error e
            | .ok ((another, alternative, last), r2) =>
              .ok ((.mk
                  { Nest := nest, Leading := (takeComments ts).1,
                    Infix := (takeComments rest).1 ++ cs }
                  "else if" condition consequence [] none :: another, alternative, last), r2)
      else if t.Kind = .ELSE then
        match expect .LEFT_BRACE "\x7b" rest with
        | .error e => .error e
        | .ok (c0, _, r0) =>
          match parseBlockStatement n nest ((takeComments ts).1 ++ c0) r0 with
          | .error e => .error e
          | .ok ((alternative, last), r1) => .ok (([], some alternative, last), r1)
      else .ok (([], none, line), ts)
end

/-- Modelled from the spec: the top-level statements up to the end marker;
a subroutine declaration is `sub`, a name and a block at depth 0, with the
comments pending before it as leading comments and the comment on the line of
its closing brace as trailing comment. -/
def parseDeclarations : Nat → List Token → Except ParseError VCL
  | 0, _ => .error .outOfFuel
  | n + 1, ts =>
    match (takeComments ts).2 with
    | [] => .error (.unexpectedEnd "declaration")
    | t :: rest =>
      if t.Kind = .EOF then .ok { Statements := [], Infix := (takeComments ts).1 }
      else if t.Kind = .SUBROUTINE then
        match expect .IDENT "subroutine name" rest with
        | .error e => .error e
        | .ok (c0, name, r0) =>
          match expect .LEFT_BRACE "\x7b" r0 with
          | .error e => .error e
          | .ok (c1, _, r1) =>
            match parseBlockStatement n 0 c1 r1 with
            | .error e => .error e
            | .ok ((block, line), r2) =>
              match parseDeclarations n (takeTrailing line r2).2 with
              | .error e => .error e
              | .ok vcl =>
                .ok { vcl with
                  Statements :=
                    { Nest := 0, Leading := (takeComments ts).1,
                      Trailing := (takeTrailing line r2).1, Infix := c0,
                      Name := { Nest := 0, Value := name.Literal }, Block := block }
                      :: vcl.Statements }
      else .error (.unexpected t "declaration")

/-- Modelled from the spec: the error of `parse`, of the lexer or of the
parser. -/
inductive SyntaxError where
  | lexer (e : LexError)
  | parser (e : ParseError)
  deriving DecidableEq, Repr

/-- Modelled from the spec: the parser entry point `parse(text)`, the lexer
followed by the parser. A call of the parser consumes one unit of fuel; the
model gives the parser four units a token and four more. -/
def ParseVCL (input : String) : Except SyntaxError VCL :=
  match lex input with
  | .error e => .error (.lexer e)
  | .ok ts =>
    match parseDeclarations (4 * ts.length + 4) ts with
    | .error e => .error (.parser e)
    | .ok vcl => .ok vcl

end Parser
/-! ## The parser tests (`parser/expression_parser_test.go`)

The inputs and the expected trees of the tests, as the test file writes them.
The tests leave the keyword of an if statement unset; the tree below holds the
spelling `if` of the source text. -/

namespace ParserTest

/-- The subroutine `vcl_recv` with the leading comments `leading`, whose body
at depth 1 holds the statements `stmts` and the infix comments `infixes`. -/
def vclRecv (leading : Comments) (stmts : List Statement) (infixes : Comments) : Parser.VCL :=
  { Statements := [{ Nest := 0, Leading := leading, Name := { Nest := 0, Value := "vcl_recv" }, Block := .mk { Nest := 1, Infix := infixes } stmts }] }

/-- The identifier `name` at depth `nest`. -/
def ident (nest : Int) (name : String) : Expression :=
  .ident { Nest := nest, Value := name }

/-- The string literal `value` at depth 1. -/
def str (value : String) : Expression :=
  .string { Nest := 1, Value := value }

/-- The long string literal `value` at depth 1. -/
def longStr (value : String) : Expression :=
  .string { Nest := 1, Value := value, LongString := true }

/-- The if-expression of the tests, at depth 1. -/
def hostIfExpression : Expression :=
  .ifExpr { Nest := 1 } (ident 1 "req.http.Host") (str "example.com") (str "foobar")

/-- The statement `set name = value;` at depth `nest`, with leading and
trailing comments. -/
def setStatement (nest : Int) (leading trailing : Comments) (name : String)
    (value : Expression) : Statement :=
  .setStmt { Nest := nest, Leading := leading, Trailing := trailing, Ident := { Nest := nest, Value := name }, Operator := { Nest := nest, Operator := "=" }, Value := value }

/-- The input of `TestIfExpression`. -/
def ifExpressionInput : String :=
  "// Subroutine\nsub vcl_recv \x7b\n\t// Leading comment\n\tset req.http.Foo = if (req.http.Host, \"example.com\", \"foobar\"); // Trailing comment\n\x7d"

/-- The tree expected by `TestIfExpression`. -/
def ifExpressionExpect : Parser.VCL :=
  vclRecv [⟨"// Subroutine"⟩]
    [setStatement 1 [⟨"// Leading comment"⟩] [⟨"// Trailing comment"⟩] "req.http.Foo"
      hostIfExpression] []

/-- The input of `TestInfixIfExpression`. -/
def infixIfExpressionInput : String :=
  "// Subroutine\nsub vcl_recv \x7b\n\t// Leading comment\n\tlog \x7b\"foo bar\"\x7d\n\t\tif (req.http.Host, \"example.com\", \"foobar\")\n\t\t\x7b\"baz\"\x7d; // Trailing comment\n\x7d"

/-- The tree expected by `TestInfixIfExpression`. -/
def infixIfExpressionExpect : Parser.VCL :=
  vclRecv [⟨"// Subroutine"⟩]
    [.logStmt { Nest := 1, Leading := [⟨"// Leading comment"⟩], Trailing := [⟨"// Trailing comment"⟩], Value := .infixExpr (.mk { Nest := 1 } (.infixExpr (.mk { Nest := 1 } (longStr "foo bar") "+" hostIfExpression)) "+" (longStr "baz")) }] []

/-- The input of `TestFunctionCallExpression`, no argument. -/
def noArgumentInput : String :=
  "// Subroutine\nsub vcl_recv \x7b\n\tset req.http.X-Trace-Id = uuid.version4();\n\x7d"

/-- The tree expected by `TestFunctionCallExpression`, no argument. -/
def noArgumentExpect : Parser.VCL :=
  vclRecv [⟨"// Subroutine"⟩]
    [setStatement 1 [] [] "req.http.X-Trace-Id"
      (.functionCall { Nest := 1 } { Nest := 1, Value := "uuid.version4" } [])] []

/-- The input of `TestFunctionCallExpression`, some arguments. -/
def someArgumentsInput : String :=
  "// Subroutine\nsub vcl_recv \x7b\n\tset req.http.X-Trace-Id = regsub(req.http.Host, \"example.com\", \"\");\n\x7d"

/-- The tree expected by `TestFunctionCallExpression`, some arguments. -/
def someArgumentsExpect : Parser.VCL :=
  vclRecv [⟨"// Subroutine"⟩]
    [setStatement 1 [] [] "req.http.X-Trace-Id"
      (.functionCall { Nest := 1 } { Nest := 1, Value := "regsub" }
        [ident 1 "req.http.Host", str "example.com", str ""])] []

/-- The input of `TestInfixExpression`. -/
def infixExpressionInput : String :=
  "\nsub vcl_recv \x7b\n\t// foo\n\tif (req.http.Foo && /* comment */ req.http.Bar) \x7b\n\t\t// foo\n\t\tset req.http.Result = req.http.Foo req.http.Bar;\n\t\x7d\n\t// end\n\x7d"

/-- The if statement that `TestInfixExpression` expects in the body of the
subroutine. -/
def infixExpressionIf : Statement :=
  .ifStmt (.mk { Nest := 1, Leading := [⟨"// foo"⟩] } "if"
    (.infixExpr (.mk { Nest := 1 } (ident 1 "req.http.Foo") "&&"
      (.ident { Nest := 1, Leading := [⟨"/* comment */"⟩], Value := "req.http.Bar" })))
    (.mk { Nest := 2 }
      [setStatement 2 [⟨"// foo"⟩] [] "req.http.Result"
        (.infixExpr (.mk { Nest := 2 } (ident 2 "req.http.Foo") "+"
          (ident 2 "req.http.Bar")))])
    [] none)

/-- The tree expected by `TestInfixExpression`. -/
def infixExpressionExpect : Parser.VCL :=
  vclRecv [] [infixExpressionIf] [⟨"// end"⟩]

end ParserTest
/-! ## Specification-side definitions for the parser -/

/-- The metadata of an expression, whatever its kind. -/
def Expression.toMeta : Expression → Meta
  | .ident t => t.toMeta
  | .string t => t.toMeta
  | .ifExpr m _ _ _ => m
  | .infixExpr (.mk m _ _ _) => m
  | .functionCall m _ _ => m

mutual
/-- Every node of the expression records the nesting depth `nest`. -/
def Expression.NestIs (nest : Int) : Expression → Prop
  | .ident t => t.Nest = nest
  | .string t => t.Nest = nest
  | .ifExpr m c a b => m.Nest = nest ∧ c.NestIs nest ∧ a.NestIs nest ∧ b.NestIs nest
  | .infixExpr t => t.NestIs nest
  | .functionCall m fn args => m.Nest = nest ∧ fn.Nest = nest ∧ Expression.AllNestIs nest args
/-- Every node of the infix expression records the nesting depth `nest`. -/
def InfixExpression.NestIs (nest : Int) : InfixExpression → Prop
  | .mk m l _ r => m.Nest = nest ∧ l.NestIs nest ∧ r.NestIs nest
/-- Every node of the expressions records the nesting depth `nest`. -/
def Expression.AllNestIs (nest : Int) : List Expression → Prop
  | [] => True
  | e :: es => e.NestIs nest ∧ Expression.AllNestIs nest es
end

mutual
/-- The nodes of a statement met at depth `nest` record the number of blocks
around them: the statement and its expressions record `nest`, a block in it
and the nodes of that block record one more. Stated for the statements the
parser builds; of another statement, only its own record. -/
def Statement.NestIs (nest : Int) : Statement → Prop
  | .blockStmt t => t.NestIs nest
  | .ifStmt t => t.NestIs nest
  | .setStmt t =>
    t.Nest = nest ∧ t.Ident.Nest = nest ∧ t.Operator.Nest = nest ∧ t.Value.NestIs nest
  | .addStmt t =>
    t.Nest = nest ∧ t.Ident.Nest = nest ∧ t.Operator.Nest = nest ∧ t.Value.NestIs nest
  | .unsetStmt t => t.Nest = nest ∧ t.Ident.Nest = nest
  | .removeStmt t => t.Nest = nest ∧ t.Ident.Nest = nest
  | .logStmt t => t.Nest = nest ∧ t.Value.NestIs nest
  | s => s.toMeta.Nest = nest
/-- A block met at depth `nest` records `nest + 1`, the depth of its contents,
and so do the nodes in it. -/
def BlockStatement.NestIs (nest : Int) : BlockStatement → Prop
  | .mk m stmts => m.Nest = nest + 1 ∧ Statement.AllNestIs (nest + 1) stmts
/-- The statements of a list are all at depth `nest`. -/
def Statement.AllNestIs (nest : Int) : List Statement → Prop
  | [] => True
  | s :: rest => s.NestIs nest ∧ Statement.AllNestIs nest rest
/-- An if statement or else-if branch met at depth `nest`. -/
def IfStatement.NestIs (nest : Int) : IfStatement → Prop
  | .mk m _ cond cons another alt =>
    m.Nest = nest ∧ cond.NestIs nest ∧ cons.NestIs nest ∧ IfStatement.AllNestIs nest another
      ∧ BlockStatement.OptionNestIs nest alt
/-- The else-if branches of a list are all at depth `nest`. -/
def IfStatement.AllNestIs (nest : Int) : List IfStatement → Prop
  | [] => True
  | a :: rest => a.NestIs nest ∧ IfStatement.AllNestIs nest rest
/-- The else block, when there is one, is a block met at depth `nest`. -/
def BlockStatement.OptionNestIs (nest : Int) : Option BlockStatement → Prop
  | none => True
  | some b => b.NestIs nest
end

namespace Parser

/-- The tokens `ts`, met after the opening parenthesis of a call, hold the
arguments `args`, each an expression followed by a comma or, the last, by the
closing parenthesis; `rest` are the tokens after that parenthesis. `n` is fuel
enough for each argument. -/
inductive ArgumentTokens (n : Nat) (nest : Int) :
    List Token → List Expression → List Token → Prop where
  | last (ts : List Token) (e : Expression) (close : Token) (rest : List Token)
      (h : parseExpression n nest LOWEST ts = .ok (e, close :: rest))
      (hclose : close.Kind = .RIGHT_PAREN) : ArgumentTokens n nest ts [e] rest
  | more (ts : List Token) (e : Expression) (comma : Token) (ts1 : List Token)
      (es : List Expression) (rest : List Token)
      (h : parseExpression n nest LOWEST ts = .ok (e, comma :: ts1))
      (hcomma : comma.Kind = .COMMA) (hmore : ArgumentTokens n nest ts1 es rest) :
      ArgumentTokens n nest (ts) (e :: es) rest

/-- The tokens `ts`, met in a block at depth `nest`, hold the statements
`stmts` one after the other, each parsed with the comments pending before it;
`rest` are the tokens left after the last of them. `n` is fuel enough for each
statement. -/
inductive StatementTokens (n : Nat) (nest : Int) :
    List Token → List Statement → List Token → Prop where
  | done (ts : List Token) : StatementTokens n nest ts [] ts
  | next (ts : List Token) (t : Token) (r : List Token) (s : Statement) (ts1 : List Token)
      (stmts : List Statement) (rest : List Token)
      (hts : (takeComments ts).2 = t :: r) (ht : t.Kind ≠ .RIGHT_BRACE)
      (h : parseStatement n nest (takeComments ts).1 (t :: r) = .ok (s, ts1))
      (hnext : StatementTokens n nest ts1 stmts rest) :
      StatementTokens n nest ts (s :: stmts) rest

/-- The tokens of a source text; no token when the text does not lex. -/
def tokensOf (input : String) : List Token :=
  match lex input with
  | .ok ts => ts
  | .error _ => []

end Parser

namespace ParserTest

/-- The value of the log statement of `TestInfixIfExpression`, in source
text. -/
def juxtapositionSource : String :=
  "\x7b\"foo bar\"\x7d if (req.http.Host, \"example.com\", \"foobar\") \x7b\"baz\"\x7d;"

/-- The value expected by `TestInfixIfExpression` for the log statement. -/
def juxtapositionValue : Expression :=
  .infixExpr (.mk { Nest := 1 }
    (.infixExpr (.mk { Nest := 1 } (longStr "foo bar") "+" hostIfExpression)) "+"
    (longStr "baz"))

/-- The set statement of `TestIfExpression`, in source text, with the comment
after it. -/
def setIfSource : String :=
  "set req.http.Foo = if (req.http.Host, \"example.com\", \"foobar\"); // Trailing comment\n\x7d"

/-- The call of `TestFunctionCallExpression`, some arguments, in source
text. -/
def regsubSource : String :=
  "regsub(req.http.Host, \"example.com\", \"\");"

/-- The body of the subroutine of `TestInfixExpression`, after its opening
brace, in source text. -/
def bodySource : String :=
  "\n\t// foo\n\tif (req.http.Foo && /* comment */ req.http.Bar) \x7b\n\t\t// foo\n\t\tset req.http.Result = req.http.Foo req.http.Bar;\n\t\x7d\n\t// end\n\x7d"

end ParserTest

/-! ## Specification-side definitions for the branches of the if statement -/

/-- The block without its leading comments. -/
def BlockStatement.withoutLeading : BlockStatement → BlockStatement
  | .mk m stmts => .mk { m with Leading := [] } stmts

/-- The else-if branch without the leading comments of its consequence
block. -/
def IfStatement.branchWithoutBlockLeading : IfStatement → IfStatement
  | .mk m keyword cond cons another alt => .mk m keyword cond cons.withoutLeading another alt

/-- The if statement without the leading comments of the consequence block of
its primary branch and of the consequence block of each of its else-if
branches; everything else is kept. Two if statements differ only in those
comments when this gives the same statement for both. -/
def IfStatement.withoutBlockLeading : IfStatement → IfStatement
  | .mk m keyword cond cons another alt =>
    .mk m keyword cond cons.withoutLeading
      (another.map IfStatement.branchWithoutBlockLeading) alt

/-- The tree of `if (a) { esi; } else if (b) { }` whose two consequence
blocks hold leading comments. -/
def ifBlockLeadingFirst : IfStatement :=
  .mk { Nest := 0 } "if" (var "a")
    (.mk { Nest := 1, Leading := [⟨"// one"⟩] } [.esiStmt { Nest := 1 }])
    [.mk { Nest := 0 } "else if" (var "b") (.mk { Nest := 1, Leading := [⟨"/* two */"⟩] } [])
      [] none]
    none

/-- The tree of `ifBlockLeadingFirst` with other leading comments in the two
consequence blocks. -/
def ifBlockLeadingSecond : IfStatement :=
  .mk { Nest := 0 } "if" (var "a")
    (.mk { Nest := 1, Leading := [⟨"# three"⟩, ⟨"# four"⟩] } [.esiStmt { Nest := 1 }])
    [.mk { Nest := 0 } "else if" (var "b") (.mk { Nest := 1 } []) [] none]
    none

/-! ## Specification-side definitions for the comments of a tree -/

/-- The comments of the three slots of a node. -/
def Meta.comments (m : Meta) : List Comment :=
  m.Leading ++ m.Infix ++ m.Trailing

mutual
/-- Every comment of an expression: the comments of the slots of each of its
nodes. -/
def Expression.comments : Expression → List Comment
  | .ident t => t.toMeta.comments
  | .string t => t.toMeta.comments
  | .ifExpr m c a b => m.comments ++ c.comments ++ a.comments ++ b.comments
  | .infixExpr t => t.comments
  | .functionCall m fn args => m.comments ++ fn.toMeta.comments ++ Expression.commentsOfAll args
/-- Every comment of an infix expression. -/
def InfixExpression.comments : InfixExpression → List Comment
  | .mk m l _ r => m.comments ++ l.comments ++ r.comments
/-- Every comment of the expressions of a list. -/
def Expression.commentsOfAll : List Expression → List Comment
  | [] => []
  | e :: es => e.comments ++ Expression.commentsOfAll es
end

/-- Every comment of the expression, when there is one. -/
def Expression.commentsOfOption : Option Expression → List Comment
  | none => []
  | some e => e.comments

/-- Every comment of the test of a case, when there is one. -/
def InfixExpression.commentsOfOption : Option InfixExpression → List Comment
  | none => []
  | some t => t.comments

mutual
/-- Every comment of a statement: the comments of the slots of the statement,
of the nodes it holds and of the statements in it. -/
def Statement.comments : Statement → List Comment
  | .blockStmt t => t.comments
  | .importStmt t => t.toMeta.comments ++ t.Name.toMeta.comments
  | .includeStmt t => t.toMeta.comments ++ t.Module.toMeta.comments
  | .declareStmt t =>
    t.toMeta.comments ++ t.Name.toMeta.comments ++ t.ValueType.toMeta.comments
  | .setStmt t =>
    t.toMeta.comments ++ t.Ident.toMeta.comments ++ t.Operator.toMeta.comments
      ++ t.Value.comments
  | .unsetStmt t => t.toMeta.comments ++ t.Ident.toMeta.comments
  | .removeStmt t => t.toMeta.comments ++ t.Ident.toMeta.comments
  | .ifStmt t => t.comments
  | .switchStmt t => t.comments
  | .restartStmt t => t.toMeta.comments
  | .esiStmt t => t.toMeta.comments
  | .addStmt t =>
    t.toMeta.comments ++ t.Ident.toMeta.comments ++ t.Operator.toMeta.comments
      ++ t.Value.comments
  | .callStmt t => t.toMeta.comments ++ t.Subroutine.toMeta.comments
  | .errorStmt t =>
    t.toMeta.comments ++ t.Code.comments ++ Expression.commentsOfOption t.Argument
  | .logStmt t => t.toMeta.comments ++ t.Value.comments
  | .returnStmt t => t.toMeta.comments ++ Expression.commentsOfOption t.ReturnExpression
  | .syntheticStmt t => t.toMeta.comments ++ t.Value.comments
  | .syntheticBase64Stmt t => t.toMeta.comments ++ t.Value.comments
  | .gotoStmt t => t.toMeta.comments ++ t.Destination.toMeta.comments
  | .gotoDestinationStmt t => t.toMeta.comments ++ t.Name.toMeta.comments
  | .functionCallStmt t =>
    t.toMeta.comments ++ t.Function.toMeta.comments ++ Expression.commentsOfAll t.Arguments
  | .breakStmt t => t.toMeta.comments
/-- Every comment of a block. -/
def BlockStatement.comments : BlockStatement → List Comment
  | .mk m stmts => m.comments ++ Statement.commentsOfAll stmts
/-- Every comment of the statements of a list. -/
def Statement.commentsOfAll : List Statement → List Comment
  | [] => []
  | s :: rest => s.comments ++ Statement.commentsOfAll rest
/-- Every comment of an if statement or else-if branch. -/
def IfStatement.comments : IfStatement → List Comment
  | .mk m _ cond cons another alt =>
    m.comments ++ cond.comments ++ cons.comments ++ IfStatement.commentsOfAll another
      ++ BlockStatement.commentsOfOption alt
/-- Every comment of the else-if branches of a list. -/
def IfStatement.commentsOfAll : List IfStatement → List Comment
  | [] => []
  | a :: rest => a.comments ++ IfStatement.commentsOfAll rest
/-- Every comment of the else block, when there is one. -/
def BlockStatement.commentsOfOption : Option BlockStatement → List Comment
  | none => []
  | some b => b.comments
/-- Every comment of a switch statement. -/
def SwitchStatement.comments : SwitchStatement → List Comment
  | .mk m control cases => m.comments ++ control.comments ++ CaseStatement.commentsOfAll cases
/-- Every comment of the cases of a list. -/
def CaseStatement.commentsOfAll : List CaseStatement → List Comment
  | [] => []
  | c :: rest => c.comments ++ CaseStatement.commentsOfAll rest
/-- Every comment of a case. -/
def CaseStatement.comments : CaseStatement → List Comment
  | .mk m test stmts _ =>
    m.comments ++ InfixExpression.commentsOfOption test ++ Statement.commentsOfAll stmts
end

namespace Parser

/-- The comment tokens among the tokens, in order, as comments of the tree. -/
def commentTokens : List Token → List Comment
  | [] => []
  | t :: ts => if t.Kind = .COMMENT then t.toComment :: commentTokens ts else commentTokens ts

end Parser

namespace ParserTest

/-- The body of a subroutine, after its opening brace, in source text: one
statement with a comment on the line of its semicolon, then a comment on a
line of its own before the closing brace. -/
def trailingInfixSource : String :=
  "\n\tunset req.http.Foo; // same line\n\t// end\n\x7d"

/-- The statement of `trailingInfixSource`, as a tree at depth 1. -/
def trailingInfixUnset : Statement :=
  .unsetStmt { Nest := 1, Trailing := [⟨"// same line"⟩], Ident := { Nest := 1, Value := "req.http.Foo" } }

/-- An if statement with a comment between `else` and `if`, in a subroutine,
in source text. -/
def elseCommentIfInput : String :=
  "sub vcl_recv \x7b\n\tif (req.http.Foo) \x7b\n\t\x7d else /* why */ if (req.http.Bar) \x7b\n\t\x7d\n\x7d"

/-- The tree of `elseCommentIfInput`. -/
def elseCommentIfExpect : Parser.VCL :=
  vclRecv []
    [.ifStmt (.mk { Nest := 1 } "if" (ident 1 "req.http.Foo") (.mk { Nest := 2 } [])
      [.mk { Nest := 1, Infix := [⟨"/* why */"⟩] } "else if" (ident 1 "req.http.Bar")
        (.mk { Nest := 2 } []) [] none]
      none)]
    []

end ParserTest

/-! ## Facts about text -/

@[simp] theorem str_text (s : String) : (Writer.str s : String) = s := rfl

@[simp] theorem str_trace (s : String) : (Writer.str s : List Comment) = [] := rfl

theorem foldl_append_text (xs : List String) (a : String) :
    xs.foldl (fun r s => r ++ s) a = a ++ xs.foldl (fun r s => r ++ s) "" := by
  induction xs generalizing a with
  | nil => simp
  | cons x xs ih =>
    simp only [List.foldl_cons]
    rw [ih, ih ("" ++ x)]
    simp [String.append_assoc]

@[simp] theorem join_nil : String.join [] = "" := rfl

@[simp] theorem join_cons (x : String) (xs : List String) :
    String.join (x :: xs) = x ++ String.join xs := by
  unfold String.join
  simp only [List.foldl_cons]
  rw [foldl_append_text]
  simp

theorem intercalate_go_eq (sep : String) (xs : List String) (acc : String) :
    String.intercalate.go acc sep xs
      = acc ++ String.join (xs.map fun x => sep ++ x) := by
  induction xs generalizing acc with
  | nil => simp [String.intercalate.go]
  | cons x xs ih => simp [String.intercalate.go, ih, String.append_assoc]

theorem intercalate_cons (sep x : String) (xs : List String) :
    sep.intercalate (x :: xs) = x ++ String.join (xs.map fun y => sep ++ y) := by
  simp [String.intercalate, intercalate_go_eq]

/-! ## The loops, as joins -/

theorem formatBlockChildren_eq_join (f : Formatter String) (stmts : List Statement) :
    formatBlockChildren f stmts
      = String.join (stmts.map fun c => formatStatement f c ++ "\n") := by
  induction stmts with
  | nil => simp [formatBlockChildren]
  | cons s rest ih => simp [formatBlockChildren, ih, String.append_assoc]

theorem formatCaseStatements_eq_join (f : Formatter String) (nest : Int)
    (stmts : List Statement) :
    formatCaseStatements f nest stmts
      = String.join (stmts.map fun s =>
          if s.isBreak then f.indent (nest + 1) ++ "break;" ++ "\n"
          else formatStatement f s ++ "\n") := by
  induction stmts with
  | nil => simp [formatCaseStatements]
  | cons s rest ih =>
    cases s <;> simp [formatCaseStatements, ih, Statement.isBreak, String.append_assoc]

theorem formatCases_eq_join (f : Formatter String) (cases : List CaseStatement) :
    formatCases f cases = String.join (cases.map (formatCase f)) := by
  induction cases with
  | nil => simp [formatCases]
  | cons c rest ih => simp [formatCases, ih]

theorem formatAnother_eq_join (f : Formatter String) (another : List IfStatement) :
    formatAnother f another = String.join (another.map (formatElseIf f)) := by
  induction another with
  | nil => simp [formatAnother]
  | cons a rest ih => simp [formatAnother, ih]

/-! ## Shared facts about the if statement and the block -/

theorem formatBranchLeading_eq (f : Formatter String) (m : Meta) :
    formatBranchLeading f m
      = if m.Leading = [] then " "
        else "\n" ++ f.formatComment m.Leading "\n" m.Nest ++ f.indent m.Nest := by
  unfold formatBranchLeading
  cases h : m.Leading <;> simp

theorem formatElseIf_eq (f : Formatter String) (a : IfStatement) :
    formatElseIf f a
      = formatBranchLeading f a.toMeta
        ++ ((if f.conf.ElseIf then "else if" else a.Keyword)
            ++ " (" ++ f.formatExpression a.Condition ++ ") "
            ++ formatBlockStatement f a.Consequence false) := by
  cases a
  simp [formatElseIf, IfStatement.toMeta, IfStatement.Keyword, IfStatement.Condition,
    IfStatement.Consequence, String.append_assoc]

theorem formatIfStatement_eq (f : Formatter String) (stmt : IfStatement) :
    formatIfStatement f stmt
      = f.formatComment stmt.toMeta.Leading "\n" stmt.toMeta.Nest
        ++ (f.indent stmt.toMeta.Nest
        ++ (stmt.Keyword ++ (" (" ++ (f.formatExpression stmt.Condition ++ (") "
        ++ (formatBlockStatement f stmt.Consequence false
        ++ (String.join (stmt.Another.map (formatElseIf f))
        ++ (formatAlternative f stmt.Alternative
        ++ f.trailing stmt.toMeta.Trailing)))))))) := by
  cases stmt
  simp [formatIfStatement, formatAnother_eq_join, IfStatement.toMeta, IfStatement.Keyword,
    IfStatement.Condition, IfStatement.Consequence, IfStatement.Another,
    IfStatement.Alternative, String.append_assoc]

theorem formatBlockStatement_eq (f : Formatter String) (b : BlockStatement)
    (isIndependent : Bool) :
    formatBlockStatement f b isIndependent
      = (if isIndependent then
            f.formatComment b.toMeta.Leading "\n" (b.toMeta.Nest - 1)
              ++ f.indent (b.toMeta.Nest - 1)
          else "")
        ++ ("\x7b\n"
        ++ (String.join (b.Statements.map fun c => formatStatement f c ++ "\n")
        ++ ((if b.toMeta.Infix = [] then ""
             else f.formatComment b.toMeta.Infix "\n" b.toMeta.Nest)
        ++ (f.indent (b.toMeta.Nest - 1)
        ++ ("\x7d" ++ f.trailing b.toMeta.Trailing))))) := by
  cases b with
  | mk m stmts =>
    cases h : m.Infix <;>
      simp [formatBlockStatement, formatBlockChildren_eq_join, BlockStatement.toMeta,
        BlockStatement.Statements, h, String.append_assoc]

/-! ## The claims -/

/-- C1, as stated, fails: in `if (a) { } // t` followed by an else-if branch
without leading comments, the branch keyword does not come one space after the
closing brace of the prior branch; the trailing comment of the prior block
stands between them. -/
theorem formatIfStatement_keyword_after_trailing :
    formatIfStatement (textFormatter defaultConfig) ifTrailingThenElseIf
        = "if (a) \x7b\n\x7d // t elsif (b) \x7b\n\x7d"
      ∧ ¬ ("\x7d elsif".toList
            <:+: (formatIfStatement (textFormatter defaultConfig)
                    ifTrailingThenElseIf).toList) := by
  decide

/-- C1, amended: the output of `formatIfStatement` is the primary branch, then
the else-if branches in the order of `Another`, then the else branch, then the
trailing comment. A branch with leading comments starts with a line feed, its
leading comments at its `Nest` and the indent of its `Nest`; a branch without
leading comments starts with exactly one space; the keyword follows. What
precedes a branch is the block of the prior branch, whose text ends with the
closing brace and the trailing comment of that block. -/
theorem formatIfStatement_branch_placement (f : Formatter String) (stmt : IfStatement) :
    formatIfStatement f stmt
        = f.formatComment stmt.toMeta.Leading "\n" stmt.toMeta.Nest
          ++ f.indent stmt.toMeta.Nest
          ++ stmt.Keyword ++ " (" ++ f.formatExpression stmt.Condition ++ ") "
          ++ formatBlockStatement f stmt.Consequence false
          ++ String.join (stmt.Another.map fun a =>
              (if a.toMeta.Leading = [] then " "
               else "\n" ++ f.formatComment a.toMeta.Leading "\n" a.toMeta.Nest
                      ++ f.indent a.toMeta.Nest)
              ++ (if f.conf.ElseIf then "else if" else a.Keyword)
              ++ " (" ++ f.formatExpression a.Condition ++ ") "
              ++ formatBlockStatement f a.Consequence false)
          ++ (match stmt.Alternative with
              | none => ""
              | some b =>
                (if b.toMeta.Leading = [] then " "
                 else "\n" ++ f.formatComment b.toMeta.Leading "\n" b.toMeta.Nest
                        ++ f.indent b.toMeta.Nest)
                ++ "else " ++ formatBlockStatement f b false)
          ++ f.trailing stmt.toMeta.Trailing
      ∧ ∀ b : BlockStatement, ∃ body : String,
          formatBlockStatement f b false
            = body ++ "\x7d" ++ f.trailing b.toMeta.Trailing := by
  constructor
  · rw [formatIfStatement_eq]
    have hmap : stmt.Another.map (formatElseIf f)
        = stmt.Another.map fun a =>
            (if a.toMeta.Leading = [] then " "
             else "\n" ++ f.formatComment a.toMeta.Leading "\n" a.toMeta.Nest
                    ++ f.indent a.toMeta.Nest)
            ++ (if f.conf.ElseIf then "else if" else a.Keyword)
            ++ " (" ++ f.formatExpression a.Condition ++ ") "
            ++ formatBlockStatement f a.Consequence false := by
      apply List.map_congr_left
      intro a _
      rw [formatElseIf_eq, formatBranchLeading_eq]
      simp only [String.append_assoc]
    rw [hmap]
    cases halt : stmt.Alternative with
    | none => simp [formatAlternative, String.append_assoc]
    | some b =>
      simp [formatAlternative, formatBranchLeading_eq, String.append_assoc]
  · intro b
    refine ⟨"\x7b\n"
      ++ String.join (b.Statements.map fun c => formatStatement f c ++ "\n")
      ++ (if b.toMeta.Infix = [] then ""
          else f.formatComment b.toMeta.Infix "\n" b.toMeta.Nest)
      ++ f.indent (b.toMeta.Nest - 1), ?_⟩
    rw [formatBlockStatement_eq]
    simp [String.append_assoc]

/-- C2: for a branch `a` of `Another`, after the branches before it and its own
line start, `formatIfStatement` writes the keyword, which is `else if` when the
option `ElseIf` is set and `a.Keyword` otherwise, then the condition between
` (` and `) `, then the block of the branch. -/
theorem formatIfStatement_else_if_keyword (f : Formatter String) (stmt : IfStatement)
    (before : List IfStatement) (a : IfStatement) (after : List IfStatement)
    (h : stmt.Another = before ++ a :: after) :
    formatIfStatement f stmt
      = (f.formatComment stmt.toMeta.Leading "\n" stmt.toMeta.Nest
          ++ f.indent stmt.toMeta.Nest
          ++ stmt.Keyword ++ " (" ++ f.formatExpression stmt.Condition ++ ") "
          ++ formatBlockStatement f stmt.Consequence false
          ++ String.join (before.map (formatElseIf f))
          ++ formatBranchLeading f a.toMeta)
        ++ ((if f.conf.ElseIf = true then "else if" else a.Keyword)
            ++ " (" ++ f.formatExpression a.Condition ++ ") "
            ++ formatBlockStatement f a.Consequence false)
        ++ (String.join (after.map (formatElseIf f))
            ++ formatAlternative f stmt.Alternative
            ++ f.trailing stmt.toMeta.Trailing) := by
  have join_append : ∀ xs ys : List String,
      String.join (xs ++ ys) = String.join xs ++ String.join ys := by
    intro xs ys
    induction xs with
    | nil => simp
    | cons x xs ih => simp [ih, String.append_assoc]
  rw [formatIfStatement_eq, h, List.map_append, join_append, List.map_cons, join_cons,
    formatElseIf_eq]
  simp only [String.append_assoc]

/-- C2 at a concrete tree: the `elseif` branch keeps its spelling under the
default style. -/
theorem formatIfStatement_else_if_keyword_witness :
    formatIfStatement (textFormatter defaultConfig) ifElseIfElse
      = (Sample.formatComment [] "\n" 1 ++ Sample.indent 1
          ++ "if" ++ " (" ++ Sample.formatExpression (var "a") ++ ") "
          ++ formatBlockStatement (textFormatter defaultConfig)
              ifElseIfElse.Consequence false
          ++ String.join ([].map (formatElseIf (textFormatter defaultConfig)))
          ++ formatBranchLeading (textFormatter defaultConfig)
              { Nest := 1, Leading := [⟨"// second"⟩] })
        ++ ("elseif" ++ " (" ++ Sample.formatExpression (var "b") ++ ") "
            ++ formatBlockStatement (textFormatter defaultConfig) (.mk { Nest := 2 } []) false)
        ++ (String.join ([].map (formatElseIf (textFormatter defaultConfig)))
            ++ formatAlternative (textFormatter defaultConfig) ifElseIfElse.Alternative
            ++ Sample.trailing []) :=
  formatIfStatement_else_if_keyword (textFormatter defaultConfig) ifElseIfElse []
    (.mk { Nest := 1, Leading := [⟨"// second"⟩] } "elseif" (var "b")
      (.mk { Nest := 2 } []) [] none) [] rfl

/-- C3: a case `c` of a switch statement is rendered as its leading comments,
its indent and its label, then its statements in order, each on a line of its
own, a break statement as the indent of `c.Nest + 1` and `break;` and any other
statement through `formatStatement`; then the line `fallthrough;` at the indent
of `c.Nest + 1` when `c.Fallthrough` is set, and nothing when it is not. The
cases of a switch statement are rendered so, one after the other. -/
theorem formatCase_break_fallthrough (f : Formatter String) :
    (∀ c : CaseStatement,
      formatCase f c
        = f.formatComment c.toMeta.Leading "\n" c.toMeta.Nest
          ++ f.indent c.toMeta.Nest
          ++ formatCaseLabel f c.Test
          ++ String.join (c.Statements.map fun s =>
              if s.isBreak then f.indent (c.toMeta.Nest + 1) ++ "break;" ++ "\n"
              else formatStatement f s ++ "\n")
          ++ (if c.Fallthrough then f.indent (c.toMeta.Nest + 1) ++ "fallthrough;" ++ "\n"
              else ""))
      ∧ ∀ stmt : SwitchStatement,
          formatSwitchStatement f stmt
            = f.formatComment stmt.toMeta.Leading "\n" stmt.toMeta.Nest
              ++ f.indent stmt.toMeta.Nest
              ++ ("switch (" ++ f.formatExpression stmt.Control ++ ") \x7b\n")
              ++ String.join (stmt.Cases.map (formatCase f))
              ++ (if stmt.toMeta.Infix = [] then ""
                  else f.formatComment stmt.toMeta.Infix "\n" stmt.toMeta.Nest)
              ++ f.indent stmt.toMeta.Nest
              ++ "\x7d"
              ++ f.trailing stmt.toMeta.Trailing := by
  constructor
  · intro c
    cases c with
    | mk m test stmts fall =>
      cases fall <;>
        simp [formatCase, formatCaseStatements_eq_join, CaseStatement.toMeta,
          CaseStatement.Test, CaseStatement.Statements, CaseStatement.Fallthrough,
          String.append_assoc]
  · intro stmt
    cases stmt with
    | mk m control cases =>
      cases h : m.Infix <;>
        simp [formatSwitchStatement, formatCases_eq_join, SwitchStatement.toMeta,
          SwitchStatement.Control, SwitchStatement.Cases, h, String.append_assoc]

/-- C4: a block with `Nest` n is rendered as an opening brace and a line feed,
each child through `formatStatement` followed by a line feed, in list order,
the infix comments at level n when there are any, the closing brace at indent
level n - 1 and the trailing comment; formatted through `formatStatement`, this
is preceded by the leading comments and the indent, both at level n - 1. -/
theorem formatBlockStatement_layout (f : Formatter String) (b : BlockStatement) :
    formatBlockStatement f b false
        = "\x7b" ++ "\n"
          ++ String.join (b.Statements.map fun child => formatStatement f child ++ "\n")
          ++ (if b.toMeta.Infix = [] then ""
              else f.formatComment b.toMeta.Infix "\n" b.toMeta.Nest)
          ++ f.indent (b.toMeta.Nest - 1) ++ "\x7d"
          ++ f.trailing b.toMeta.Trailing
      ∧ formatStatement f (.blockStmt b)
        = f.formatComment b.toMeta.Leading "\n" (b.toMeta.Nest - 1)
          ++ f.indent (b.toMeta.Nest - 1)
          ++ formatBlockStatement f b false := by
  constructor
  · rw [formatBlockStatement_eq]
    have h : "\x7b" ++ "\n" = "\x7b\n" := by decide
    simp [String.append_assoc, h]
  · rw [formatStatement, formatBlockStatement_eq, formatBlockStatement_eq]
    simp [String.append_assoc]

/-! ### Simple statements -/

theorem formatArguments_eq_intercalate (f : Formatter String) (n : Nat)
    (args : List Expression) (i : Nat) (h : i + args.length = n) :
    formatArguments f n i args = ", ".intercalate (args.map f.formatExpression) := by
  induction args generalizing i with
  | nil => simp [formatArguments, String.intercalate]
  | cons a rest ih =>
    have hrest := ih (i + 1) (by simp only [List.length_cons] at h; omega)
    cases rest with
    | nil =>
      have hi : (i : Int) = (n : Int) - 1 := by
        simp only [List.length_cons, List.length_nil] at h; omega
      simp [formatArguments, hi, intercalate_cons]
    | cons b rest =>
      have hi : (i : Int) ≠ (n : Int) - 1 := by
        simp only [List.length_cons] at h; omega
      rw [formatArguments, hrest]
      simp [hi, intercalate_cons, String.append_assoc]

/-- C5, as stated, fails: the label statement `retry:` is a statement that is
not a block, if or switch statement, and its output has no terminating
semicolon. -/
theorem formatStatement_label_without_semicolon :
    formatStatement (textFormatter defaultConfig) retryLabel = "retry:"
      ∧ ¬ (";".toList
            <:+ (formatStatement (textFormatter defaultConfig) retryLabel).toList) := by
  decide

/-- C5, amended: a statement of one of the seventeen simple kinds (import,
include, declare, set, unset, remove, restart, esi, add, call, error, log,
return, synthetic, synthetic.base64, goto, function call) is rendered as its
leading comments at its `Nest`, the indent of its `Nest`, its keyword and
content, a semicolon and its trailing comment, and nothing else. -/
theorem formatStatement_simple (f : Formatter String) (s : Statement) (content : String)
    (h : simpleStatementContent f s = some content) :
    formatStatement f s
      = f.formatComment s.toMeta.Leading "\n" s.toMeta.Nest
        ++ f.indent s.toMeta.Nest
        ++ content
        ++ ";"
        ++ f.trailing s.toMeta.Trailing := by
  cases s <;> simp only [simpleStatementContent, Option.some.injEq] at h <;>
    first
    | exact absurd h (by simp)
    | (subst h
       simp [formatStatement, formatImportStatement, formatIncludeStatement,
         formatDeclareStatement, formatSetStatement, formatUnsetStatement,
         formatRemoveStatement, formatRestartStatement, formatEsiStatement,
         formatAddStatement, formatCallStatement, formatErrorStatement,
         formatLogStatement, formatReturnStatement, formatSyntheticStatement,
         formatSyntheticBase64Statement, formatGotoStatement,
         formatFunctionCallStatement, formatArguments_eq_intercalate,
         Statement.toMeta, String.append_assoc]
       try (rename_i t
            cases hr : t.ReturnExpression <;>
              cases hp : f.conf.ReturnArgumentParenthesis <;>
              simp [String.append_assoc]))

/-- C5 at a concrete tree: a function call statement with a leading
comment. -/
theorem formatStatement_simple_witness :
    formatStatement (textFormatter defaultConfig) regsubCall
      = Sample.formatComment [⟨"// call"⟩] "\n" 1
        ++ Sample.indent 1
        ++ "regsub(a, b)"
        ++ ";"
        ++ Sample.trailing [] :=
  formatStatement_simple (textFormatter defaultConfig) regsubCall "regsub(a, b)"
    (by decide)

/-- C7: a function call statement is rendered as its leading comments, its
indent and the function name, then an opening parenthesis, the formatted
arguments in list order with a comma and a space between two of them, a closing
parenthesis and a semicolon, then the trailing comment; without arguments the
text after the name is `();`. -/
theorem formatFunctionCallStatement_arguments (f : Formatter String)
    (stmt : FunctionCallStatement) :
    formatFunctionCallStatement f stmt
        = f.formatComment stmt.Leading "\n" stmt.Nest
          ++ f.indent stmt.Nest
          ++ stmt.Function.Value
          ++ ("(" ++ ", ".intercalate (stmt.Arguments.map f.formatExpression) ++ ");")
          ++ f.trailing stmt.Trailing
      ∧ ∀ (m : Meta) (fn : Ident),
          formatFunctionCallStatement f { toMeta := m, Function := fn, Arguments := [] }
            = f.formatComment m.Leading "\n" m.Nest
              ++ f.indent m.Nest
              ++ fn.Value
              ++ "();"
              ++ f.trailing m.Trailing := by
  constructor
  · simp [formatFunctionCallStatement, formatArguments_eq_intercalate, String.append_assoc]
  · intro m fn
    rw [show "();" = "(" ++ ");" from by decide]
    simp [formatFunctionCallStatement, formatArguments, String.append_assoc]

/-- C8: a return statement without a result expression is rendered as
`return;` after the indent, whatever the style; with a result expression it is
`return (`, the expression and `);` when `ReturnArgumentParenthesis` is set,
and `return `, the expression and `;` when it is not. -/
theorem formatReturnStatement_styles (f : Formatter String) (m : Meta) :
    formatReturnStatement f { toMeta := m, ReturnExpression := none }
        = f.formatComment m.Leading "\n" m.Nest
          ++ f.indent m.Nest
          ++ "return;"
          ++ f.trailing m.Trailing
      ∧ ∀ e : Expression,
          formatReturnStatement f { toMeta := m, ReturnExpression := some e }
            = f.formatComment m.Leading "\n" m.Nest
              ++ f.indent m.Nest
              ++ (if f.conf.ReturnArgumentParenthesis = true then
                    "return (" ++ f.formatExpression e ++ ");"
                  else "return " ++ f.formatExpression e ++ ";")
              ++ f.trailing m.Trailing := by
  constructor
  · rw [show "return;" = "return" ++ ";" from by decide]
    simp [formatReturnStatement, String.append_assoc]
  · intro e
    rw [show "return (" = "return" ++ " (" from by decide,
      show ");" = ")" ++ ";" from by decide,
      show "return " = "return" ++ " " from by decide]
    cases hp : f.conf.ReturnArgumentParenthesis <;>
      simp [-String.reduceAppend, formatReturnStatement, hp, String.append_assoc]

/-- C9, as stated, fails: `formatStatement` returns a string, the empty one,
for a break statement, which is none of the kinds it recognises, and
`formatSwitchStatement` returns text for a switch whose case has no test value. -/
theorem formatStatement_unrecognised_returns :
    formatStatement (textFormatter defaultConfig) commentedBreak = ""
      ∧ formatSwitchStatement (textFormatter defaultConfig) switchWithoutTest
        = "  switch (x) \x7b\n  default:\n    break;\n  \x7d" := by
  decide

/-- C9, amended: `formatStatement` returns the empty string for a statement of
a kind it does not recognise, and a case without a test value is rendered with
the label `default:`; neither fails. -/
theorem formatStatement_unrecognised_empty (f : Formatter String) :
    (∀ t : BreakStatement, formatStatement f (.breakStmt t) = "")
      ∧ ∀ (m : Meta) (stmts : List Statement) (fall : Bool),
          formatCase f (.mk m none stmts fall)
            = f.formatComment m.Leading "\n" m.Nest
              ++ f.indent m.Nest
              ++ "default:\n"
              ++ formatCaseStatements f m.Nest stmts
              ++ (if fall = true then f.indent (m.Nest + 1) ++ "fallthrough;\n" else "") := by
  constructor
  · intro t
    simp [formatStatement]
  · intro m stmts fall
    simp [formatCase, formatCaseLabel, String.append_assoc]

/-- C10: an error statement is rendered as `error ` and the formatted code,
then one space and the formatted argument exactly when there is an argument,
then a semicolon; without an argument nothing stands between the code and the
semicolon. -/
theorem formatErrorStatement_argument (f : Formatter String) (m : Meta)
    (code : Expression) :
    formatErrorStatement f { toMeta := m, Code := code, Argument := none }
        = f.formatComment m.Leading "\n" m.Nest
          ++ f.indent m.Nest
          ++ "error " ++ f.formatExpression code
          ++ ";"
          ++ f.trailing m.Trailing
      ∧ ∀ arg : Expression,
          formatErrorStatement f { toMeta := m, Code := code, Argument := some arg }
            = f.formatComment m.Leading "\n" m.Nest
              ++ f.indent m.Nest
              ++ "error " ++ f.formatExpression code
              ++ " " ++ f.formatExpression arg
              ++ ";"
              ++ f.trailing m.Trailing := by
  constructor
  · simp [formatErrorStatement, String.append_assoc]
  · intro arg
    simp [formatErrorStatement, String.append_assoc]

/-! ### Comments -/

/-- C6: the comments of a break statement in a case are lost. The leading
comment `// stop` and the trailing comment `// done` of the break statement are
comments of the tree; formatting the switch statement hands no comment to the
comment writers and the text holds none. The same comments on an esi statement
in the same place are handed to the writers once each and are in the text. -/
theorem formatSwitchStatement_drops_break_comments :
    switchCommentedBreak.allComments = [⟨"// stop"⟩, ⟨"// done"⟩]
      ∧ formatStatement (commentTrace defaultConfig) (.switchStmt switchCommentedBreak) = []
      ∧ formatStatement (textFormatter defaultConfig) (.switchStmt switchCommentedBreak)
        = "  switch (x) \x7b\n  default:\n    break;\n  \x7d"
      ∧ switchCommentedEsi.allComments = [⟨"// stop"⟩, ⟨"// done"⟩]
      ∧ formatStatement (commentTrace defaultConfig) (.switchStmt switchCommentedEsi)
        = [⟨"// stop"⟩, ⟨"// done"⟩]
      ∧ formatStatement (textFormatter defaultConfig) (.switchStmt switchCommentedEsi)
        = "  switch (x) \x7b\n  default:\n    // stop\n    esi; // done\n  \x7d" := by
  decide

/-! ### The switch statement and the goto label -/

/-- C16: a switch statement is rendered as its leading comments and indent at
its `Nest`, `switch (`, the control expression and `) {` with a line feed, the
cases in the order of `Cases`, the infix comments when there are any, the
closing brace at the indent of its `Nest` and the trailing comment. The label of
a case is `default:` when the case has no test, and otherwise `case `, the
formatted right operand of the test and `:`, with `~ ` before the operand
exactly when the operator of the test is `~`. -/
theorem formatSwitchStatement_layout (f : Formatter String) (stmt : SwitchStatement) :
    formatSwitchStatement f stmt
        = f.formatComment stmt.toMeta.Leading "\n" stmt.toMeta.Nest
          ++ f.indent stmt.toMeta.Nest
          ++ "switch (" ++ f.formatExpression stmt.Control ++ ") \x7b" ++ "\n"
          ++ String.join (stmt.Cases.map fun c =>
              f.formatComment c.toMeta.Leading "\n" c.toMeta.Nest
                ++ f.indent c.toMeta.Nest
                ++ (match c.Test with
                    | none => "default:"
                    | some test =>
                      "case " ++ (if test.Operator = "~" then "~ " else "")
                        ++ f.formatExpression test.Right ++ ":")
                ++ "\n"
                ++ formatCaseStatements f c.toMeta.Nest c.Statements
                ++ (if c.Fallthrough then f.indent (c.toMeta.Nest + 1) ++ "fallthrough;\n"
                    else ""))
          ++ (if stmt.toMeta.Infix = [] then ""
              else f.formatComment stmt.toMeta.Infix "\n" stmt.toMeta.Nest)
          ++ f.indent stmt.toMeta.Nest
          ++ "\x7d"
          ++ f.trailing stmt.toMeta.Trailing := by
  have hcase : ∀ c : CaseStatement,
      formatCase f c
        = f.formatComment c.toMeta.Leading "\n" c.toMeta.Nest
            ++ f.indent c.toMeta.Nest
            ++ (match c.Test with
                | none => "default:"
                | some test =>
                  "case " ++ (if test.Operator = "~" then "~ " else "")
                    ++ f.formatExpression test.Right ++ ":")
            ++ "\n"
            ++ formatCaseStatements f c.toMeta.Nest c.Statements
            ++ (if c.Fallthrough then f.indent (c.toMeta.Nest + 1) ++ "fallthrough;\n"
                else "") := by
    intro c
    have h1 : "default:\n" = "default:" ++ "\n" := by decide
    have h2 : ":\n" = ":" ++ "\n" := by decide
    cases c with
    | mk m test stmts fall =>
      cases test <;> cases fall <;>
        simp [-String.reduceAppend, formatCase, formatCaseLabel, CaseStatement.toMeta,
          CaseStatement.Test, CaseStatement.Statements, CaseStatement.Fallthrough, h1, h2,
          String.append_assoc]
  have hbrace : ") \x7b\n" = ") \x7b" ++ "\n" := by decide
  cases stmt with
  | mk m control cases =>
    simp only [formatSwitchStatement, formatCases_eq_join, SwitchStatement.toMeta,
      SwitchStatement.Control, SwitchStatement.Cases, hbrace]
    rw [show cases.map (formatCase f) = cases.map _ from
      List.map_congr_left fun c _ => hcase c]
    cases h : m.Infix <;> simp [-String.reduceAppend, String.append_assoc]

/-- C17, as stated, fails: in a case at depth 1, the statement `esi;` recorded
at depth 3 is rendered at indent level 3 and not at level 1 + 1. -/
theorem formatCase_statement_at_own_nest :
    formatCase (textFormatter defaultConfig) caseWithDeepStatement
        = "  case \"a\":\n      esi;\n    break;\n    fallthrough;\n"
      ∧ formatStatement (textFormatter defaultConfig) (.esiStmt { Nest := 3 })
        ≠ Sample.indent (1 + 1) ++ "esi;" := by
  decide

/-- C17, amended: in the rendering of a case `c`, the line of a break
statement is the indent of `c.Nest + 1` and `break;`; the line of any other
statement is written by `formatStatement` and starts with the leading comments
and the indent at the level recorded in the statement itself (`indentLevel`),
which is one level deeper than the label when that level is `c.Nest + 1`. -/
theorem formatCase_statement_indent (f : Formatter String) (c : CaseStatement)
    (before : List Statement) (s : Statement) (after : List Statement)
    (h : c.Statements = before ++ s :: after) :
    ∃ line : String,
      formatCase f c
          = (f.formatComment c.toMeta.Leading "\n" c.toMeta.Nest
              ++ f.indent c.toMeta.Nest
              ++ formatCaseLabel f c.Test
              ++ formatCaseStatements f c.toMeta.Nest before)
            ++ (line ++ "\n")
            ++ (formatCaseStatements f c.toMeta.Nest after
                ++ (if c.Fallthrough then f.indent (c.toMeta.Nest + 1) ++ "fallthrough;\n"
                    else ""))
        ∧ (s.isBreak = true → line = f.indent (c.toMeta.Nest + 1) ++ "break;")
        ∧ (s.isBreak = false →
            line = formatStatement f s
              ∧ ∃ rest : String,
                  line = f.formatComment s.toMeta.Leading "\n" s.indentLevel
                    ++ f.indent s.indentLevel ++ rest) := by
  have happ : ∀ (xs ys : List Statement) (nest : Int),
      formatCaseStatements f nest (xs ++ ys)
        = formatCaseStatements f nest xs ++ formatCaseStatements f nest ys := by
    intro xs ys nest
    induction xs with
    | nil => simp [formatCaseStatements]
    | cons x xs ih => cases x <;> simp [formatCaseStatements, ih, String.append_assoc]
  refine ⟨if s.isBreak then f.indent (c.toMeta.Nest + 1) ++ "break;" else formatStatement f s,
    ?_, ?_, ?_⟩
  · cases c with
    | mk m test stmts fall =>
      simp only [CaseStatement.Statements] at h
      subst h
      cases s <;>
        simp [formatCase, happ, formatCaseStatements, Statement.isBreak, CaseStatement.toMeta,
          CaseStatement.Test, CaseStatement.Fallthrough, String.append_assoc]
  · intro hb
    simp [hb]
  · intro hb
    simp only [hb, Bool.false_eq_true, if_false, true_and]
    cases s with
    | breakStmt t => simp [Statement.isBreak] at hb
    | blockStmt t =>
      simp only [formatStatement, formatBlockStatement_eq, Statement.indentLevel, if_true,
        String.append_assoc]
      exact ⟨_, rfl⟩
    | ifStmt t =>
      simp only [formatStatement, formatIfStatement_eq, Statement.indentLevel,
        Statement.toMeta, String.append_assoc]
      exact ⟨_, rfl⟩
    | switchStmt t =>
      cases t with
      | mk m control cases =>
        simp only [formatStatement, formatSwitchStatement, Statement.indentLevel,
          Statement.toMeta, SwitchStatement.toMeta, String.append_assoc]
        exact ⟨_, rfl⟩
    | _ =>
      simp only [formatStatement, formatImportStatement, formatIncludeStatement,
        formatDeclareStatement, formatSetStatement, formatUnsetStatement,
        formatRemoveStatement, formatRestartStatement, formatEsiStatement,
        formatAddStatement, formatCallStatement, formatErrorStatement,
        formatLogStatement, formatReturnStatement, formatSyntheticStatement,
        formatSyntheticBase64Statement, formatGotoStatement,
        formatGotoDestinationStatement, formatFunctionCallStatement,
        Statement.indentLevel, Statement.toMeta, String.append_assoc]
      exact ⟨_, rfl⟩

/-- C17 at a concrete tree: the first statement of the first case of a switch
statement. -/
theorem formatCase_statement_indent_witness :
    ∃ line : String,
      formatCase (textFormatter defaultConfig) caseWithDeepStatement
          = (Sample.formatComment [] "\n" 1 ++ Sample.indent 1
              ++ formatCaseLabel (textFormatter defaultConfig) caseWithDeepStatement.Test
              ++ formatCaseStatements (textFormatter defaultConfig) 1 [])
            ++ (line ++ "\n")
            ++ (formatCaseStatements (textFormatter defaultConfig) 1 [.breakStmt { Nest := 2 }]
                ++ (if caseWithDeepStatement.Fallthrough then
                      Sample.indent (1 + 1) ++ "fallthrough;\n"
                    else ""))
        ∧ ((Statement.esiStmt { Nest := 3 }).isBreak = true
            → line = Sample.indent (1 + 1) ++ "break;")
        ∧ ((Statement.esiStmt { Nest := 3 }).isBreak = false →
            line = formatStatement (textFormatter defaultConfig) (.esiStmt { Nest := 3 })
              ∧ ∃ rest : String,
                  line = Sample.formatComment [] "\n" 3 ++ Sample.indent 3 ++ rest) :=
  formatCase_statement_indent (textFormatter defaultConfig) caseWithDeepStatement []
    (.esiStmt { Nest := 3 }) [.breakStmt { Nest := 2 }] rfl

/-- C18: a goto label is rendered as its leading comments and the indent at
its `Nest`, then `Name.Value` unchanged, then the trailing comment; nothing is
added after the name, so the text between the indent and the trailing comment
ends with a colon exactly when `Name.Value` does. -/
theorem formatGotoDestinationStatement_name (f : Formatter String)
    (stmt : GotoDestinationStatement) :
    formatGotoDestinationStatement f stmt
        = f.formatComment stmt.Leading "\n" stmt.Nest
          ++ f.indent stmt.Nest
          ++ stmt.Name.Value
          ++ f.trailing stmt.Trailing
      ∧ formatStatement f (.gotoDestinationStmt stmt)
        = formatGotoDestinationStatement f stmt
      ∧ formatGotoDestinationStatement (textFormatter defaultConfig)
          { Nest := 1, Name := { Nest := 1, Value := "retry:" } } = "  retry:"
      ∧ formatGotoDestinationStatement (textFormatter defaultConfig)
          { Nest := 1, Name := { Nest := 1, Value := "retry" } } = "  retry" := by
  refine ⟨?_, ?_, by decide, by decide⟩
  · simp [formatGotoDestinationStatement]
  · simp [formatStatement]

/-! ### The assertion `assert.ends_with` -/

namespace Testings

theorem HasSuffix_iff (x y : String) : HasSuffix x y = true ↔ ∃ p : String, x = p ++ y := by
  unfold HasSuffix
  simp only [Bool.and_eq_true, decide_eq_true_eq, beq_iff_eq, String.length]
  constructor
  · rintro ⟨hlen, hdrop⟩
    refine ⟨String.mk (x.data.take (x.data.length - y.data.length)), ?_⟩
    apply String.ext
    simp only [String.data_append]
    have : x.toList = x.data := rfl
    have hy : y.toList = y.data := rfl
    rw [this, hy] at hdrop
    have htd := List.take_append_drop (x.data.length - y.data.length) x.data
    rw [hdrop] at htd
    exact htd.symm
  · rintro ⟨p, rfl⟩
    have hx : (p ++ y).toList = p.data ++ y.data := by
      show (p ++ y).data = _
      simp [String.data_append]
    have hy : y.toList = y.data := rfl
    simp only [String.data_append, List.length_append, hx, hy]
    refine ⟨by omega, ?_⟩
    simp

/-- A list of two or three values. -/
theorem length_two_or_three (args : List Value) (h : args.length = 2 ∨ args.length = 3) :
    (∃ a b, args = [a, b]) ∨ ∃ a b c, args = [a, b, c] := by
  match args, h with
  | [a, b], _ => exact Or.inl ⟨a, b, rfl⟩
  | [a, b, c], _ => exact Or.inr ⟨a, b, c, rfl⟩
  | [], h => simp at h
  | [_], h => simp at h
  | _ :: _ :: _ :: _ :: _, h => simp at h

theorem type_string_iff (a : Value) : a.Type = .StringType ↔ ∃ s, a = .String s := by
  cases a <;> simp [Value.Type]

/-- C19: the validation returns (it never panics on an index); it returns nil
exactly for valid arguments, that is two or three values of string type.
`Assert_ends_with` returns no value together with a testing error exactly when
the arguments are not valid, and returns a Boolean value when they are. -/
theorem Assert_ends_with_validation (args : List Value) :
    (Assert_ends_with_lookup_Validate args = .returned none ↔ ValidArguments args)
      ∧ Assert_ends_with_lookup_Validate args ≠ .panicked
      ∧ Assert_ends_with args ≠ .panicked
      ∧ ((∃ cause, Assert_ends_with args = .returned (none, some (.TestingError cause)))
          ↔ ¬ ValidArguments args)
      ∧ (ValidArguments args →
          ∃ (b : Bool) (err : Option AssertError),
            Assert_ends_with args = .returned (some (.Boolean b), err)) := by
  match args with
  | [] => simp [Assert_ends_with_lookup_Validate, Assert_ends_with, ValidArguments]
  | [_] => simp [Assert_ends_with_lookup_Validate, Assert_ends_with, ValidArguments]
  | [a, b] =>
    cases a <;> cases b <;>
      simp [Assert_ends_with_lookup_Validate, Assert_ends_with, ValidArguments,
        validateArgumentTypes, Assert_ends_with_lookup_ArgumentTypes, Value.Type,
        unwrapString] <;>
      split_ifs <;> simp_all
  | [a, b, c] =>
    cases a <;> cases b <;> cases c <;>
      simp [Assert_ends_with_lookup_Validate, Assert_ends_with, ValidArguments,
        validateArgumentTypes, Assert_ends_with_lookup_ArgumentTypes, Value.Type,
        unwrapString] <;>
      split_ifs <;> simp_all
  | _ :: _ :: _ :: _ :: _ =>
    simp [Assert_ends_with_lookup_Validate, Assert_ends_with, ValidArguments]

/-- C20: for valid arguments whose first string is `x` and whose second is
`y`, `Assert_ends_with` returns the Boolean `HasSuffix x y`, which is true if
and only if `x` is some string followed by `y`; the returned error is nil if
and only if that Boolean is true. Every string ends with the empty string and
with itself. -/
theorem Assert_ends_with_suffix (args : List Value) (x y : String)
    (hv : ValidArguments args) (hx : args[0]? = some (.String x))
    (hy : args[1]? = some (.String y)) :
    (∃ err : Option AssertError,
        Assert_ends_with args = .returned (some (.Boolean (HasSuffix x y)), err)
          ∧ (err = none ↔ HasSuffix x y = true))
      ∧ (HasSuffix x y = true ↔ ∃ p : String, x = p ++ y)
      ∧ HasSuffix x "" = true
      ∧ HasSuffix x x = true := by
  refine ⟨?_, HasSuffix_iff x y, (HasSuffix_iff x "").2 ⟨x, by simp⟩,
    (HasSuffix_iff x x).2 ⟨"", by simp⟩⟩
  obtain ⟨hlen, hty⟩ := hv
  rcases length_two_or_three args hlen with ⟨a, b, rfl⟩ | ⟨a, b, c, rfl⟩
  · simp only [List.getElem?_cons_zero, List.getElem?_cons_succ, Option.some.injEq] at hx hy
    subst hx hy
    cases hs : HasSuffix x y <;>
      simp [Assert_ends_with, Assert_ends_with_lookup_Validate, validateArgumentTypes,
        Assert_ends_with_lookup_ArgumentTypes, Value.Type, unwrapString, hs]
  · simp only [List.getElem?_cons_zero, List.getElem?_cons_succ, Option.some.injEq] at hx hy
    subst hx hy
    obtain ⟨m, rfl⟩ := (type_string_iff c).1 (hty c (by simp))
    cases hs : HasSuffix x y <;> by_cases hm : m = "" <;>
      simp [Assert_ends_with, Assert_ends_with_lookup_Validate, validateArgumentTypes,
        Assert_ends_with_lookup_ArgumentTypes, Value.Type, unwrapString, hs, hm]

/-- C20 at concrete arguments: `example.com` ends with `.com`. -/
theorem Assert_ends_with_suffix_witness :
    (∃ err : Option AssertError,
        Assert_ends_with [.String "example.com", .String ".com"]
            = .returned (some (.Boolean (HasSuffix "example.com" ".com")), err)
          ∧ (err = none ↔ HasSuffix "example.com" ".com" = true))
      ∧ (HasSuffix "example.com" ".com" = true ↔ ∃ p : String, "example.com" = p ++ ".com")
      ∧ HasSuffix "example.com" "" = true
      ∧ HasSuffix "example.com" "example.com" = true :=
  Assert_ends_with_suffix [.String "example.com", .String ".com"] "example.com" ".com"
    ⟨Or.inl rfl, by decide⟩ rfl rfl

end Testings

/-! ### The parser: more fuel keeps a result -/

namespace Parser

theorem expression_fuel_succ : ∀ n : Nat,
    (∀ nest precedence ts r, parseExpression n nest precedence ts = .ok r →
        parseExpression (n + 1) nest precedence ts = .ok r)
    ∧ (∀ nest leading ts r, parseOperand n nest leading ts = .ok r →
        parseOperand (n + 1) nest leading ts = .ok r)
    ∧ (∀ nest precedence left ts r, parseInfix n nest precedence left ts = .ok r →
        parseInfix (n + 1) nest precedence left ts = .ok r)
    ∧ (∀ nest ts r, parseArguments n nest ts = .ok r →
        parseArguments (n + 1) nest ts = .ok r)
    ∧ (∀ nest ts r, parseArgumentList n nest ts = .ok r →
        parseArgumentList (n + 1) nest ts = .ok r) := by
  intro n
  induction n with
  | zero =>
    refine ⟨?_, ?_, ?_, ?_, ?_⟩ <;> intros <;> rename_i h <;>
      simp [parseExpression, parseOperand, parseInfix, parseArguments, parseArgumentList] at h
  | succ n ih =>
    obtain ⟨ihE, ihO, ihI, ihA, ihL⟩ := ih
    refine ⟨?_, ?_, ?_, ?_, ?_⟩
    · intro nest precedence ts r h
      simp only [parseExpression] at h ⊢
      cases hx : parseOperand n nest (takeComments ts).1 (takeComments ts).2 with
      | error e => rw [hx] at h; exact absurd h (by simp)
      | ok v =>
        obtain ⟨left, rest⟩ := v
        rw [hx] at h
        rw [ihO _ _ _ _ hx]
        exact ihI _ _ _ _ _ h
    · intro nest leading ts r h
      cases ts with
      | nil => simp [parseOperand] at h
      | cons t rest =>
        simp only [parseOperand] at h ⊢
        cases hk : t.Kind <;> simp only [hk] at h ⊢ <;> try exact h
        · -- an identifier
          cases rest with
          | nil => exact h
          | cons p rest1 =>
            simp only at h ⊢
            by_cases hp : p.Kind = .LEFT_PAREN
            · simp only [hp, if_true] at h ⊢
              cases hx : parseArguments n nest rest1 with
              | error e => rw [hx] at h; exact absurd h (by simp)
              | ok v =>
                obtain ⟨⟨args, cs⟩, rest2⟩ := v
                rw [hx] at h
                rw [ihA _ _ _ hx]
                exact h
            · simp only [hp, if_false] at h ⊢
              exact h
        · -- an if-expression
          cases h0 : expect .LEFT_PAREN "(" rest with
          | error e => rw [h0] at h; exact absurd h (by simp)
          | ok v0 =>
            obtain ⟨c0, t0, r0⟩ := v0
            rw [h0] at h
            simp only at h ⊢
            cases h1 : parseExpression n nest LOWEST r0 with
            | error e => rw [h1] at h; exact absurd h (by simp)
            | ok v1 =>
              obtain ⟨condition, r1⟩ := v1
              rw [h1] at h
              rw [ihE _ _ _ _ h1]
              simp only at h ⊢
              cases h2 : expect .COMMA "," r1 with
              | error e => rw [h2] at h; exact absurd h (by simp)
              | ok v2 =>
                obtain ⟨c1, t1, r2⟩ := v2
                rw [h2] at h
                simp only at h ⊢
                cases h3 : parseExpression n nest LOWEST r2 with
                | error e => rw [h3] at h; exact absurd h (by simp)
                | ok v3 =>
                  obtain ⟨consequence, r3⟩ := v3
                  rw [h3] at h
                  rw [ihE _ _ _ _ h3]
                  simp only at h ⊢
                  cases h4 : expect .COMMA "," r3 with
                  | error e => rw [h4] at h; exact absurd h (by simp)
                  | ok v4 =>
                    obtain ⟨c2, t2, r4⟩ := v4
                    rw [h4] at h
                    simp only at h ⊢
                    cases h5 : parseExpression n nest LOWEST r4 with
                    | error e => rw [h5] at h; exact absurd h (by simp)
                    | ok v5 =>
                      obtain ⟨alternative, r5⟩ := v5
                      rw [h5] at h
                      rw [ihE _ _ _ _ h5]
                      exact h
    · intro nest precedence left ts r h
      simp only [parseInfix] at h ⊢
      cases hts : (takeComments ts).2 with
      | nil => rw [hts] at h; exact h
      | cons t rest =>
        rw [hts] at h
        simp only at h ⊢
        by_cases hp : precedence < infixPrecedence t
        · simp only [hp, if_true] at h ⊢
          by_cases ho : t.Kind = .OPERATOR
          · simp only [ho, if_true] at h ⊢
            cases hx : parseExpression n nest (infixPrecedence t) rest with
            | error e => rw [hx] at h; exact absurd h (by simp)
            | ok v =>
              obtain ⟨right, rest1⟩ := v
              rw [hx] at h
              rw [ihE _ _ _ _ hx]
              exact ihI _ _ _ _ _ h
          · simp only [ho, if_false] at h ⊢
            cases hx : parseExpression n nest CONCAT ts with
            | error e => rw [hx] at h; exact absurd h (by simp)
            | ok v =>
              obtain ⟨right, rest1⟩ := v
              rw [hx] at h
              rw [ihE _ _ _ _ hx]
              exact ihI _ _ _ _ _ h
        · simp only [hp, if_false] at h ⊢
          exact h
    · intro nest ts r h
      simp only [parseArguments] at h ⊢
      cases hts : (takeComments ts).2 with
      | nil => rw [hts] at h; exact h
      | cons t rest =>
        rw [hts] at h
        simp only at h ⊢
        by_cases hp : t.Kind = .RIGHT_PAREN
        · simp only [hp, if_true] at h ⊢
          exact h
        · simp only [hp, if_false] at h ⊢
          exact ihL _ _ _ h
    · intro nest ts r h
      simp only [parseArgumentList] at h ⊢
      cases hx : parseExpression n nest LOWEST ts with
      | error e => rw [hx] at h; exact absurd h (by simp)
      | ok v =>
        obtain ⟨argument, rest⟩ := v
        rw [hx] at h
        rw [ihE _ _ _ _ hx]
        simp only at h ⊢
        cases hts : (takeComments rest).2 with
        | nil => rw [hts] at h; exact h
        | cons t rest1 =>
          rw [hts] at h
          simp only at h ⊢
          by_cases hc : t.Kind = .COMMA
          · simp only [hc, if_true] at h ⊢
            cases hl : parseArgumentList n nest rest1 with
            | error e => rw [hl] at h; exact absurd h (by simp)
            | ok w =>
              obtain ⟨⟨arguments, cs⟩, rest2⟩ := w
              rw [hl] at h
              have hl1 := ihL _ _ _ hl
              simp only [parseArgumentList] at hl1
              rw [hl1]
              exact h
          · simp only [hc, if_false] at h ⊢
            exact h

theorem parseExpression_fuel_succ (n : Nat) (nest : Int) (precedence : Nat) (ts : List Token)
    (r : Expression × List Token) (h : parseExpression n nest precedence ts = .ok r) :
    parseExpression (n + 1) nest precedence ts = .ok r :=
  (expression_fuel_succ n).1 nest precedence ts r h

theorem parseExpression_fuel_le {n m : Nat} (hle : n ≤ m) (nest : Int) (precedence : Nat)
    (ts : List Token) (r : Expression × List Token)
    (h : parseExpression n nest precedence ts = .ok r) :
    parseExpression m nest precedence ts = .ok r := by
  induction hle with
  | refl => exact h
  | step _ ih => exact parseExpression_fuel_succ _ _ _ _ _ ih

theorem parseOperand_fuel_le {n m : Nat} (hle : n ≤ m) (nest : Int) (leading : Comments)
    (ts : List Token) (r : Expression × List Token)
    (h : parseOperand n nest leading ts = .ok r) :
    parseOperand m nest leading ts = .ok r := by
  induction hle with
  | refl => exact h
  | step _ ih => exact (expression_fuel_succ _).2.1 _ _ _ _ ih

theorem parseInfix_fuel_le {n m : Nat} (hle : n ≤ m) (nest : Int) (precedence : Nat)
    (left : Expression) (ts : List Token) (r : Expression × List Token)
    (h : parseInfix n nest precedence left ts = .ok r) :
    parseInfix m nest precedence left ts = .ok r := by
  induction hle with
  | refl => exact h
  | step _ ih => exact (expression_fuel_succ _).2.2.1 _ _ _ _ _ ih

theorem parseArguments_fuel_le {n m : Nat} (hle : n ≤ m) (nest : Int) (ts : List Token)
    (r : (List Expression × Comments) × List Token)
    (h : parseArguments n nest ts = .ok r) :
    parseArguments m nest ts = .ok r := by
  induction hle with
  | refl => exact h
  | step _ ih => exact (expression_fuel_succ _).2.2.2.1 _ _ _ ih

theorem parseArgumentList_fuel_le {n m : Nat} (hle : n ≤ m) (nest : Int) (ts : List Token)
    (r : (List Expression × Comments) × List Token)
    (h : parseArgumentList n nest ts = .ok r) :
    parseArgumentList m nest ts = .ok r := by
  induction hle with
  | refl => exact h
  | step _ ih => exact (expression_fuel_succ _).2.2.2.2 _ _ _ ih

theorem parseAssignment_fuel_succ (build : Meta → Ident → Operator → Expression → Statement)
    (n : Nat) (nest : Int) (leading : Comments) (ts : List Token) (r : Statement × List Token)
    (h : parseAssignment build n nest leading ts = .ok r) :
    parseAssignment build (n + 1) nest leading ts = .ok r := by
  simp only [parseAssignment] at h ⊢
  cases h0 : expect .IDENT "identifier" ts with
  | error e => rw [h0] at h; exact absurd h (by simp)
  | ok v0 =>
    obtain ⟨c0, name, r0⟩ := v0
    rw [h0] at h
    simp only at h ⊢
    cases h1 : expect .ASSIGNMENT "assignment operator" r0 with
    | error e => rw [h1] at h; exact absurd h (by simp)
    | ok v1 =>
      obtain ⟨c1, op, r1⟩ := v1
      rw [h1] at h
      simp only at h ⊢
      cases h2 : parseExpression n nest LOWEST r1 with
      | error e => rw [h2] at h; exact absurd h (by simp)
      | ok v2 =>
        obtain ⟨value, r2⟩ := v2
        rw [h2] at h
        rw [parseExpression_fuel_succ _ _ _ _ _ h2]
        exact h

theorem parseLogStatement_fuel_succ (n : Nat) (nest : Int) (leading : Comments)
    (ts : List Token) (r : Statement × List Token)
    (h : parseLogStatement n nest leading ts = .ok r) :
    parseLogStatement (n + 1) nest leading ts = .ok r := by
  simp only [parseLogStatement] at h ⊢
  cases h0 : parseExpression n nest LOWEST ts with
  | error e => rw [h0] at h; exact absurd h (by simp)
  | ok v0 =>
    obtain ⟨value, r0⟩ := v0
    rw [h0] at h
    rw [parseExpression_fuel_succ _ _ _ _ _ h0]
    exact h

theorem parseCondition_fuel_succ (n : Nat) (nest : Int) (ts : List Token)
    (r : (Expression × Comments × Comments) × List Token)
    (h : parseCondition n nest ts = .ok r) :
    parseCondition (n + 1) nest ts = .ok r := by
  simp only [parseCondition] at h ⊢
  cases h0 : expect .LEFT_PAREN "(" ts with
  | error e => rw [h0] at h; exact absurd h (by simp)
  | ok v0 =>
    obtain ⟨c0, t0, r0⟩ := v0
    rw [h0] at h
    simp only at h ⊢
    cases h1 : parseExpression n nest LOWEST r0 with
    | error e => rw [h1] at h; exact absurd h (by simp)
    | ok v1 =>
      obtain ⟨condition, r1⟩ := v1
      rw [h1] at h
      rw [parseExpression_fuel_succ _ _ _ _ _ h1]
      exact h

theorem statement_fuel_succ : ∀ n : Nat,
    (∀ nest leading ts r, parseStatement n nest leading ts = .ok r →
        parseStatement (n + 1) nest leading ts = .ok r)
    ∧ (∀ nest leading ts r, parseBlockStatement n nest leading ts = .ok r →
        parseBlockStatement (n + 1) nest leading ts = .ok r)
    ∧ (∀ nest ts r, parseBlockItems n nest ts = .ok r →
        parseBlockItems (n + 1) nest ts = .ok r)
    ∧ (∀ nest line ts r, parseElse n nest line ts = .ok r →
        parseElse (n + 1) nest line ts = .ok r) := by
  intro n
  induction n with
  | zero =>
    refine ⟨?_, ?_, ?_, ?_⟩ <;> intros <;> rename_i h <;>
      simp [parseStatement, parseBlockStatement, parseBlockItems, parseElse] at h
  | succ n ih =>
    obtain ⟨ihS, ihB, ihI, ihE⟩ := ih
    refine ⟨?_, ?_, ?_, ?_⟩
    · intro nest leading ts r h
      cases ts with
      | nil => simp [parseStatement] at h
      | cons t rest =>
        simp only [parseStatement] at h ⊢
        cases hk : t.Kind <;> simp only [hk] at h ⊢ <;> try exact h
        · -- a block
          cases hx : parseBlockStatement n nest leading rest with
          | error e => rw [hx] at h; exact absurd h (by simp)
          | ok v =>
            obtain ⟨⟨block, line⟩, r0⟩ := v
            rw [hx] at h
            rw [ihB _ _ _ _ hx]
            exact h
        · exact parseAssignment_fuel_succ _ _ _ _ _ _ h
        · exact parseAssignment_fuel_succ _ _ _ _ _ _ h
        · exact parseLogStatement_fuel_succ _ _ _ _ _ h
        · -- an if statement
          cases h0 : parseCondition n nest rest with
          | error e => rw [h0] at h; exact absurd h (by simp)
          | ok v0 =>
            obtain ⟨⟨condition, cs, blockLeading⟩, r0⟩ := v0
            rw [h0] at h
            rw [parseCondition_fuel_succ _ _ _ _ h0]
            simp only at h ⊢
            cases h1 : parseBlockStatement n nest blockLeading r0 with
            | error e => rw [h1] at h; exact absurd h (by simp)
            | ok v1 =>
              obtain ⟨⟨consequence, line⟩, r1⟩ := v1
              rw [h1] at h
              rw [ihB _ _ _ _ h1]
              simp only at h ⊢
              cases h2 : parseElse n nest line r1 with
              | error e => rw [h2] at h; exact absurd h (by simp)
              | ok v2 =>
                obtain ⟨⟨another, alternative, last⟩, r2⟩ := v2
                rw [h2] at h
                rw [ihE _ _ _ _ h2]
                exact h
    · intro nest leading ts r h
      simp only [parseBlockStatement] at h ⊢
      cases hx : parseBlockItems n (nest + 1) ts with
      | error e => rw [hx] at h; exact absurd h (by simp)
      | ok v =>
        obtain ⟨⟨stmts, cs, line⟩, rest⟩ := v
        rw [hx] at h
        rw [ihI _ _ _ hx]
        exact h
    · intro nest ts r h
      simp only [parseBlockItems] at h ⊢
      cases hts : (takeComments ts).2 with
      | nil => rw [hts] at h; exact h
      | cons t rest =>
        rw [hts] at h
        simp only at h ⊢
        by_cases hb : t.Kind = .RIGHT_BRACE
        · simp only [hb, if_true] at h ⊢
          exact h
        · simp only [hb, if_false] at h ⊢
          cases hx : parseStatement n nest (takeComments ts).1 (t :: rest) with
          | error e => rw [hx] at h; exact absurd h (by simp)
          | ok v =>
            obtain ⟨stmt, rest1⟩ := v
            rw [hx] at h
            rw [ihS _ _ _ _ hx]
            simp only at h ⊢
            cases hy : parseBlockItems n nest rest1 with
            | error e => rw [hy] at h; exact absurd h (by simp)
            | ok w =>
              obtain ⟨⟨stmts, cs, line⟩, rest2⟩ := w
              rw [hy] at h
              have hy1 := ihI _ _ _ hy
              first
                | rw [hy1]
                | (simp only [parseBlockItems] at hy1
                   rw [hy1])
              exact h
    · intro nest line ts r h
      simp only [parseElse] at h ⊢
      cases hts : (takeComments ts).2 with
      | nil => rw [hts] at h; exact h
      | cons t rest =>
        rw [hts] at h
        simp only at h ⊢
        by_cases hb : t.Kind = .ELSEIF
        · simp only [hb, if_true] at h ⊢
          cases h0 : parseCondition n nest rest with
          | error e => rw [h0] at h; exact absurd h (by simp)
          | ok v0 =>
            obtain ⟨⟨condition, cs, blockLeading⟩, r0⟩ := v0
            rw [h0] at h
            rw [parseCondition_fuel_succ _ _ _ _ h0]
            simp only at h ⊢
            cases h1 : parseBlockStatement n nest blockLeading r0 with
            | error e => rw [h1] at h; exact absurd h (by simp)
            | ok v1 =>
              obtain ⟨⟨consequence, line1⟩, r1⟩ := v1
              rw [h1] at h
              have h1s := ihB _ _ _ _ h1
              rw [h1s]
              simp only at h ⊢
              cases h2 : parseElse n nest line1 r1 with
              | error e => rw [h2] at h; exact absurd h (by simp)
              | ok v2 =>
                obtain ⟨⟨another, alternative, last⟩, r2⟩ := v2
                rw [h2] at h
                have h2s := ihE _ _ _ _ h2
                first
                  | rw [h2s]
                  | (simp only [parseElse] at h2s
                     rw [h2s])
                exact h
        · simp only [hb, if_false] at h ⊢
          by_cases hc : t.Kind = .ELSE ∧ ((takeComments rest).2.head?.map (·.Kind)) = some .IF
          · rw [if_pos hc] at h ⊢
            cases h0 : parseCondition n nest (takeComments rest).2.tail with
            | error e => rw [h0] at h; exact absurd h (by simp)
            | ok v0 =>
              obtain ⟨⟨condition, cs, blockLeading⟩, r0⟩ := v0
              rw [h0] at h
              rw [parseCondition_fuel_succ _ _ _ _ h0]
              simp only at h ⊢
              cases h1 : parseBlockStatement n nest blockLeading r0 with
              | error e => rw [h1] at h; exact absurd h (by simp)
              | ok v1 =>
                obtain ⟨⟨consequence, line1⟩, r1⟩ := v1
                rw [h1] at h
                have h1s := ihB _ _ _ _ h1
                rw [h1s]
                simp only at h ⊢
                cases h2 : parseElse n nest line1 r1 with
                | error e => rw [h2] at h; exact absurd h (by simp)
                | ok v2 =>
                  obtain ⟨⟨another, alternative, last⟩, r2⟩ := v2
                  rw [h2] at h
                  have h2s := ihE _ _ _ _ h2
                  first
                    | rw [h2s]
                    | (simp only [parseElse] at h2s
                       rw [h2s])
                  exact h
          · rw [if_neg hc] at h ⊢
            by_cases he : t.Kind = .ELSE
            · simp only [he, if_true] at h ⊢
              cases h0 : expect .LEFT_BRACE "\x7b" rest with
              | error e => rw [h0] at h; exact absurd h (by simp)
              | ok v0 =>
                obtain ⟨c0, t0, r0⟩ := v0
                rw [h0] at h
                simp only at h ⊢
                cases h1 : parseBlockStatement n nest ((takeComments ts).1 ++ c0) r0 with
                | error e => rw [h1] at h; exact absurd h (by simp)
                | ok v1 =>
                  obtain ⟨⟨alternative, last⟩, r1⟩ := v1
                  rw [h1] at h
                  rw [ihB _ _ _ _ h1]
                  exact h
            · simp only [he, if_false] at h ⊢
              exact h

end Parser

/-! ### The parser: single steps -/

namespace Parser

theorem parseStatement_fuel_le {n m : Nat} (hle : n ≤ m) (nest : Int) (leading : Comments)
    (ts : List Token) (r : Statement × List Token)
    (h : parseStatement n nest leading ts = .ok r) :
    parseStatement m nest leading ts = .ok r := by
  induction hle with
  | refl => exact h
  | step _ ih => exact (statement_fuel_succ _).1 _ _ _ _ ih

theorem parseBlockStatement_fuel_le {n m : Nat} (hle : n ≤ m) (nest : Int)
    (leading : Comments) (ts : List Token) (r : (BlockStatement × Nat) × List Token)
    (h : parseBlockStatement n nest leading ts = .ok r) :
    parseBlockStatement m nest leading ts = .ok r := by
  induction hle with
  | refl => exact h
  | step _ ih => exact (statement_fuel_succ _).2.1 _ _ _ _ ih

theorem parseBlockItems_fuel_le {n m : Nat} (hle : n ≤ m) (nest : Int) (ts : List Token)
    (r : (List Statement × Comments × Nat) × List Token)
    (h : parseBlockItems n nest ts = .ok r) :
    parseBlockItems m nest ts = .ok r := by
  induction hle with
  | refl => exact h
  | step _ ih => exact (statement_fuel_succ _).2.2.1 _ _ _ ih

/-- A token an operand starts with binds as concatenation and is no
operator. -/
theorem parseOperand_start (n : Nat) (nest : Int) (leading : Comments) (ts : List Token)
    (r : Expression × List Token) (h : parseOperand n nest leading ts = .ok r) :
    ∃ t rest, ts = t :: rest ∧ t.Kind ≠ .OPERATOR ∧ infixPrecedence t = CONCAT
      ∧ t.Kind ≠ .RIGHT_PAREN ∧ t.Kind ≠ .COMMENT := by
  cases n with
  | zero => simp [parseOperand] at h
  | succ n =>
    cases ts with
    | nil => simp [parseOperand] at h
    | cons t rest =>
      refine ⟨t, rest, rfl, ?_⟩
      simp only [parseOperand] at h
      cases hk : t.Kind <;> simp only [hk] at h <;>
        first
        | (simp [infixPrecedence, hk]; done)
        | (exfalso; cases h)

theorem takeComments_of_not_comment (t : Token) (rest : List Token) (h : t.Kind ≠ .COMMENT) :
    takeComments (t :: rest) = ([], t :: rest) := by
  simp [takeComments, h]

theorem takeComments_snd_idem (ts : List Token) :
    takeComments (takeComments ts).2 = ([], (takeComments ts).2) := by
  induction ts with
  | nil => simp [takeComments]
  | cons t ts ih =>
    by_cases h : t.Kind = .COMMENT
    · simp [takeComments, h, ih]
    · simp [takeComments, h]

theorem parseExpression_of_operand (k : Nat) (nest : Int) (precedence : Nat)
    (ts : List Token) (left : Expression) (rest : List Token)
    (h : parseOperand k nest (takeComments ts).1 (takeComments ts).2 = .ok (left, rest)) :
    parseExpression (k + 1) nest precedence ts = parseInfix k nest precedence left rest := by
  simp only [parseExpression, h]

theorem parseInfix_stop (k : Nat) (nest : Int) (precedence : Nat) (left : Expression)
    (ts : List Token)
    (h : ∀ t rest, (takeComments ts).2 = t :: rest → ¬ precedence < infixPrecedence t) :
    parseInfix (k + 1) nest precedence left ts = .ok (left, ts) := by
  simp only [parseInfix]
  cases hts : (takeComments ts).2 with
  | nil => rfl
  | cons t rest => simp only [h t rest hts, if_false]

theorem parseInfix_concat (k : Nat) (nest : Int) (precedence : Nat) (left right : Expression)
    (ts rest1 : List Token) (t : Token) (rest : List Token)
    (hts : (takeComments ts).2 = t :: rest) (hp : precedence < infixPrecedence t)
    (ho : t.Kind ≠ .OPERATOR)
    (h : parseExpression k nest CONCAT ts = .ok (right, rest1)) :
    parseInfix (k + 1) nest precedence left ts
      = parseInfix k nest precedence (.infixExpr (.mk { Nest := nest } left "+" right)) rest1 := by
  simp only [parseInfix, hts, hp, ho, if_true, if_false, h]

theorem parseInfix_operator (k : Nat) (nest : Int) (precedence : Nat)
    (left right : Expression) (ts rest1 : List Token) (t : Token) (rest : List Token)
    (hts : (takeComments ts).2 = t :: rest) (hp : precedence < infixPrecedence t)
    (ho : t.Kind = .OPERATOR)
    (h : parseExpression k nest (infixPrecedence t) rest = .ok (right, rest1)) :
    parseInfix (k + 1) nest precedence left ts
      = parseInfix k nest precedence
          (.infixExpr (.mk { Nest := nest, Leading := (takeComments ts).1 } left t.Literal right))
          rest1 := by
  simp only [parseInfix, hts, hp, ho, if_true, h]

/-- An operand after which no token binds tighter than `precedence` is the
whole expression. -/
theorem parseExpression_single (n : Nat) (nest : Int) (precedence : Nat) (ts : List Token)
    (e : Expression) (r : List Token)
    (h : parseOperand n nest (takeComments ts).1 (takeComments ts).2 = .ok (e, r))
    (hstop : ∀ t rest, (takeComments r).2 = t :: rest → ¬ precedence < infixPrecedence t)
    (m : Nat) (hm : n + 2 ≤ m) :
    parseExpression m nest precedence ts = .ok (e, r) := by
  obtain ⟨k, rfl⟩ : ∃ k, m = k + 1 + 1 := ⟨m - 2, by omega⟩
  rw [parseExpression_of_operand _ _ _ _ _ _
    (parseOperand_fuel_le (by omega : n ≤ k + 1) _ _ _ _ h)]
  exact parseInfix_stop _ _ _ _ _ hstop

/-- Three operands in a row are joined to the left. -/
theorem parseExpression_three_operands (n : Nat) (nest : Int) (r0 r1 r2 r3 : List Token)
    (e1 e2 e3 : Expression)
    (h1 : parseOperand n nest (takeComments r0).1 (takeComments r0).2 = .ok (e1, r1))
    (h2 : parseOperand n nest (takeComments r1).1 (takeComments r1).2 = .ok (e2, r2))
    (h3 : parseOperand n nest (takeComments r2).1 (takeComments r2).2 = .ok (e3, r3))
    (hend : ∀ t rest, (takeComments r3).2 = t :: rest → infixPrecedence t = LOWEST)
    (m : Nat) (hm : n + 5 ≤ m) :
    parseExpression m nest LOWEST r0
      = .ok (.infixExpr (.mk { Nest := nest }
          (.infixExpr (.mk { Nest := nest } e1 "+" e2)) "+" e3), r3) := by
  obtain ⟨t2, rest2, hts2, ho2, hp2, -, -⟩ := parseOperand_start _ _ _ _ _ h2
  obtain ⟨t3, rest3, hts3, ho3, hp3, -, -⟩ := parseOperand_start _ _ _ _ _ h3
  obtain ⟨k, rfl⟩ : ∃ k, m = k + 1 + 1 + 1 := ⟨m - 3, by omega⟩
  have hk : n + 2 ≤ k := by omega
  have hstop3 : ∀ t rest, (takeComments r3).2 = t :: rest → ¬ CONCAT < infixPrecedence t := by
    intro t rest ht
    rw [hend t rest ht]
    decide
  have hstop3l : ∀ t rest, (takeComments r3).2 = t :: rest → ¬ LOWEST < infixPrecedence t := by
    intro t rest ht
    rw [hend t rest ht]
    decide
  have hstop2 : ∀ t rest, (takeComments r2).2 = t :: rest → ¬ CONCAT < infixPrecedence t := by
    intro t rest ht
    rw [hts3] at ht
    cases ht
    rw [hp3]
    decide
  have he2 := parseExpression_single n nest CONCAT r1 e2 r2 h2 hstop2
  have he3 := parseExpression_single n nest CONCAT r2 e3 r3 h3 hstop3
  rw [parseExpression_of_operand _ _ _ _ _ _
    (parseOperand_fuel_le (by omega : n ≤ k + 1 + 1) _ _ _ _ h1)]
  rw [parseInfix_concat (k + 1) nest LOWEST e1 e2 r1 r2 t2 rest2 hts2
    (by rw [hp2]; decide) ho2 (he2 (k + 1) (by omega))]
  rw [parseInfix_concat k nest LOWEST _ e3 r2 r3 t3 rest3 hts3
    (by rw [hp3]; decide) ho3 (he3 k hk)]
  obtain ⟨j, rfl⟩ : ∃ j, k = j + 1 := ⟨k - 1, by omega⟩
  exact parseInfix_stop _ _ _ _ _ hstop3l

end Parser

/-! ### The parser: if-expressions and function calls -/

namespace Parser

theorem expect_head (kind : TokenType) (expected : String) (t : Token) (rest : List Token)
    (h : t.Kind = kind) (hc : kind ≠ .COMMENT) :
    expect kind expected (t :: rest) = .ok ([], t, rest) := by
  subst h
  simp [expect, takeComments, hc]

theorem takeComments_head (t : Token) (rest : List Token) (h : t.Kind ≠ .COMMENT) :
    takeComments (t :: rest) = ([], t :: rest) := by
  simp [takeComments, h]

/-- The if-expression `if (c, a, b)` as an operand. -/
theorem parseOperand_ifExpression (n : Nat) (nest : Int) (leading : Comments)
    (tIf tOpen : Token) (rc : List Token) (c a b : Expression)
    (comma1 comma2 close : Token) (ra rb rest : List Token)
    (hIf : tIf.Kind = .IF) (hOpen : tOpen.Kind = .LEFT_PAREN)
    (hc : parseExpression n nest LOWEST rc = .ok (c, comma1 :: ra))
    (hcomma1 : comma1.Kind = .COMMA)
    (ha : parseExpression n nest LOWEST ra = .ok (a, comma2 :: rb))
    (hcomma2 : comma2.Kind = .COMMA)
    (hb : parseExpression n nest LOWEST rb = .ok (b, close :: rest))
    (hclose : close.Kind = .RIGHT_PAREN)
    (m : Nat) (hm : n + 1 ≤ m) :
    parseOperand m nest leading (tIf :: tOpen :: rc)
      = .ok (.ifExpr { Nest := nest, Leading := leading } c a b, rest) := by
  obtain ⟨k, rfl⟩ : ∃ k, m = k + 1 := ⟨m - 1, by omega⟩
  have hk : n ≤ k := by omega
  simp only [parseOperand, hIf,
    expect_head .LEFT_PAREN "(" tOpen rc hOpen (by decide),
    parseExpression_fuel_le hk _ _ _ _ hc,
    expect_head .COMMA "," comma1 ra hcomma1 (by decide),
    parseExpression_fuel_le hk _ _ _ _ ha,
    expect_head .COMMA "," comma2 rb hcomma2 (by decide),
    parseExpression_fuel_le hk _ _ _ _ hb,
    expect_head .RIGHT_PAREN ")" close rest hclose (by decide), List.append_nil]

theorem infixPrecedence_of_kind (t : Token)
    (h : t.Kind = .SEMICOLON ∨ t.Kind = .RIGHT_PAREN ∨ t.Kind = .COMMA
      ∨ t.Kind = .RIGHT_BRACE ∨ t.Kind = .LEFT_BRACE ∨ t.Kind = .EOF) :
    infixPrecedence t = LOWEST := by
  rcases h with h | h | h | h | h | h <;> simp [infixPrecedence, h]

theorem parseArgumentList_of_tokens (n : Nat) (nest : Int) (ts : List Token)
    (es : List Expression) (rest : List Token) (h : ArgumentTokens n nest ts es rest) :
    ∀ m, n + es.length ≤ m → parseArgumentList m nest ts = .ok ((es, []), rest) := by
  induction h with
  | last ts e close rest h hclose =>
    intro m hm
    obtain ⟨k, rfl⟩ : ∃ k, m = k + 1 := ⟨m - 1, by simp at hm; omega⟩
    have hk : n ≤ k := by simp at hm; omega
    have hcl : close.Kind ≠ .COMMENT := by rw [hclose]; decide
    have hco : close.Kind ≠ .COMMA := by rw [hclose]; decide
    simp only [parseArgumentList, parseExpression_fuel_le hk _ _ _ _ h,
      takeComments_head close rest hcl]
    simp [hclose]
  | more ts e comma ts1 es rest h hcomma _ ih =>
    intro m hm
    obtain ⟨k, rfl⟩ : ∃ k, m = k + 1 := ⟨m - 1, by simp at hm; omega⟩
    have hk : n ≤ k := by simp at hm; omega
    have hcl : comma.Kind ≠ .COMMENT := by rw [hcomma]; decide
    have ih1 := ih k (by simp at hm; omega)
    simp only [parseArgumentList, parseExpression_fuel_le hk _ _ _ _ h,
      takeComments_head comma ts1 hcl, hcomma, if_true]
    rw [ih1]
    rfl

theorem parseExpression_start (n : Nat) (nest : Int) (precedence : Nat) (ts : List Token)
    (r : Expression × List Token) (h : parseExpression n nest precedence ts = .ok r) :
    ∃ t rest, (takeComments ts).2 = t :: rest ∧ t.Kind ≠ .RIGHT_PAREN := by
  cases n with
  | zero => simp [parseExpression] at h
  | succ n =>
    simp only [parseExpression] at h
    cases hx : parseOperand n nest (takeComments ts).1 (takeComments ts).2 with
    | error e => rw [hx] at h; exact absurd h (by simp)
    | ok v =>
      obtain ⟨t, rest, hts, -, -, hp, -⟩ := parseOperand_start _ _ _ _ _ hx
      exact ⟨t, rest, hts, hp⟩

theorem ArgumentTokens.start {n : Nat} {nest : Int} {ts : List Token} {es : List Expression}
    {rest : List Token} (h : ArgumentTokens n nest ts es rest) :
    ∃ t r, (takeComments ts).2 = t :: r ∧ t.Kind ≠ .RIGHT_PAREN := by
  cases h with
  | last _ _ _ _ h _ => exact parseExpression_start _ _ _ _ _ h
  | more _ _ _ _ _ _ h _ _ => exact parseExpression_start _ _ _ _ _ h

/-- A function call with arguments as an operand. -/
theorem parseOperand_functionCall (n : Nat) (nest : Int) (leading : Comments)
    (name tOpen : Token) (ts : List Token) (es : List Expression) (rest : List Token)
    (hname : name.Kind = .IDENT) (hOpen : tOpen.Kind = .LEFT_PAREN)
    (h : ArgumentTokens n nest ts es rest) (m : Nat) (hm : n + es.length + 2 ≤ m) :
    parseOperand m nest leading (name :: tOpen :: ts)
      = .ok (.functionCall { Nest := nest, Leading := leading }
          { Nest := nest, Value := name.Literal } es, rest) := by
  obtain ⟨k, rfl⟩ : ∃ k, m = k + 1 + 1 := ⟨m - 2, by omega⟩
  obtain ⟨t, r, hts, ht⟩ := h.start
  have hl := parseArgumentList_of_tokens n nest ts es rest h k (by omega)
  have ha : parseArguments (k + 1) nest ts = .ok ((es, []), rest) := by
    simp only [parseArguments, hts, ht, if_false, hl]
  simp only [parseOperand, hname, hOpen, if_true, ha]

/-- A function call without arguments as an operand. -/
theorem parseOperand_functionCall_empty (nest : Int) (leading : Comments)
    (name tOpen close : Token) (rest : List Token)
    (hname : name.Kind = .IDENT) (hOpen : tOpen.Kind = .LEFT_PAREN)
    (hclose : close.Kind = .RIGHT_PAREN) (m : Nat) (hm : 2 ≤ m) :
    parseOperand m nest leading (name :: tOpen :: close :: rest)
      = .ok (.functionCall { Nest := nest, Leading := leading }
          { Nest := nest, Value := name.Literal } [], rest) := by
  obtain ⟨k, rfl⟩ : ∃ k, m = k + 1 + 1 := ⟨m - 2, by omega⟩
  have hcl : close.Kind ≠ .COMMENT := by rw [hclose]; decide
  have ha : parseArguments (k + 1) nest (close :: rest) = .ok (([], []), rest) := by
    simp only [parseArguments, takeComments_head close rest hcl, hclose, if_true]
  simp only [parseOperand, hname, hOpen, if_true, ha]

end Parser

/-! ### The parser: comments and nesting depth -/

namespace Parser

theorem parseBlockItems_of_tokens (n : Nat) (nest : Int) (ts : List Token)
    (stmts : List Statement) (rest : List Token) (h : StatementTokens n nest ts stmts rest)
    (close : Token) (rest1 : List Token) (hrest : (takeComments rest).2 = close :: rest1)
    (hclose : close.Kind = .RIGHT_BRACE) :
    ∀ m, n + stmts.length + 1 ≤ m →
      parseBlockItems m nest ts = .ok ((stmts, (takeComments rest).1, close.Line), rest1) := by
  induction h with
  | done ts =>
    intro m hm
    obtain ⟨k, rfl⟩ : ∃ k, m = k + 1 := ⟨m - 1, by omega⟩
    simp only [parseBlockItems, hrest, hclose, if_true]
  | next ts t r s ts1 stmts rest hts ht h _ ih =>
    intro m hm
    obtain ⟨k, rfl⟩ : ∃ k, m = k + 1 := ⟨m - 1, by omega⟩
    have hk : n ≤ k := by simp at hm; omega
    have ih1 := ih hrest k (by simp at hm; omega)
    simp only [parseBlockItems, hts, ht, if_false]
    rw [parseStatement_fuel_le hk _ _ _ _ h]
    simp only
    rw [ih1]

theorem parseBlockStatement_of_tokens (n : Nat) (nest : Int) (leading : Comments)
    (ts : List Token) (stmts : List Statement) (rest : List Token)
    (h : StatementTokens n (nest + 1) ts stmts rest)
    (close : Token) (rest1 : List Token) (hrest : (takeComments rest).2 = close :: rest1)
    (hclose : close.Kind = .RIGHT_BRACE) (m : Nat) (hm : n + stmts.length + 2 ≤ m) :
    parseBlockStatement m nest leading ts
      = .ok ((.mk { Nest := nest + 1, Leading := leading, Infix := (takeComments rest).1 } stmts,
          close.Line), rest1) := by
  obtain ⟨k, rfl⟩ : ∃ k, m = k + 1 := ⟨m - 1, by omega⟩
  simp only [parseBlockStatement,
    parseBlockItems_of_tokens n (nest + 1) ts stmts rest h close rest1 hrest hclose k (by omega)]

/-- The pending comments handed to `parseOperand` are the leading comments of
the operand. -/
theorem parseOperand_leading (n : Nat) (nest : Int) (leading : Comments) (ts : List Token)
    (e : Expression) (r : List Token) (h : parseOperand n nest leading ts = .ok (e, r)) :
    e.toMeta.Leading = leading := by
  cases n with
  | zero => simp [parseOperand] at h
  | succ n =>
    cases ts with
    | nil => simp [parseOperand] at h
    | cons t rest =>
      simp only [parseOperand] at h
      cases hk : t.Kind <;> simp only [hk] at h <;> try (exfalso; cases h; done)
      · -- an identifier
        cases rest with
        | nil => cases h; rfl
        | cons p rest1 =>
          simp only at h
          by_cases hp : p.Kind = .LEFT_PAREN
          · simp only [hp, if_true] at h
            cases hx : parseArguments n nest rest1 with
            | error e => rw [hx] at h; exact absurd h (by simp)
            | ok v =>
              obtain ⟨⟨args, cs⟩, rest2⟩ := v
              rw [hx] at h
              cases h
              rfl
          · simp only [hp, if_false] at h
            cases h
            rfl
      · cases h; rfl
      · cases h; rfl
      · -- an if-expression
        cases h0 : expect .LEFT_PAREN "(" rest with
        | error e => rw [h0] at h; exact absurd h (by simp)
        | ok v0 =>
          obtain ⟨c0, t0, r0⟩ := v0
          rw [h0] at h
          simp only at h
          cases h1 : parseExpression n nest LOWEST r0 with
          | error e => rw [h1] at h; exact absurd h (by simp)
          | ok v1 =>
            obtain ⟨condition, r1⟩ := v1
            rw [h1] at h
            simp only at h
            cases h2 : expect .COMMA "," r1 with
            | error e => rw [h2] at h; exact absurd h (by simp)
            | ok v2 =>
              obtain ⟨c1, t1, r2⟩ := v2
              rw [h2] at h
              simp only at h
              cases h3 : parseExpression n nest LOWEST r2 with
              | error e => rw [h3] at h; exact absurd h (by simp)
              | ok v3 =>
                obtain ⟨consequence, r3⟩ := v3
                rw [h3] at h
                simp only at h
                cases h4 : expect .COMMA "," r3 with
                | error e => rw [h4] at h; exact absurd h (by simp)
                | ok v4 =>
                  obtain ⟨c2, t2, r4⟩ := v4
                  rw [h4] at h
                  simp only at h
                  cases h5 : parseExpression n nest LOWEST r4 with
                  | error e => rw [h5] at h; exact absurd h (by simp)
                  | ok v5 =>
                    obtain ⟨alternative, r5⟩ := v5
                    rw [h5] at h
                    simp only at h
                    cases h6 : expect .RIGHT_PAREN ")" r5 with
                    | error e => rw [h6] at h; exact absurd h (by simp)
                    | ok v6 =>
                      obtain ⟨c3, t3, r6⟩ := v6
                      rw [h6] at h
                      cases h
                      rfl

/-- An operator, comments and an operand after `left`: the comments lead the
operand. -/
theorem parseInfix_operator_operand (n : Nat) (nest : Int) (precedence : Nat)
    (left right : Expression) (ts : List Token) (op : Token) (rest rest1 : List Token)
    (hts : (takeComments ts).2 = op :: rest) (hop : op.Kind = .OPERATOR)
    (hp : precedence < infixPrecedence op)
    (h : parseOperand n nest (takeComments rest).1 (takeComments rest).2 = .ok (right, rest1))
    (hstop : ∀ t r, (takeComments rest1).2 = t :: r → infixPrecedence t = LOWEST)
    (m : Nat) (hm : n + 4 ≤ m) :
    parseInfix m nest precedence left ts
        = .ok (.infixExpr (.mk { Nest := nest, Leading := (takeComments ts).1 } left
            op.Literal right), rest1)
      ∧ right.toMeta.Leading = (takeComments rest).1 := by
  refine ⟨?_, parseOperand_leading _ _ _ _ _ _ h⟩
  obtain ⟨k, rfl⟩ : ∃ k, m = k + 1 + 1 := ⟨m - 2, by omega⟩
  have hs : ∀ (q : Nat) t r, (takeComments rest1).2 = t :: r → ¬ q < infixPrecedence t := by
    intro q t r ht
    rw [hstop t r ht]
    simp [LOWEST]
  rw [parseInfix_operator (k + 1) nest precedence left right ts rest1 op rest hts hp hop
    (parseExpression_single n nest _ rest right rest1 h (hs _) (k + 1) (by omega))]
  exact parseInfix_stop _ _ _ _ _ (hs _)

end Parser

namespace Parser

theorem expression_nest : ∀ n : Nat,
    (∀ nest precedence ts e r, parseExpression n nest precedence ts = .ok (e, r) →
        e.NestIs nest)
    ∧ (∀ nest leading ts e r, parseOperand n nest leading ts = .ok (e, r) → e.NestIs nest)
    ∧ (∀ nest precedence left ts e r, left.NestIs nest →
        parseInfix n nest precedence left ts = .ok (e, r) → e.NestIs nest)
    ∧ (∀ nest ts args cs r, parseArguments n nest ts = .ok ((args, cs), r) →
        Expression.AllNestIs nest args)
    ∧ (∀ nest ts args cs r, parseArgumentList n nest ts = .ok ((args, cs), r) →
        Expression.AllNestIs nest args) := by
  intro n
  induction n with
  | zero =>
    refine ⟨?_, ?_, ?_, ?_, ?_⟩ <;> intros <;> rename_i h <;>
      simp [parseExpression, parseOperand, parseInfix, parseArguments, parseArgumentList] at h
  | succ n ih =>
    obtain ⟨ihE, ihO, ihI, ihA, ihL⟩ := ih
    refine ⟨?_, ?_, ?_, ?_, ?_⟩
    · intro nest precedence ts e r h
      simp only [parseExpression] at h
      cases hx : parseOperand n nest (takeComments ts).1 (takeComments ts).2 with
      | error e => rw [hx] at h; exact absurd h (by simp)
      | ok v =>
        obtain ⟨left, rest⟩ := v
        rw [hx] at h
        exact ihI _ _ _ _ _ _ (ihO _ _ _ _ _ hx) h
    · intro nest leading ts e r h
      cases ts with
      | nil => simp [parseOperand] at h
      | cons t rest =>
        simp only [parseOperand] at h
        cases hk : t.Kind <;> simp only [hk] at h <;> try (exfalso; cases h; done)
        · -- an identifier
          cases rest with
          | nil => cases h; simp [Expression.NestIs]
          | cons p rest1 =>
            simp only at h
            by_cases hp : p.Kind = .LEFT_PAREN
            · simp only [hp, if_true] at h
              cases hx : parseArguments n nest rest1 with
              | error e => rw [hx] at h; exact absurd h (by simp)
              | ok v =>
                obtain ⟨⟨args, cs⟩, rest2⟩ := v
                rw [hx] at h
                cases h
                simp only [Expression.NestIs, true_and]
                exact ihA _ _ _ _ _ hx
            · simp only [hp, if_false] at h
              cases h
              simp [Expression.NestIs]
        · cases h; simp [Expression.NestIs]
        · cases h; simp [Expression.NestIs]
        · -- an if-expression
          cases h0 : expect .LEFT_PAREN "(" rest with
          | error e => rw [h0] at h; exact absurd h (by simp)
          | ok v0 =>
            obtain ⟨c0, t0, r0⟩ := v0
            rw [h0] at h
            simp only at h
            cases h1 : parseExpression n nest LOWEST r0 with
            | error e => rw [h1] at h; exact absurd h (by simp)
            | ok v1 =>
              obtain ⟨condition, r1⟩ := v1
              rw [h1] at h
              simp only at h
              cases h2 : expect .COMMA "," r1 with
              | error e => rw [h2] at h; exact absurd h (by simp)
              | ok v2 =>
                obtain ⟨c1, t1, r2⟩ := v2
                rw [h2] at h
                simp only at h
                cases h3 : parseExpression n nest LOWEST r2 with
                | error e => rw [h3] at h; exact absurd h (by simp)
                | ok v3 =>
                  obtain ⟨consequence, r3⟩ := v3
                  rw [h3] at h
                  simp only at h
                  cases h4 : expect .COMMA "," r3 with
                  | error e => rw [h4] at h; exact absurd h (by simp)
                  | ok v4 =>
                    obtain ⟨c2, t2, r4⟩ := v4
                    rw [h4] at h
                    simp only at h
                    cases h5 : parseExpression n nest LOWEST r4 with
                    | error e => rw [h5] at h; exact absurd h (by simp)
                    | ok v5 =>
                      obtain ⟨alternative, r5⟩ := v5
                      rw [h5] at h
                      simp only at h
                      cases h6 : expect .RIGHT_PAREN ")" r5 with
                      | error e => rw [h6] at h; exact absurd h (by simp)
                      | ok v6 =>
                        obtain ⟨c3, t3, r6⟩ := v6
                        rw [h6] at h
                        cases h
                        simp only [Expression.NestIs, true_and]
                        exact ⟨ihE _ _ _ _ _ h1, ihE _ _ _ _ _ h3, ihE _ _ _ _ _ h5⟩
    · intro nest precedence left ts e r hleft h
      simp only [parseInfix] at h
      cases hts : (takeComments ts).2 with
      | nil => rw [hts] at h; cases h; exact hleft
      | cons t rest =>
        rw [hts] at h
        simp only at h
        by_cases hp : precedence < infixPrecedence t
        · simp only [hp, if_true] at h
          by_cases ho : t.Kind = .OPERATOR
          · simp only [ho, if_true] at h
            cases hx : parseExpression n nest (infixPrecedence t) rest with
            | error e => rw [hx] at h; exact absurd h (by simp)
            | ok v =>
              obtain ⟨right, rest1⟩ := v
              rw [hx] at h
              refine ihI _ _ _ _ _ _ ?_ h
              simp only [Expression.NestIs, InfixExpression.NestIs, true_and]
              exact ⟨hleft, ihE _ _ _ _ _ hx⟩
          · simp only [ho, if_false] at h
            cases hx : parseExpression n nest CONCAT ts with
            | error e => rw [hx] at h; exact absurd h (by simp)
            | ok v =>
              obtain ⟨right, rest1⟩ := v
              rw [hx] at h
              refine ihI _ _ _ _ _ _ ?_ h
              simp only [Expression.NestIs, InfixExpression.NestIs, true_and]
              exact ⟨hleft, ihE _ _ _ _ _ hx⟩
        · simp only [hp, if_false] at h
          cases h
          exact hleft
    · intro nest ts args cs r h
      simp only [parseArguments] at h
      cases hts : (takeComments ts).2 with
      | nil => rw [hts] at h; exact absurd h (by simp)
      | cons t rest =>
        rw [hts] at h
        simp only at h
        by_cases hp : t.Kind = .RIGHT_PAREN
        · simp only [hp, if_true] at h
          cases h
          simp [Expression.AllNestIs]
        · simp only [hp, if_false] at h
          exact ihL _ _ _ _ _ h
    · intro nest ts args cs r h
      simp only [parseArgumentList] at h
      cases hx : parseExpression n nest LOWEST ts with
      | error e => rw [hx] at h; exact absurd h (by simp)
      | ok v =>
        obtain ⟨argument, rest⟩ := v
        rw [hx] at h
        simp only at h
        cases hts : (takeComments rest).2 with
        | nil => rw [hts] at h; exact absurd h (by simp)
        | cons t rest1 =>
          rw [hts] at h
          simp only at h
          by_cases hc : t.Kind = .COMMA
          · simp only [hc, if_true] at h
            cases hl : parseArgumentList n nest rest1 with
            | error e => rw [hl] at h; exact absurd h (by simp)
            | ok w =>
              obtain ⟨⟨arguments, cs1⟩, rest2⟩ := w
              rw [hl] at h
              cases h
              simp only [Expression.AllNestIs]
              exact ⟨ihE _ _ _ _ _ hx, ihL _ _ _ _ _ hl⟩
          · simp only [hc, if_false] at h
            by_cases hq : t.Kind = .RIGHT_PAREN
            · simp only [hq, if_true] at h
              cases h
              simp only [Expression.AllNestIs, and_true]
              exact ihE _ _ _ _ _ hx
            · simp only [hq, if_false] at h
              exact absurd h (by simp)

end Parser

namespace Parser

theorem parseExpression_nest (n : Nat) (nest : Int) (precedence : Nat) (ts : List Token)
    (e : Expression) (r : List Token) (h : parseExpression n nest precedence ts = .ok (e, r)) :
    e.NestIs nest :=
  (expression_nest n).1 nest precedence ts e r h

theorem parseAssignment_set_nest (n : Nat) (nest : Int) (leading : Comments) (ts : List Token)
    (s : Statement) (r : List Token)
    (h : parseAssignment
      (fun m i o v => .setStmt { toMeta := m, Ident := i, Operator := o, Value := v })
      n nest leading ts = .ok (s, r)) : s.NestIs nest := by
  unfold parseAssignment at h
  cases h0 : expect .IDENT "identifier" ts with
  | error e => rw [h0] at h; exact absurd h (by simp)
  | ok v0 =>
    obtain ⟨c0, name, r0⟩ := v0
    rw [h0] at h
    simp only at h
    cases h1 : expect .ASSIGNMENT "assignment operator" r0 with
    | error e => rw [h1] at h; exact absurd h (by simp)
    | ok v1 =>
      obtain ⟨c1, op, r1⟩ := v1
      rw [h1] at h
      simp only at h
      cases h2 : parseExpression n nest LOWEST r1 with
      | error e => rw [h2] at h; exact absurd h (by simp)
      | ok v2 =>
        obtain ⟨value, r2⟩ := v2
        rw [h2] at h
        simp only at h
        cases h3 : expect .SEMICOLON ";" r2 with
        | error e => rw [h3] at h; exact absurd h (by simp)
        | ok v3 =>
          obtain ⟨c2, semicolon, r3⟩ := v3
          rw [h3] at h
          cases h
          simp only [Statement.NestIs, true_and]
          exact parseExpression_nest _ _ _ _ _ _ h2

theorem parseAssignment_add_nest (n : Nat) (nest : Int) (leading : Comments) (ts : List Token)
    (s : Statement) (r : List Token)
    (h : parseAssignment
      (fun m i o v => .addStmt { toMeta := m, Ident := i, Operator := o, Value := v })
      n nest leading ts = .ok (s, r)) : s.NestIs nest := by
  unfold parseAssignment at h
  cases h0 : expect .IDENT "identifier" ts with
  | error e => rw [h0] at h; exact absurd h (by simp)
  | ok v0 =>
    obtain ⟨c0, name, r0⟩ := v0
    rw [h0] at h
    simp only at h
    cases h1 : expect .ASSIGNMENT "assignment operator" r0 with
    | error e => rw [h1] at h; exact absurd h (by simp)
    | ok v1 =>
      obtain ⟨c1, op, r1⟩ := v1
      rw [h1] at h
      simp only at h
      cases h2 : parseExpression n nest LOWEST r1 with
      | error e => rw [h2] at h; exact absurd h (by simp)
      | ok v2 =>
        obtain ⟨value, r2⟩ := v2
        rw [h2] at h
        simp only at h
        cases h3 : expect .SEMICOLON ";" r2 with
        | error e => rw [h3] at h; exact absurd h (by simp)
        | ok v3 =>
          obtain ⟨c2, semicolon, r3⟩ := v3
          rw [h3] at h
          cases h
          simp only [Statement.NestIs, true_and]
          exact parseExpression_nest _ _ _ _ _ _ h2

theorem parseTarget_unset_nest (nest : Int) (leading : Comments) (ts : List Token)
    (s : Statement) (r : List Token)
    (h : parseTarget (fun m i => .unsetStmt { toMeta := m, Ident := i }) nest leading ts
      = .ok (s, r)) : s.NestIs nest := by
  unfold parseTarget at h
  cases h0 : expect .IDENT "identifier" ts with
  | error e => rw [h0] at h; exact absurd h (by simp)
  | ok v0 =>
    obtain ⟨c0, name, r0⟩ := v0
    rw [h0] at h
    simp only at h
    cases h1 : expect .SEMICOLON ";" r0 with
    | error e => rw [h1] at h; exact absurd h (by simp)
    | ok v1 =>
      obtain ⟨c1, semicolon, r1⟩ := v1
      rw [h1] at h
      cases h
      simp [Statement.NestIs]

theorem parseTarget_remove_nest (nest : Int) (leading : Comments) (ts : List Token)
    (s : Statement) (r : List Token)
    (h : parseTarget (fun m i => .removeStmt { toMeta := m, Ident := i }) nest leading ts
      = .ok (s, r)) : s.NestIs nest := by
  unfold parseTarget at h
  cases h0 : expect .IDENT "identifier" ts with
  | error e => rw [h0] at h; exact absurd h (by simp)
  | ok v0 =>
    obtain ⟨c0, name, r0⟩ := v0
    rw [h0] at h
    simp only at h
    cases h1 : expect .SEMICOLON ";" r0 with
    | error e => rw [h1] at h; exact absurd h (by simp)
    | ok v1 =>
      obtain ⟨c1, semicolon, r1⟩ := v1
      rw [h1] at h
      cases h
      simp [Statement.NestIs]

theorem parseLogStatement_nest (n : Nat) (nest : Int) (leading : Comments) (ts : List Token)
    (s : Statement) (r : List Token)
    (h : parseLogStatement n nest leading ts = .ok (s, r)) : s.NestIs nest := by
  unfold parseLogStatement at h
  cases h0 : parseExpression n nest LOWEST ts with
  | error e => rw [h0] at h; exact absurd h (by simp)
  | ok v0 =>
    obtain ⟨value, r0⟩ := v0
    rw [h0] at h
    simp only at h
    cases h1 : expect .SEMICOLON ";" r0 with
    | error e => rw [h1] at h; exact absurd h (by simp)
    | ok v1 =>
      obtain ⟨c0, semicolon, r1⟩ := v1
      rw [h1] at h
      cases h
      simp only [Statement.NestIs, true_and]
      exact parseExpression_nest _ _ _ _ _ _ h0

theorem parseCondition_nest (n : Nat) (nest : Int) (ts : List Token) (condition : Expression)
    (cs blockLeading : Comments) (r : List Token)
    (h : parseCondition n nest ts = .ok ((condition, cs, blockLeading), r)) :
    condition.NestIs nest := by
  unfold parseCondition at h
  cases h0 : expect .LEFT_PAREN "(" ts with
  | error e => rw [h0] at h; exact absurd h (by simp)
  | ok v0 =>
    obtain ⟨c0, t0, r0⟩ := v0
    rw [h0] at h
    simp only at h
    cases h1 : parseExpression n nest LOWEST r0 with
    | error e => rw [h1] at h; exact absurd h (by simp)
    | ok v1 =>
      obtain ⟨e, r1⟩ := v1
      rw [h1] at h
      simp only at h
      cases h2 : expect .RIGHT_PAREN ")" r1 with
      | error e => rw [h2] at h; exact absurd h (by simp)
      | ok v2 =>
        obtain ⟨c1, t1, r2⟩ := v2
        rw [h2] at h
        simp only at h
        cases h3 : expect .LEFT_BRACE "\x7b" r2 with
        | error e => rw [h3] at h; exact absurd h (by simp)
        | ok v3 =>
          obtain ⟨c2, t2, r3⟩ := v3
          rw [h3] at h
          cases h
          exact parseExpression_nest _ _ _ _ _ _ h1

theorem statement_nest : ∀ n : Nat,
    (∀ nest leading ts s r, parseStatement n nest leading ts = .ok (s, r) → s.NestIs nest)
    ∧ (∀ nest leading ts b line r, parseBlockStatement n nest leading ts = .ok ((b, line), r) →
        b.NestIs nest)
    ∧ (∀ nest ts stmts cs line r, parseBlockItems n nest ts = .ok ((stmts, cs, line), r) →
        Statement.AllNestIs nest stmts)
    ∧ (∀ nest line ts another alt last r,
        parseElse n nest line ts = .ok ((another, alt, last), r) →
        IfStatement.AllNestIs nest another ∧ BlockStatement.OptionNestIs nest alt) := by
  intro n
  induction n with
  | zero =>
    refine ⟨?_, ?_, ?_, ?_⟩ <;> intros <;> rename_i h <;>
      simp [parseStatement, parseBlockStatement, parseBlockItems, parseElse] at h
  | succ n ih =>
    obtain ⟨ihS, ihB, ihI, ihE⟩ := ih
    refine ⟨?_, ?_, ?_, ?_⟩
    · intro nest leading ts s r h
      cases ts with
      | nil => simp [parseStatement] at h
      | cons t rest =>
        simp only [parseStatement] at h
        cases hk : t.Kind <;> simp only [hk] at h <;> try (exfalso; cases h; done)
        · -- a block
          cases hx : parseBlockStatement n nest leading rest with
          | error e => rw [hx] at h; exact absurd h (by simp)
          | ok v =>
            obtain ⟨⟨⟨m, stmts⟩, line⟩, r0⟩ := v
            rw [hx] at h
            cases h
            have hb := ihB _ _ _ _ _ _ hx
            simp only [BlockStatement.NestIs] at hb
            simp only [Statement.NestIs, BlockStatement.NestIs]
            exact hb
        · exact parseAssignment_set_nest _ _ _ _ _ _ h
        · exact parseAssignment_add_nest _ _ _ _ _ _ h
        · exact parseTarget_unset_nest _ _ _ _ _ h
        · exact parseTarget_remove_nest _ _ _ _ _ h
        · exact parseLogStatement_nest _ _ _ _ _ _ h
        · -- an if statement
          cases h0 : parseCondition n nest rest with
          | error e => rw [h0] at h; exact absurd h (by simp)
          | ok v0 =>
            obtain ⟨⟨condition, cs, blockLeading⟩, r0⟩ := v0
            rw [h0] at h
            simp only at h
            cases h1 : parseBlockStatement n nest blockLeading r0 with
            | error e => rw [h1] at h; exact absurd h (by simp)
            | ok v1 =>
              obtain ⟨⟨consequence, line⟩, r1⟩ := v1
              rw [h1] at h
              simp only at h
              cases h2 : parseElse n nest line r1 with
              | error e => rw [h2] at h; exact absurd h (by simp)
              | ok v2 =>
                obtain ⟨⟨another, alternative, last⟩, r2⟩ := v2
                rw [h2] at h
                cases h
                simp only [Statement.NestIs, IfStatement.NestIs, true_and]
                exact ⟨parseCondition_nest _ _ _ _ _ _ _ h0, ihB _ _ _ _ _ _ h1,
                  ihE _ _ _ _ _ _ _ h2⟩
    · intro nest leading ts b line r h
      simp only [parseBlockStatement] at h
      cases hx : parseBlockItems n (nest + 1) ts with
      | error e => rw [hx] at h; exact absurd h (by simp)
      | ok v =>
        obtain ⟨⟨stmts, cs, line1⟩, rest⟩ := v
        rw [hx] at h
        cases h
        simp only [BlockStatement.NestIs, true_and]
        exact ihI _ _ _ _ _ _ hx
    · intro nest ts stmts cs line r h
      simp only [parseBlockItems] at h
      cases hts : (takeComments ts).2 with
      | nil => rw [hts] at h; exact absurd h (by simp)
      | cons t rest =>
        rw [hts] at h
        simp only at h
        by_cases hb : t.Kind = .RIGHT_BRACE
        · simp only [hb, if_true] at h
          cases h
          simp [Statement.AllNestIs]
        · simp only [hb, if_false] at h
          cases hx : parseStatement n nest (takeComments ts).1 (t :: rest) with
          | error e => rw [hx] at h; exact absurd h (by simp)
          | ok v =>
            obtain ⟨stmt, rest1⟩ := v
            rw [hx] at h
            simp only at h
            cases hy : parseBlockItems n nest rest1 with
            | error e => rw [hy] at h; exact absurd h (by simp)
            | ok w =>
              obtain ⟨⟨stmts1, cs1, line1⟩, rest2⟩ := w
              rw [hy] at h
              cases h
              simp only [Statement.AllNestIs]
              exact ⟨ihS _ _ _ _ _ hx, ihI _ _ _ _ _ _ hy⟩
    · intro nest line ts another alt last r h
      simp only [parseElse] at h
      cases hts : (takeComments ts).2 with
      | nil =>
        rw [hts] at h
        cases h
        simp [IfStatement.AllNestIs, BlockStatement.OptionNestIs]
      | cons t rest =>
        rw [hts] at h
        simp only at h
        by_cases hb : t.Kind = .ELSEIF
        · simp only [hb, if_true] at h
          cases h0 : parseCondition n nest rest with
          | error e => rw [h0] at h; exact absurd h (by simp)
          | ok v0 =>
            obtain ⟨⟨condition, cs, blockLeading⟩, r0⟩ := v0
            rw [h0] at h
            simp only at h
            cases h1 : parseBlockStatement n nest blockLeading r0 with
            | error e => rw [h1] at h; exact absurd h (by simp)
            | ok v1 =>
              obtain ⟨⟨consequence, line1⟩, r1⟩ := v1
              rw [h1] at h
              simp only at h
              cases h2 : parseElse n nest line1 r1 with
              | error e => rw [h2] at h; exact absurd h (by simp)
              | ok v2 =>
                obtain ⟨⟨another1, alternative, last1⟩, r2⟩ := v2
                rw [h2] at h
                cases h
                have he := ihE _ _ _ _ _ _ _ h2
                simp only [IfStatement.AllNestIs, IfStatement.NestIs,
                  BlockStatement.OptionNestIs, true_and, and_true]
                exact ⟨⟨⟨parseCondition_nest _ _ _ _ _ _ _ h0, ihB _ _ _ _ _ _ h1⟩, he.1⟩, he.2⟩
        · simp only [hb, if_false] at h
          by_cases hc : t.Kind = .ELSE ∧ ((takeComments rest).2.head?.map (·.Kind)) = some .IF
          · rw [if_pos hc] at h
            cases h0 : parseCondition n nest (takeComments rest).2.tail with
            | error e => rw [h0] at h; exact absurd h (by simp)
            | ok v0 =>
              obtain ⟨⟨condition, cs, blockLeading⟩, r0⟩ := v0
              rw [h0] at h
              simp only at h
              cases h1 : parseBlockStatement n nest blockLeading r0 with
              | error e => rw [h1] at h; exact absurd h (by simp)
              | ok v1 =>
                obtain ⟨⟨consequence, line1⟩, r1⟩ := v1
                rw [h1] at h
                simp only at h
                cases h2 : parseElse n nest line1 r1 with
                | error e => rw [h2] at h; exact absurd h (by simp)
                | ok v2 =>
                  obtain ⟨⟨another1, alternative, last1⟩, r2⟩ := v2
                  rw [h2] at h
                  cases h
                  have he := ihE _ _ _ _ _ _ _ h2
                  simp only [IfStatement.AllNestIs, IfStatement.NestIs,
                    BlockStatement.OptionNestIs, true_and, and_true]
                  exact ⟨⟨⟨parseCondition_nest _ _ _ _ _ _ _ h0, ihB _ _ _ _ _ _ h1⟩, he.1⟩, he.2⟩
          · rw [if_neg hc] at h
            by_cases he : t.Kind = .ELSE
            · simp only [he, if_true] at h
              cases h0 : expect .LEFT_BRACE "\x7b" rest with
              | error e => rw [h0] at h; exact absurd h (by simp)
              | ok v0 =>
                obtain ⟨c0, t0, r0⟩ := v0
                rw [h0] at h
                simp only at h
                cases h1 : parseBlockStatement n nest ((takeComments ts).1 ++ c0) r0 with
                | error e => rw [h1] at h; exact absurd h (by simp)
                | ok v1 =>
                  obtain ⟨⟨alternative, last1⟩, r1⟩ := v1
                  rw [h1] at h
                  cases h
                  simp only [IfStatement.AllNestIs, BlockStatement.OptionNestIs, true_and]
                  exact ihB _ _ _ _ _ _ h1
            · simp only [he, if_false] at h
              cases h
              simp [IfStatement.AllNestIs, BlockStatement.OptionNestIs]

end Parser

/-! ### The parser: the claims -/

namespace Parser

set_option maxRecDepth 100000 in
/-- C12: three operands in a row with no operator between them are parsed as
the left-nested chain of infix nodes with operator `+`: when the tokens hold
the operands `e1`, `e2`, `e3` one after the other (each may be an
if-expression) and no token that binds follows, `parseExpression` returns
`(e1 + e2) + e3` with enough fuel. The parser gives the tree that
`TestInfixIfExpression` expects, with both long strings flagged. -/
theorem parseExpression_juxtaposition :
    (∀ (n : Nat) (nest : Int) (r0 r1 r2 r3 : List Token) (e1 e2 e3 : Expression),
      parseOperand n nest (takeComments r0).1 (takeComments r0).2 = .ok (e1, r1) →
      parseOperand n nest (takeComments r1).1 (takeComments r1).2 = .ok (e2, r2) →
      parseOperand n nest (takeComments r2).1 (takeComments r2).2 = .ok (e3, r3) →
      (∀ t rest, (takeComments r3).2 = t :: rest → infixPrecedence t = LOWEST) →
      ∀ m, n + 5 ≤ m →
        parseExpression m nest LOWEST r0
          = .ok (.infixExpr (.mk { Nest := nest }
              (.infixExpr (.mk { Nest := nest } e1 "+" e2)) "+" e3), r3))
      ∧ ParseVCL ParserTest.infixIfExpressionInput = .ok ParserTest.infixIfExpressionExpect :=
  ⟨parseExpression_three_operands, by rfl⟩

set_option maxRecDepth 100000 in
/-- C12 at the value of the log statement of the test: a long string, an
if-expression and a long string. -/
theorem parseExpression_juxtaposition_witness :
    parseExpression 9 1 LOWEST (tokensOf ParserTest.juxtapositionSource)
      = .ok (ParserTest.juxtapositionValue,
          (tokensOf ParserTest.juxtapositionSource).drop 10) :=
  parseExpression_juxtaposition.1 4 1 (tokensOf ParserTest.juxtapositionSource)
    ((tokensOf ParserTest.juxtapositionSource).drop 1)
    ((tokensOf ParserTest.juxtapositionSource).drop 9)
    ((tokensOf ParserTest.juxtapositionSource).drop 10)
    (ParserTest.longStr "foo bar") ParserTest.hostIfExpression (ParserTest.longStr "baz")
    (by rfl) (by rfl) (by rfl)
    (by
      intro t rest h
      have h1 : (takeComments ((tokensOf ParserTest.juxtapositionSource).drop 10)).2
          = [⟨.SEMICOLON, ";", 1⟩, ⟨.EOF, "", 1⟩] := by rfl
      rw [h1] at h
      cases h
      rfl)
    9 (by decide)

/-- An operand followed by a token that ends the expression, as the whole
expression. -/
theorem parseExpression_of_operand_end (n : Nat) (nest : Int) (t : Token)
    (ts : List Token) (e : Expression) (stop : Token) (rest : List Token)
    (ht : t.Kind ≠ .COMMENT)
    (h : parseOperand n nest [] (t :: ts) = .ok (e, stop :: rest))
    (hstop : infixPrecedence stop = LOWEST) (hsc : stop.Kind ≠ .COMMENT)
    (m : Nat) (hm : n + 2 ≤ m) :
    parseExpression m nest LOWEST (t :: ts) = .ok (e, stop :: rest) := by
  apply parseExpression_single n nest LOWEST (t :: ts) e (stop :: rest) _ _ m hm
  · rw [takeComments_head t ts ht]
    exact h
  · intro t1 rest1 h1
    rw [takeComments_head stop rest hsc] at h1
    cases h1
    rw [hstop]
    decide

set_option maxRecDepth 100000 in
/-- C13: the statement `set X = if (c, a, b);` is parsed, with enough fuel,
as a set statement whose value is one if-expression node with the parses of
`c`, `a` and `b` as condition, consequence and alternative, in this order; the
comments pending before the statement are its leading comments and the comment
after the semicolon on the line of the semicolon is its trailing comment. The
block loop hands the comment before a statement to the statement, and the
parser gives the tree that `TestIfExpression` expects. -/
theorem parseStatement_set_ifExpression :
    (∀ (n : Nat) (nest : Int) (leading : Comments)
        (tSet tName tOp tIf tOpen comma1 comma2 close semicolon : Token)
        (rc ra rb rest : List Token) (c a b : Expression),
      tSet.Kind = .SET → tName.Kind = .IDENT → tOp.Kind = .ASSIGNMENT →
      tIf.Kind = .IF → tOpen.Kind = .LEFT_PAREN →
      parseExpression n nest LOWEST rc = .ok (c, comma1 :: ra) → comma1.Kind = .COMMA →
      parseExpression n nest LOWEST ra = .ok (a, comma2 :: rb) → comma2.Kind = .COMMA →
      parseExpression n nest LOWEST rb = .ok (b, close :: semicolon :: rest) →
      close.Kind = .RIGHT_PAREN → semicolon.Kind = .SEMICOLON →
      ∀ m, n + 4 ≤ m →
        parseStatement m nest leading (tSet :: tName :: tOp :: tIf :: tOpen :: rc)
          = .ok (.setStmt
              { Nest := nest, Leading := leading,
                Trailing := (takeTrailing semicolon.Line rest).1,
                Ident := { Nest := nest, Value := tName.Literal },
                Operator := { Nest := nest, Operator := tOp.Literal },
                Value := .ifExpr { Nest := nest } c a b },
              (takeTrailing semicolon.Line rest).2))
      ∧ (∀ (line : Nat) (comment : Token) (rest : List Token),
          comment.Kind = .COMMENT → comment.Line = line →
          takeTrailing line (comment :: rest) = ([comment.toComment], rest))
      ∧ (∀ (m : Nat) (nest : Int) (comment t : Token) (r : List Token),
          comment.Kind = .COMMENT → t.Kind ≠ .COMMENT → t.Kind ≠ .RIGHT_BRACE →
          parseBlockItems (m + 1) nest (comment :: t :: r)
            = match parseStatement m nest [comment.toComment] (t :: r) with
              | .error e => .error e
              | .ok (stmt, rest1) =>
                match parseBlockItems m nest rest1 with
                | .error e => .error e
                | .ok ((stmts, cs, line), rest2) => .ok ((stmt :: stmts, cs, line), rest2))
      ∧ ParseVCL ParserTest.ifExpressionInput = .ok ParserTest.ifExpressionExpect := by
  refine ⟨?_, ?_, ?_, by rfl⟩
  · intro n nest leading tSet tName tOp tIf tOpen comma1 comma2 close semicolon rc ra rb rest
      c a b hSet hName hOp hIf hOpen hc hcomma1 ha hcomma2 hb hclose hsemi m hm
    obtain ⟨k, rfl⟩ : ∃ k, m = k + 1 := ⟨m - 1, by omega⟩
    have hvalue : parseExpression k nest LOWEST (tIf :: tOpen :: rc)
        = .ok (.ifExpr { Nest := nest } c a b, semicolon :: rest) :=
      parseExpression_of_operand_end (n + 1) nest tIf (tOpen :: rc) _ semicolon rest
        (by rw [hIf]; decide)
        (parseOperand_ifExpression n nest [] tIf tOpen rc c a b comma1 comma2 close ra rb
          (semicolon :: rest) hIf hOpen hc hcomma1 ha hcomma2 hb hclose (n + 1) (le_refl _))
        (infixPrecedence_of_kind _ (Or.inl hsemi)) (by rw [hsemi]; decide) k (by omega)
    simp only [parseStatement, hSet, parseAssignment,
      expect_head .IDENT "identifier" tName _ hName (by decide),
      expect_head .ASSIGNMENT "assignment operator" tOp _ hOp (by decide), hvalue,
      expect_head .SEMICOLON ";" semicolon rest hsemi (by decide), List.append_nil]
  · intro line comment rest hk hl
    simp [takeTrailing, hk, hl]
  · intro m nest comment t r hk ht hb
    simp [parseBlockItems, takeComments, hk, ht, hb]

set_option maxRecDepth 100000 in
/-- C13 at the set statement of the test, at depth 1, with the leading
comment of the test. -/
theorem parseStatement_set_ifExpression_witness :
    parseStatement 7 1 [⟨"// Leading comment"⟩] (tokensOf ParserTest.setIfSource)
      = .ok (ParserTest.setStatement 1 [⟨"// Leading comment"⟩] [⟨"// Trailing comment"⟩]
          "req.http.Foo" ParserTest.hostIfExpression,
          (tokensOf ParserTest.setIfSource).drop 13) :=
  parseStatement_set_ifExpression.1 3 1 [⟨"// Leading comment"⟩]
    ⟨.SET, "set", 1⟩ ⟨.IDENT, "req.http.Foo", 1⟩ ⟨.ASSIGNMENT, "=", 1⟩ ⟨.IF, "if", 1⟩
    ⟨.LEFT_PAREN, "(", 1⟩ ⟨.COMMA, ",", 1⟩ ⟨.COMMA, ",", 1⟩ ⟨.RIGHT_PAREN, ")", 1⟩
    ⟨.SEMICOLON, ";", 1⟩
    ((tokensOf ParserTest.setIfSource).drop 5) ((tokensOf ParserTest.setIfSource).drop 7)
    ((tokensOf ParserTest.setIfSource).drop 9) ((tokensOf ParserTest.setIfSource).drop 12)
    (ParserTest.ident 1 "req.http.Host") (ParserTest.str "example.com")
    (ParserTest.str "foobar")
    rfl rfl rfl rfl rfl (by rfl) rfl (by rfl) rfl (by rfl) rfl rfl 7 (by decide)

set_option maxRecDepth 100000 in
/-- C14: an identifier immediately followed by an opening parenthesis and
arguments separated by commas up to the closing parenthesis is parsed, with
enough fuel, as a function call whose function is the identifier and whose
arguments are the parsed arguments in source order, all of them; with the
closing parenthesis at once the argument list is empty. The parser gives the
trees that `TestFunctionCallExpression` expects, the empty string literal
among the arguments. -/
theorem parseOperand_functionCall_arguments :
    (∀ (n : Nat) (nest : Int) (leading : Comments) (name tOpen : Token) (ts : List Token)
        (es : List Expression) (rest : List Token),
      name.Kind = .IDENT → tOpen.Kind = .LEFT_PAREN → ArgumentTokens n nest ts es rest →
      ∀ m, n + es.length + 2 ≤ m →
        parseOperand m nest leading (name :: tOpen :: ts)
          = .ok (.functionCall { Nest := nest, Leading := leading }
              { Nest := nest, Value := name.Literal } es, rest))
      ∧ (∀ (nest : Int) (leading : Comments) (name tOpen close : Token) (rest : List Token),
          name.Kind = .IDENT → tOpen.Kind = .LEFT_PAREN → close.Kind = .RIGHT_PAREN →
          ∀ m, 2 ≤ m →
            parseOperand m nest leading (name :: tOpen :: close :: rest)
              = .ok (.functionCall { Nest := nest, Leading := leading }
                  { Nest := nest, Value := name.Literal } [], rest))
      ∧ ParseVCL ParserTest.noArgumentInput = .ok ParserTest.noArgumentExpect
      ∧ ParseVCL ParserTest.someArgumentsInput = .ok ParserTest.someArgumentsExpect :=
  ⟨fun n nest leading name tOpen ts es rest hname hOpen h m hm =>
      parseOperand_functionCall n nest leading name tOpen ts es rest hname hOpen h m hm,
    fun nest leading name tOpen close rest hname hOpen hclose m hm =>
      parseOperand_functionCall_empty nest leading name tOpen close rest hname hOpen hclose m hm,
    by rfl, by rfl⟩

set_option maxRecDepth 100000 in
/-- C14 at the call of the test: three arguments, the last the empty
string. -/
theorem parseOperand_functionCall_arguments_witness :
    parseOperand 8 1 [] (tokensOf ParserTest.regsubSource)
      = .ok (.functionCall { Nest := 1 } { Nest := 1, Value := "regsub" }
          [ParserTest.ident 1 "req.http.Host", ParserTest.str "example.com",
            ParserTest.str ""],
          (tokensOf ParserTest.regsubSource).drop 8) :=
  parseOperand_functionCall_arguments.1 3 1 [] ⟨.IDENT, "regsub", 1⟩ ⟨.LEFT_PAREN, "(", 1⟩
    ((tokensOf ParserTest.regsubSource).drop 2) _ _ rfl rfl
    (.more _ _ ⟨.COMMA, ",", 1⟩ ((tokensOf ParserTest.regsubSource).drop 4) _ _ (by rfl) rfl
      (.more _ _ ⟨.COMMA, ",", 1⟩ ((tokensOf ParserTest.regsubSource).drop 6) _ _ (by rfl) rfl
        (.last _ _ ⟨.RIGHT_PAREN, ")", 1⟩ _ (by rfl) rfl)))
    8 (by decide)

end Parser

/-! ### The parser: every comment token in one slot -/

namespace Parser

theorem commentTokens_cons_of_not_comment (t : Token) (ts : List Token)
    (h : t.Kind ≠ .COMMENT) : commentTokens (t :: ts) = commentTokens ts := by
  simp [commentTokens, h]

theorem commentTokens_takeComments (ts : List Token) :
    commentTokens ts = (takeComments ts).1 ++ commentTokens (takeComments ts).2 := by
  induction ts with
  | nil => simp [takeComments, commentTokens]
  | cons t ts ih =>
    by_cases h : t.Kind = .COMMENT
    · simp only [takeComments, commentTokens, h, if_true, List.cons_append]
      rw [ih]
    · simp [takeComments, commentTokens, h]

theorem takeComments_head_not_comment (ts : List Token) (t : Token) (rest : List Token)
    (h : (takeComments ts).2 = t :: rest) : t.Kind ≠ .COMMENT := by
  induction ts with
  | nil => simp [takeComments] at h
  | cons u ts ih =>
    by_cases hu : u.Kind = .COMMENT
    · simp only [takeComments, hu, if_true] at h
      exact ih h
    · simp only [takeComments, hu, if_false] at h
      simp only [List.cons.injEq] at h
      rw [← h.1]
      exact hu

/-- The comments before a code token and the comment tokens after it are the
comment tokens of the whole. -/
theorem commentTokens_of_takeComments (ts : List Token) (t : Token) (rest : List Token)
    (h : (takeComments ts).2 = t :: rest) :
    commentTokens ts = (takeComments ts).1 ++ commentTokens rest := by
  rw [commentTokens_takeComments ts, h,
    commentTokens_cons_of_not_comment _ _ (takeComments_head_not_comment ts t rest h)]

theorem commentTokens_expect (kind : TokenType) (expected : String) (ts : List Token)
    (cs : Comments) (t : Token) (rest : List Token)
    (h : expect kind expected ts = .ok (cs, t, rest)) :
    commentTokens ts = cs ++ commentTokens rest := by
  unfold expect at h
  cases hts : (takeComments ts).2 with
  | nil =>
    have : takeComments ts = ((takeComments ts).1, []) := by rw [← hts]
    rw [this] at h
    simp at h
  | cons u r =>
    have : takeComments ts = ((takeComments ts).1, u :: r) := by rw [← hts]
    rw [this] at h
    simp only at h
    by_cases hk : u.Kind = kind
    · simp only [hk, if_true, Except.ok.injEq, Prod.mk.injEq] at h
      obtain ⟨h1, h2, h3⟩ := h
      rw [← h1, ← h3]
      exact commentTokens_of_takeComments ts u r hts
    · simp [hk] at h

theorem commentTokens_takeTrailing (line : Nat) (ts : List Token) :
    commentTokens ts = (takeTrailing line ts).1 ++ commentTokens (takeTrailing line ts).2 := by
  cases ts with
  | nil => simp [takeTrailing, commentTokens]
  | cons t ts =>
    by_cases h : t.Kind = .COMMENT ∧ t.Line = line
    · simp [takeTrailing, commentTokens, h, h.1]
    · simp [takeTrailing, h]

end Parser

namespace Parser

theorem count_cons_of_not_comment (t : Token) (ts : List Token) (h : t.Kind ≠ .COMMENT)
    (c : Comment) : (commentTokens (t :: ts)).count c = (commentTokens ts).count c := by
  rw [commentTokens_cons_of_not_comment t ts h]

theorem count_takeComments (ts : List Token) (c : Comment) :
    (commentTokens ts).count c
      = (takeComments ts).1.count c + (commentTokens (takeComments ts).2).count c := by
  rw [← List.count_append, ← commentTokens_takeComments]

theorem count_of_takeComments (ts : List Token) (t : Token) (rest : List Token)
    (h : (takeComments ts).2 = t :: rest) (c : Comment) :
    (commentTokens ts).count c = (takeComments ts).1.count c + (commentTokens rest).count c := by
  rw [← List.count_append, ← commentTokens_of_takeComments ts t rest h]

theorem count_expect (kind : TokenType) (expected : String) (ts : List Token)
    (cs : Comments) (t : Token) (rest : List Token)
    (h : expect kind expected ts = .ok (cs, t, rest)) (c : Comment) :
    (commentTokens ts).count c = cs.count c + (commentTokens rest).count c := by
  rw [← List.count_append, ← commentTokens_expect kind expected ts cs t rest h]

theorem count_takeTrailing (line : Nat) (ts : List Token) (c : Comment) :
    (commentTokens ts).count c
      = (takeTrailing line ts).1.count c + (commentTokens (takeTrailing line ts).2).count c := by
  rw [← List.count_append, ← commentTokens_takeTrailing]

theorem expression_comments : ∀ n : Nat,
    (∀ nest precedence ts e r, parseExpression n nest precedence ts = .ok (e, r) →
        ∀ c, (commentTokens ts).count c = e.comments.count c + (commentTokens r).count c)
    ∧ (∀ nest leading ts e r, parseOperand n nest leading ts = .ok (e, r) →
        ∀ c, leading.count c + (commentTokens ts).count c
          = e.comments.count c + (commentTokens r).count c)
    ∧ (∀ nest precedence left ts e r, parseInfix n nest precedence left ts = .ok (e, r) →
        ∀ c, left.comments.count c + (commentTokens ts).count c
          = e.comments.count c + (commentTokens r).count c)
    ∧ (∀ nest ts args cs r, parseArguments n nest ts = .ok ((args, cs), r) →
        ∀ c, (commentTokens ts).count c
          = (Expression.commentsOfAll args).count c + cs.count c + (commentTokens r).count c)
    ∧ (∀ nest ts args cs r, parseArgumentList n nest ts = .ok ((args, cs), r) →
        ∀ c, (commentTokens ts).count c
          = (Expression.commentsOfAll args).count c + cs.count c
            + (commentTokens r).count c) := by
  intro n
  induction n with
  | zero =>
    refine ⟨?_, ?_, ?_, ?_, ?_⟩ <;> intros <;> rename_i h _ <;>
      simp [parseExpression, parseOperand, parseInfix, parseArguments, parseArgumentList] at h
  | succ n ih =>
    obtain ⟨ihE, ihO, ihI, ihA, ihL⟩ := ih
    refine ⟨?_, ?_, ?_, ?_, ?_⟩
    · intro nest precedence ts e r h c
      simp only [parseExpression] at h
      cases hx : parseOperand n nest (takeComments ts).1 (takeComments ts).2 with
      | error e => rw [hx] at h; exact absurd h (by simp)
      | ok v =>
        obtain ⟨left, rest⟩ := v
        rw [hx] at h
        have e1 := ihO _ _ _ _ _ hx c
        have e2 := ihI _ _ _ _ _ _ h c
        have e3 := count_takeComments ts c
        omega
    · intro nest leading ts e r h c
      cases ts with
      | nil => simp [parseOperand] at h
      | cons t rest =>
        simp only [parseOperand] at h
        cases hk : t.Kind <;> simp only [hk] at h <;> try (exfalso; cases h; done)
        · -- an identifier
          have e0 := count_cons_of_not_comment t rest (by rw [hk]; decide) c
          cases rest with
          | nil =>
            cases h
            simp only [Expression.comments, Meta.comments, List.count_append, List.count_nil]
            omega
          | cons p rest1 =>
            simp only at h
            by_cases hp : p.Kind = .LEFT_PAREN
            · simp only [hp, if_true] at h
              cases hx : parseArguments n nest rest1 with
              | error e => rw [hx] at h; exact absurd h (by simp)
              | ok v =>
                obtain ⟨⟨args, cs⟩, rest2⟩ := v
                rw [hx] at h
                cases h
                have e1 := ihA _ _ _ _ _ hx c
                have e2 := count_cons_of_not_comment p rest1 (by rw [hp]; decide) c
                simp only [Expression.comments, Meta.comments, List.count_append,
                  List.count_nil]
                omega
            · simp only [hp, if_false] at h
              cases h
              simp only [Expression.comments, Meta.comments, List.count_append,
                List.count_nil]
              omega
        · have e0 := count_cons_of_not_comment t rest (by rw [hk]; decide) c
          cases h
          simp only [Expression.comments, Meta.comments, List.count_append, List.count_nil]
          omega
        · have e0 := count_cons_of_not_comment t rest (by rw [hk]; decide) c
          cases h
          simp only [Expression.comments, Meta.comments, List.count_append, List.count_nil]
          omega
        · -- an if-expression
          have e0 := count_cons_of_not_comment t rest (by rw [hk]; decide) c
          cases h0 : expect .LEFT_PAREN "(" rest with
          | error e => rw [h0] at h; exact absurd h (by simp)
          | ok v0 =>
            obtain ⟨c0, t0, r0⟩ := v0
            rw [h0] at h
            simp only at h
            cases h1 : parseExpression n nest LOWEST r0 with
            | error e => rw [h1] at h; exact absurd h (by simp)
            | ok v1 =>
              obtain ⟨condition, r1⟩ := v1
              rw [h1] at h
              simp only at h
              cases h2 : expect .COMMA "," r1 with
              | error e => rw [h2] at h; exact absurd h (by simp)
              | ok v2 =>
                obtain ⟨c1, t1, r2⟩ := v2
                rw [h2] at h
                simp only at h
                cases h3 : parseExpression n nest LOWEST r2 with
                | error e => rw [h3] at h; exact absurd h (by simp)
                | ok v3 =>
                  obtain ⟨consequence, r3⟩ := v3
                  rw [h3] at h
                  simp only at h
                  cases h4 : expect .COMMA "," r3 with
                  | error e => rw [h4] at h; exact absurd h (by simp)
                  | ok v4 =>
                    obtain ⟨c2, t2, r4⟩ := v4
                    rw [h4] at h
                    simp only at h
                    cases h5 : parseExpression n nest LOWEST r4 with
                    | error e => rw [h5] at h; exact absurd h (by simp)
                    | ok v5 =>
                      obtain ⟨alternative, r5⟩ := v5
                      rw [h5] at h
                      simp only at h
                      cases h6 : expect .RIGHT_PAREN ")" r5 with
                      | error e => rw [h6] at h; exact absurd h (by simp)
                      | ok v6 =>
                        obtain ⟨c3, t3, r6⟩ := v6
                        rw [h6] at h
                        cases h
                        have a0 := count_expect _ _ _ _ _ _ h0 c
                        have a1 := ihE _ _ _ _ _ h1 c
                        have a2 := count_expect _ _ _ _ _ _ h2 c
                        have a3 := ihE _ _ _ _ _ h3 c
                        have a4 := count_expect _ _ _ _ _ _ h4 c
                        have a5 := ihE _ _ _ _ _ h5 c
                        have a6 := count_expect _ _ _ _ _ _ h6 c
                        simp only [Expression.comments, Meta.comments, List.count_append,
                          List.count_nil]
                        omega
    · intro nest precedence left ts e r h c
      simp only [parseInfix] at h
      cases hts : (takeComments ts).2 with
      | nil => rw [hts] at h; cases h; rfl
      | cons t rest =>
        rw [hts] at h
        simp only at h
        by_cases hp : precedence < infixPrecedence t
        · simp only [hp, if_true] at h
          by_cases ho : t.Kind = .OPERATOR
          · simp only [ho, if_true] at h
            cases hx : parseExpression n nest (infixPrecedence t) rest with
            | error e => rw [hx] at h; exact absurd h (by simp)
            | ok v =>
              obtain ⟨right, rest1⟩ := v
              rw [hx] at h
              have e1 := ihE _ _ _ _ _ hx c
              have e2 := ihI _ _ _ _ _ _ h c
              have e3 := count_of_takeComments ts t rest hts c
              simp only [Expression.comments, InfixExpression.comments, Meta.comments,
                List.count_append, List.count_nil] at e2
              omega
          · simp only [ho, if_false] at h
            cases hx : parseExpression n nest CONCAT ts with
            | error e => rw [hx] at h; exact absurd h (by simp)
            | ok v =>
              obtain ⟨right, rest1⟩ := v
              rw [hx] at h
              have e1 := ihE _ _ _ _ _ hx c
              have e2 := ihI _ _ _ _ _ _ h c
              simp only [Expression.comments, InfixExpression.comments, Meta.comments,
                List.count_append, List.count_nil] at e2
              omega
        · simp only [hp, if_false] at h
          cases h
          rfl
    · intro nest ts args cs r h c
      simp only [parseArguments] at h
      cases hts : (takeComments ts).2 with
      | nil => rw [hts] at h; exact absurd h (by simp)
      | cons t rest =>
        rw [hts] at h
        simp only at h
        by_cases hp : t.Kind = .RIGHT_PAREN
        · simp only [hp, if_true] at h
          cases h
          have e3 := count_of_takeComments ts t _ hts c
          simp only [Expression.commentsOfAll, List.count_nil]
          omega
        · simp only [hp, if_false] at h
          exact ihL _ _ _ _ _ h c
    · intro nest ts args cs r h c
      simp only [parseArgumentList] at h
      cases hx : parseExpression n nest LOWEST ts with
      | error e => rw [hx] at h; exact absurd h (by simp)
      | ok v =>
        obtain ⟨argument, rest⟩ := v
        rw [hx] at h
        simp only at h
        have e1 := ihE _ _ _ _ _ hx c
        cases hts : (takeComments rest).2 with
        | nil => rw [hts] at h; exact absurd h (by simp)
        | cons t rest1 =>
          rw [hts] at h
          simp only at h
          have e3 := count_of_takeComments rest t rest1 hts c
          by_cases hc : t.Kind = .COMMA
          · simp only [hc, if_true] at h
            cases hl : parseArgumentList n nest rest1 with
            | error e => rw [hl] at h; exact absurd h (by simp)
            | ok w =>
              obtain ⟨⟨arguments, cs1⟩, rest2⟩ := w
              rw [hl] at h
              cases h
              have e2 := ihL _ _ _ _ _ hl c
              simp only [Expression.commentsOfAll, List.count_append]
              omega
          · simp only [hc, if_false] at h
            by_cases hq : t.Kind = .RIGHT_PAREN
            · simp only [hq, if_true] at h
              cases h
              simp only [Expression.commentsOfAll, List.count_append, List.count_nil]
              omega
            · simp only [hq, if_false] at h
              exact absurd h (by simp)

theorem parseExpression_comments (n : Nat) (nest : Int) (precedence : Nat) (ts : List Token)
    (e : Expression) (r : List Token) (h : parseExpression n nest precedence ts = .ok (e, r))
    (c : Comment) :
    (commentTokens ts).count c = e.comments.count c + (commentTokens r).count c :=
  (expression_comments n).1 nest precedence ts e r h c

end Parser

namespace Parser

theorem parseAssignment_set_comments (n : Nat) (nest : Int) (leading : Comments)
    (ts : List Token) (s : Statement) (r : List Token)
    (h : parseAssignment
      (fun m i o v => .setStmt { toMeta := m, Ident := i, Operator := o, Value := v })
      n nest leading ts = .ok (s, r)) (c : Comment) :
    leading.count c + (commentTokens ts).count c
      = s.comments.count c + (commentTokens r).count c := by
  unfold parseAssignment at h
  cases h0 : expect .IDENT "identifier" ts with
  | error e => rw [h0] at h; exact absurd h (by simp)
  | ok v0 =>
    obtain ⟨c0, name, r0⟩ := v0
    rw [h0] at h
    simp only at h
    cases h1 : expect .ASSIGNMENT "assignment operator" r0 with
    | error e => rw [h1] at h; exact absurd h (by simp)
    | ok v1 =>
      obtain ⟨c1, op, r1⟩ := v1
      rw [h1] at h
      simp only at h
      cases h2 : parseExpression n nest LOWEST r1 with
      | error e => rw [h2] at h; exact absurd h (by simp)
      | ok v2 =>
        obtain ⟨value, r2⟩ := v2
        rw [h2] at h
        simp only at h
        cases h3 : expect .SEMICOLON ";" r2 with
        | error e => rw [h3] at h; exact absurd h (by simp)
        | ok v3 =>
          obtain ⟨c2, semicolon, r3⟩ := v3
          rw [h3] at h
          cases h
          have a0 := count_expect _ _ _ _ _ _ h0 c
          have a1 := count_expect _ _ _ _ _ _ h1 c
          have a2 := parseExpression_comments _ _ _ _ _ _ h2 c
          have a3 := count_expect _ _ _ _ _ _ h3 c
          have a4 := count_takeTrailing semicolon.Line r3 c
          simp only [Statement.comments, Meta.comments, List.count_append, List.count_nil]
          omega

theorem parseAssignment_add_comments (n : Nat) (nest : Int) (leading : Comments)
    (ts : List Token) (s : Statement) (r : List Token)
    (h : parseAssignment
      (fun m i o v => .addStmt { toMeta := m, Ident := i, Operator := o, Value := v })
      n nest leading ts = .ok (s, r)) (c : Comment) :
    leading.count c + (commentTokens ts).count c
      = s.comments.count c + (commentTokens r).count c := by
  unfold parseAssignment at h
  cases h0 : expect .IDENT "identifier" ts with
  | error e => rw [h0] at h; exact absurd h (by simp)
  | ok v0 =>
    obtain ⟨c0, name, r0⟩ := v0
    rw [h0] at h
    simp only at h
    cases h1 : expect .ASSIGNMENT "assignment operator" r0 with
    | error e => rw [h1] at h; exact absurd h (by simp)
    | ok v1 =>
      obtain ⟨c1, op, r1⟩ := v1
      rw [h1] at h
      simp only at h
      cases h2 : parseExpression n nest LOWEST r1 with
      | error e => rw [h2] at h; exact absurd h (by simp)
      | ok v2 =>
        obtain ⟨value, r2⟩ := v2
        rw [h2] at h
        simp only at h
        cases h3 : expect .SEMICOLON ";" r2 with
        | error e => rw [h3] at h; exact absurd h (by simp)
        | ok v3 =>
          obtain ⟨c2, semicolon, r3⟩ := v3
          rw [h3] at h
          cases h
          have a0 := count_expect _ _ _ _ _ _ h0 c
          have a1 := count_expect _ _ _ _ _ _ h1 c
          have a2 := parseExpression_comments _ _ _ _ _ _ h2 c
          have a3 := count_expect _ _ _ _ _ _ h3 c
          have a4 := count_takeTrailing semicolon.Line r3 c
          simp only [Statement.comments, Meta.comments, List.count_append, List.count_nil]
          omega

theorem parseTarget_unset_comments (nest : Int) (leading : Comments) (ts : List Token)
    (s : Statement) (r : List Token)
    (h : parseTarget (fun m i => .unsetStmt { toMeta := m, Ident := i }) nest leading ts
      = .ok (s, r)) (c : Comment) :
    leading.count c + (commentTokens ts).count c
      = s.comments.count c + (commentTokens r).count c := by
  unfold parseTarget at h
  cases h0 : expect .IDENT "identifier" ts with
  | error e => rw [h0] at h; exact absurd h (by simp)
  | ok v0 =>
    obtain ⟨c0, name, r0⟩ := v0
    rw [h0] at h
    simp only at h
    cases h1 : expect .SEMICOLON ";" r0 with
    | error e => rw [h1] at h; exact absurd h (by simp)
    | ok v1 =>
      obtain ⟨c1, semicolon, r1⟩ := v1
      rw [h1] at h
      cases h
      have a0 := count_expect _ _ _ _ _ _ h0 c
      have a1 := count_expect _ _ _ _ _ _ h1 c
      have a4 := count_takeTrailing semicolon.Line r1 c
      simp only [Statement.comments, Meta.comments, List.count_append, List.count_nil]
      omega

theorem parseTarget_remove_comments (nest : Int) (leading : Comments) (ts : List Token)
    (s : Statement) (r : List Token)
    (h : parseTarget (fun m i => .removeStmt { toMeta := m, Ident := i }) nest leading ts
      = .ok (s, r)) (c : Comment) :
    leading.count c + (commentTokens ts).count c
      = s.comments.count c + (commentTokens r).count c := by
  unfold parseTarget at h
  cases h0 : expect .IDENT "identifier" ts with
  | error e => rw [h0] at h; exact absurd h (by simp)
  | ok v0 =>
    obtain ⟨c0, name, r0⟩ := v0
    rw [h0] at h
    simp only at h
    cases h1 : expect .SEMICOLON ";" r0 with
    | error e => rw [h1] at h; exact absurd h (by simp)
    | ok v1 =>
      obtain ⟨c1, semicolon, r1⟩ := v1
      rw [h1] at h
      cases h
      have a0 := count_expect _ _ _ _ _ _ h0 c
      have a1 := count_expect _ _ _ _ _ _ h1 c
      have a4 := count_takeTrailing semicolon.Line r1 c
      simp only [Statement.comments, Meta.comments, List.count_append, List.count_nil]
      omega

theorem parseLogStatement_comments (n : Nat) (nest : Int) (leading : Comments)
    (ts : List Token) (s : Statement) (r : List Token)
    (h : parseLogStatement n nest leading ts = .ok (s, r)) (c : Comment) :
    leading.count c + (commentTokens ts).count c
      = s.comments.count c + (commentTokens r).count c := by
  unfold parseLogStatement at h
  cases h0 : parseExpression n nest LOWEST ts with
  | error e => rw [h0] at h; exact absurd h (by simp)
  | ok v0 =>
    obtain ⟨value, r0⟩ := v0
    rw [h0] at h
    simp only at h
    cases h1 : expect .SEMICOLON ";" r0 with
    | error e => rw [h1] at h; exact absurd h (by simp)
    | ok v1 =>
      obtain ⟨c0, semicolon, r1⟩ := v1
      rw [h1] at h
      cases h
      have a0 := parseExpression_comments _ _ _ _ _ _ h0 c
      have a1 := count_expect _ _ _ _ _ _ h1 c
      have a4 := count_takeTrailing semicolon.Line r1 c
      simp only [Statement.comments, Meta.comments, List.count_append, List.count_nil]
      omega

theorem parseCondition_comments (n : Nat) (nest : Int) (ts : List Token)
    (condition : Expression) (cs blockLeading : Comments) (r : List Token)
    (h : parseCondition n nest ts = .ok ((condition, cs, blockLeading), r)) (c : Comment) :
    (commentTokens ts).count c
      = condition.comments.count c + cs.count c + blockLeading.count c
        + (commentTokens r).count c := by
  unfold parseCondition at h
  cases h0 : expect .LEFT_PAREN "(" ts with
  | error e => rw [h0] at h; exact absurd h (by simp)
  | ok v0 =>
    obtain ⟨c0, t0, r0⟩ := v0
    rw [h0] at h
    simp only at h
    cases h1 : parseExpression n nest LOWEST r0 with
    | error e => rw [h1] at h; exact absurd h (by simp)
    | ok v1 =>
      obtain ⟨e, r1⟩ := v1
      rw [h1] at h
      simp only at h
      cases h2 : expect .RIGHT_PAREN ")" r1 with
      | error e => rw [h2] at h; exact absurd h (by simp)
      | ok v2 =>
        obtain ⟨c1, t1, r2⟩ := v2
        rw [h2] at h
        simp only at h
        cases h3 : expect .LEFT_BRACE "\x7b" r2 with
        | error e => rw [h3] at h; exact absurd h (by simp)
        | ok v3 =>
          obtain ⟨c2, t2, r3⟩ := v3
          rw [h3] at h
          cases h
          have a0 := count_expect _ _ _ _ _ _ h0 c
          have a1 := parseExpression_comments _ _ _ _ _ _ h1 c
          have a2 := count_expect _ _ _ _ _ _ h2 c
          have a3 := count_expect _ _ _ _ _ _ h3 c
          simp only [List.count_append]
          omega

theorem statement_comments : ∀ n : Nat,
    (∀ nest leading ts s r, parseStatement n nest leading ts = .ok (s, r) →
        ∀ c, leading.count c + (commentTokens ts).count c
          = s.comments.count c + (commentTokens r).count c)
    ∧ (∀ nest leading ts b line r, parseBlockStatement n nest leading ts = .ok ((b, line), r) →
        b.toMeta.Trailing = []
          ∧ ∀ c, leading.count c + (commentTokens ts).count c
            = b.comments.count c + (commentTokens r).count c)
    ∧ (∀ nest ts stmts cs line r, parseBlockItems n nest ts = .ok ((stmts, cs, line), r) →
        ∀ c, (commentTokens ts).count c
          = (Statement.commentsOfAll stmts).count c + cs.count c + (commentTokens r).count c)
    ∧ (∀ nest line ts another alt last r,
        parseElse n nest line ts = .ok ((another, alt, last), r) →
        ∀ c, (commentTokens ts).count c
          = (IfStatement.commentsOfAll another).count c
            + (BlockStatement.commentsOfOption alt).count c + (commentTokens r).count c) := by
  intro n
  induction n with
  | zero =>
    refine ⟨?_, ?_, ?_, ?_⟩
    · intro _ _ _ _ _ h
      simp [parseStatement] at h
    · intro _ _ _ _ _ _ h
      simp [parseBlockStatement] at h
    · intro _ _ _ _ _ _ h
      simp [parseBlockItems] at h
    · intro _ _ _ _ _ _ _ h
      simp [parseElse] at h
  | succ n ih =>
    obtain ⟨ihS, ihB, ihI, ihE⟩ := ih
    refine ⟨?_, ?_, ?_, ?_⟩
    · intro nest leading ts s r h c
      cases ts with
      | nil => simp [parseStatement] at h
      | cons t rest =>
        simp only [parseStatement] at h
        cases hk : t.Kind <;> simp only [hk] at h <;> try (exfalso; cases h; done)
        · -- a block
          have e0 := count_cons_of_not_comment t rest (by rw [hk]; decide) c
          cases hx : parseBlockStatement n nest leading rest with
          | error e => rw [hx] at h; exact absurd h (by simp)
          | ok v =>
            obtain ⟨⟨⟨m, stmts⟩, line⟩, r0⟩ := v
            rw [hx] at h
            cases h
            obtain ⟨ht, hb⟩ := ihB _ _ _ _ _ _ hx
            have a1 := hb c
            have a2 := count_takeTrailing line r0 c
            simp only [BlockStatement.toMeta] at ht
            simp only [BlockStatement.comments, Meta.comments, List.count_append, ht,
              List.count_nil] at a1
            simp only [Statement.comments, BlockStatement.comments, Meta.comments,
              List.count_append]
            omega
        · have e0 := count_cons_of_not_comment t rest (by rw [hk]; decide) c
          have a1 := parseAssignment_set_comments _ _ _ _ _ _ h c
          omega
        · have e0 := count_cons_of_not_comment t rest (by rw [hk]; decide) c
          have a1 := parseAssignment_add_comments _ _ _ _ _ _ h c
          omega
        · have e0 := count_cons_of_not_comment t rest (by rw [hk]; decide) c
          have a1 := parseTarget_unset_comments _ _ _ _ _ h c
          omega
        · have e0 := count_cons_of_not_comment t rest (by rw [hk]; decide) c
          have a1 := parseTarget_remove_comments _ _ _ _ _ h c
          omega
        · have e0 := count_cons_of_not_comment t rest (by rw [hk]; decide) c
          have a1 := parseLogStatement_comments _ _ _ _ _ _ h c
          omega
        · -- an if statement
          have e0 := count_cons_of_not_comment t rest (by rw [hk]; decide) c
          cases h0 : parseCondition n nest rest with
          | error e => rw [h0] at h; exact absurd h (by simp)
          | ok v0 =>
            obtain ⟨⟨condition, cs, blockLeading⟩, r0⟩ := v0
            rw [h0] at h
            simp only at h
            cases h1 : parseBlockStatement n nest blockLeading r0 with
            | error e => rw [h1] at h; exact absurd h (by simp)
            | ok v1 =>
              obtain ⟨⟨consequence, line⟩, r1⟩ := v1
              rw [h1] at h
              simp only at h
              cases h2 : parseElse n nest line r1 with
              | error e => rw [h2] at h; exact absurd h (by simp)
              | ok v2 =>
                obtain ⟨⟨another, alternative, last⟩, r2⟩ := v2
                rw [h2] at h
                cases h
                have a0 := parseCondition_comments _ _ _ _ _ _ _ h0 c
                have a1 := (ihB _ _ _ _ _ _ h1).2 c
                have a2 := ihE _ _ _ _ _ _ _ h2 c
                have a3 := count_takeTrailing last r2 c
                simp only [Statement.comments, IfStatement.comments, Meta.comments,
                  List.count_append]
                omega
    · intro nest leading ts b line r h
      simp only [parseBlockStatement] at h
      cases hx : parseBlockItems n (nest + 1) ts with
      | error e => rw [hx] at h; exact absurd h (by simp)
      | ok v =>
        obtain ⟨⟨stmts, cs, line1⟩, rest⟩ := v
        rw [hx] at h
        cases h
        refine ⟨rfl, ?_⟩
        intro c
        have a1 := ihI _ _ _ _ _ _ hx c
        simp only [BlockStatement.comments, Meta.comments, List.count_append, List.count_nil]
        omega
    · intro nest ts stmts cs line r h c
      simp only [parseBlockItems] at h
      cases hts : (takeComments ts).2 with
      | nil => rw [hts] at h; exact absurd h (by simp)
      | cons t rest =>
        rw [hts] at h
        simp only at h
        have e3 := count_of_takeComments ts t rest hts c
        have e4 := count_cons_of_not_comment t rest
          (takeComments_head_not_comment ts t rest hts) c
        by_cases hb : t.Kind = .RIGHT_BRACE
        · simp only [hb, if_true] at h
          cases h
          simp only [Statement.commentsOfAll, List.count_nil]
          omega
        · simp only [hb, if_false] at h
          cases hx : parseStatement n nest (takeComments ts).1 (t :: rest) with
          | error e => rw [hx] at h; exact absurd h (by simp)
          | ok v =>
            obtain ⟨stmt, rest1⟩ := v
            rw [hx] at h
            simp only at h
            cases hy : parseBlockItems n nest rest1 with
            | error e => rw [hy] at h; exact absurd h (by simp)
            | ok w =>
              obtain ⟨⟨stmts1, cs1, line1⟩, rest2⟩ := w
              rw [hy] at h
              cases h
              have a1 := ihS _ _ _ _ _ hx c
              have a2 := ihI _ _ _ _ _ _ hy c
              simp only [Statement.commentsOfAll, List.count_append]
              omega
    · intro nest line ts another alt last r h c
      simp only [parseElse] at h
      cases hts : (takeComments ts).2 with
      | nil =>
        rw [hts] at h
        cases h
        simp [IfStatement.commentsOfAll, BlockStatement.commentsOfOption]
      | cons t rest =>
        rw [hts] at h
        simp only at h
        have e3 := count_of_takeComments ts t rest hts c
        by_cases hb : t.Kind = .ELSEIF
        · simp only [hb, if_true] at h
          cases h0 : parseCondition n nest rest with
          | error e => rw [h0] at h; exact absurd h (by simp)
          | ok v0 =>
            obtain ⟨⟨condition, cs, blockLeading⟩, r0⟩ := v0
            rw [h0] at h
            simp only at h
            cases h1 : parseBlockStatement n nest blockLeading r0 with
            | error e => rw [h1] at h; exact absurd h (by simp)
            | ok v1 =>
              obtain ⟨⟨consequence, line1⟩, r1⟩ := v1
              rw [h1] at h
              simp only at h
              cases h2 : parseElse n nest line1 r1 with
              | error e => rw [h2] at h; exact absurd h (by simp)
              | ok v2 =>
                obtain ⟨⟨another1, alternative, last1⟩, r2⟩ := v2
                rw [h2] at h
                cases h
                have a0 := parseCondition_comments _ _ _ _ _ _ _ h0 c
                have a1 := (ihB _ _ _ _ _ _ h1).2 c
                have a2 := ihE _ _ _ _ _ _ _ h2 c
                simp only [IfStatement.commentsOfAll, IfStatement.comments,
                  BlockStatement.commentsOfOption, Meta.comments, List.count_append,
                  List.count_nil]
                omega
        · simp only [hb, if_false] at h
          by_cases hc : t.Kind = .ELSE ∧ ((takeComments rest).2.head?.map (·.Kind)) = some .IF
          · rw [if_pos hc] at h
            cases hr : (takeComments rest).2 with
            | nil => rw [hr] at hc; exact absurd hc.2 (by simp)
            | cons u tl =>
              rw [hr] at h
              simp only [List.tail_cons] at h
              have e5 := count_of_takeComments rest u tl hr c
              cases h0 : parseCondition n nest tl with
              | error e => rw [h0] at h; exact absurd h (by simp)
              | ok v0 =>
                obtain ⟨⟨condition, cs, blockLeading⟩, r0⟩ := v0
                rw [h0] at h
                simp only at h
                cases h1 : parseBlockStatement n nest blockLeading r0 with
                | error e => rw [h1] at h; exact absurd h (by simp)
                | ok v1 =>
                  obtain ⟨⟨consequence, line1⟩, r1⟩ := v1
                  rw [h1] at h
                  simp only at h
                  cases h2 : parseElse n nest line1 r1 with
                  | error e => rw [h2] at h; exact absurd h (by simp)
                  | ok v2 =>
                    obtain ⟨⟨another1, alternative, last1⟩, r2⟩ := v2
                    rw [h2] at h
                    cases h
                    have a0 := parseCondition_comments _ _ _ _ _ _ _ h0 c
                    have a1 := (ihB _ _ _ _ _ _ h1).2 c
                    have a2 := ihE _ _ _ _ _ _ _ h2 c
                    simp only [IfStatement.commentsOfAll, IfStatement.comments,
                      BlockStatement.commentsOfOption, Meta.comments, List.count_append,
                      List.count_nil]
                    omega
          · rw [if_neg hc] at h
            by_cases he : t.Kind = .ELSE
            · simp only [he, if_true] at h
              cases h0 : expect .LEFT_BRACE "\x7b" rest with
              | error e => rw [h0] at h; exact absurd h (by simp)
              | ok v0 =>
                obtain ⟨c0, t0, r0⟩ := v0
                rw [h0] at h
                simp only at h
                cases h1 : parseBlockStatement n nest ((takeComments ts).1 ++ c0) r0 with
                | error e => rw [h1] at h; exact absurd h (by simp)
                | ok v1 =>
                  obtain ⟨⟨alternative, last1⟩, r1⟩ := v1
                  rw [h1] at h
                  cases h
                  have a0 := count_expect _ _ _ _ _ _ h0 c
                  have a1 := (ihB _ _ _ _ _ _ h1).2 c
                  simp only [IfStatement.commentsOfAll, BlockStatement.commentsOfOption,
                    List.count_append, List.count_nil] at a1 ⊢
                  omega
            · simp only [he, if_false] at h
              cases h
              simp [IfStatement.commentsOfAll, BlockStatement.commentsOfOption]

end Parser

/-! ### The parser: the comments of a block -/

namespace Parser

set_option maxRecDepth 100000 in
/-- A comment between `else` and `if` is an infix comment of the branch. -/
theorem ParseVCL_else_comment_if :
    ParseVCL ParserTest.elseCommentIfInput = .ok ParserTest.elseCommentIfExpect := by
  rfl

/-- A statement `unset name;` followed by a comment on the line of its
semicolon: the comment is the trailing comment of the statement. -/
theorem parseStatement_unset_trailing (k : Nat) (nest : Int) (leading : Comments)
    (kw name semi c : Token) (us : List Token) (hkw : kw.Kind = .UNSET)
    (hname : name.Kind = .IDENT) (hsemi : semi.Kind = .SEMICOLON) (hc : c.Kind = .COMMENT)
    (hline : c.Line = semi.Line) :
    parseStatement (k + 1) nest leading (kw :: name :: semi :: c :: us)
      = .ok (.unsetStmt
          { Nest := nest, Leading := leading, Trailing := [c.toComment],
            Ident := { Nest := nest, Value := name.Literal } }, us) := by
  simp [parseStatement, hkw, parseTarget, expect, takeComments, hname, hsemi, takeTrailing, hc,
    hline]

set_option maxRecDepth 100000 in
/-- C15, as stated, fails: in the input of `TestIfExpression` the comment
`// Trailing comment` comes after the last statement of the body, on the line
of its semicolon, and before the closing brace; the parser gives the tree that
the test expects, where the comment is the Trailing comment of the statement
and the body has no Infix comment. -/
theorem ParseVCL_same_line_comment_not_infix :
    (tokensOf ParserTest.ifExpressionInput).drop 16
        = [⟨.SEMICOLON, ";", 4⟩, ⟨.COMMENT, "// Trailing comment", 4⟩,
            ⟨.RIGHT_BRACE, "\x7d", 5⟩, ⟨.EOF, "", 5⟩]
      ∧ ParseVCL ParserTest.ifExpressionInput = .ok ParserTest.ifExpressionExpect
      ∧ ParserTest.ifExpressionExpect.Statements.map (fun d => d.Block.toMeta.Infix) = [[]]
      ∧ ParserTest.ifExpressionExpect.Statements.map
          (fun d => d.Block.Statements.map (fun s => s.toMeta.Trailing))
        = [[[⟨"// Trailing comment"⟩]]] := by
  refine ⟨by rfl, by rfl, by rfl, by rfl⟩

set_option maxRecDepth 100000 in
/-- C15, amended: comment attachment by the parser. `rest` are the tokens
left by the last statement of a block, which takes the comment on the line of
its terminator as its Trailing comment. The comments at the head of `rest`,
before the closing brace, are the Infix comments of the block and are in no
other node: the block holds the comments before its opening brace as Leading
comments and no Trailing comment, and the comments of its statements together
with the comment tokens of `rest` are the comment tokens of the body, each
once. More generally a parsed statement or block holds the pending comments
and the comment tokens it consumes, each in one slot of one node. The comments
pending before an operand, as after an operator, are the Leading comments of
that operand. The block records one level more than the depth it is met at,
and so does every node of its statements; every node of a parsed statement
records the number of blocks around it. The parser gives the tree that
`TestInfixExpression` expects: levels 1 in the subroutine body and 2 in the if
block, `/* comment */` leading the operand `req.http.Bar`, `// end` in the
Infix comments of the body. -/
theorem parseBlockStatement_comments_and_nest (n : Nat) (nest : Int) (leading : Comments)
    (ts : List Token) (stmts : List Statement) (rest : List Token) (close : Token)
    (rest1 : List Token) (m : Nat)
    (h : StatementTokens n (nest + 1) ts stmts rest)
    (hrest : (takeComments rest).2 = close :: rest1) (hclose : close.Kind = .RIGHT_BRACE)
    (hm : n + stmts.length + 2 ≤ m) :
    parseBlockStatement m nest leading ts
        = .ok ((.mk { Nest := nest + 1, Leading := leading, Infix := (takeComments rest).1 }
            stmts, close.Line), rest1)
      ∧ List.Perm (Statement.commentsOfAll stmts ++ commentTokens rest) (commentTokens ts)
      ∧ commentTokens rest = (takeComments rest).1 ++ commentTokens rest1
      ∧ (∀ (k : Nat) (d : Int) (cs : Comments) (us : List Token) (s : Statement)
          (r : List Token), parseStatement k d cs us = .ok (s, r) →
          List.Perm (s.comments ++ commentTokens r) (cs ++ commentTokens us))
      ∧ (∀ (k : Nat) (d : Int) (cs : Comments) (us : List Token) (b : BlockStatement)
          (line : Nat) (r : List Token), parseBlockStatement k d cs us = .ok ((b, line), r) →
          List.Perm (b.comments ++ commentTokens r) (cs ++ commentTokens us))
      ∧ (∀ (k : Nat) (d : Int) (cs : Comments) (kw name semi c : Token) (us : List Token),
          kw.Kind = .UNSET → name.Kind = .IDENT → semi.Kind = .SEMICOLON →
          c.Kind = .COMMENT → c.Line = semi.Line →
          parseStatement (k + 1) d cs (kw :: name :: semi :: c :: us)
            = .ok (.unsetStmt
                { Nest := d, Leading := cs, Trailing := [c.toComment],
                  Ident := { Nest := d, Value := name.Literal } }, us))
      ∧ Statement.AllNestIs (nest + 1) stmts
      ∧ (∀ (k : Nat) (d : Int) (cs : Comments) (us : List Token) (e : Expression)
          (r : List Token), parseOperand k d cs us = .ok (e, r) →
          e.toMeta.Leading = cs ∧ e.NestIs d)
      ∧ (∀ (k : Nat) (d : Int) (p : Nat) (left right : Expression) (us : List Token)
          (op : Token) (us1 r : List Token),
          (takeComments us).2 = op :: us1 → op.Kind = .OPERATOR → p < infixPrecedence op →
          parseOperand k d (takeComments us1).1 (takeComments us1).2 = .ok (right, r) →
          (∀ t r1, (takeComments r).2 = t :: r1 → infixPrecedence t = LOWEST) →
          ∀ j, k + 4 ≤ j →
            parseInfix j d p left us
                = .ok (.infixExpr (.mk { Nest := d, Leading := (takeComments us).1 } left
                    op.Literal right), r)
              ∧ right.toMeta.Leading = (takeComments us1).1)
      ∧ (∀ (k : Nat) (d : Int) (cs : Comments) (us : List Token) (s : Statement)
          (r : List Token), parseStatement k d cs us = .ok (s, r) → s.NestIs d)
      ∧ ParseVCL ParserTest.infixExpressionInput = .ok ParserTest.infixExpressionExpect := by
  have hb := parseBlockStatement_of_tokens n nest leading ts stmts rest h close rest1 hrest
    hclose m hm
  have hrest1 := commentTokens_of_takeComments rest close rest1 hrest
  refine ⟨hb, ?_, hrest1, ?_, ?_, ?_, ?_, ?_, ?_, ?_, by rfl⟩
  · rw [List.perm_iff_count]
    intro c
    have a1 := ((statement_comments m).2.1 _ _ _ _ _ _ hb).2 c
    have a2 := congrArg (List.count c) hrest1
    simp only [BlockStatement.comments, Meta.comments, List.count_append,
      List.count_nil] at a1 a2 ⊢
    omega
  · intro k d cs us s r hs
    rw [List.perm_iff_count]
    intro c
    have a1 := (statement_comments k).1 _ _ _ _ _ hs c
    simp only [List.count_append]
    omega
  · intro k d cs us b line r hs
    rw [List.perm_iff_count]
    intro c
    have a1 := ((statement_comments k).2.1 _ _ _ _ _ _ hs).2 c
    simp only [List.count_append]
    omega
  · intro k d cs kw name semi c us hkw hname hsemi hc hline
    exact parseStatement_unset_trailing k d cs kw name semi c us hkw hname hsemi hc hline
  · have hn := (statement_nest m).2.1 _ _ _ _ _ _ hb
    simp only [BlockStatement.NestIs, true_and] at hn
    exact hn
  · intro k d cs us e r he
    exact ⟨parseOperand_leading _ _ _ _ _ _ he, (expression_nest k).2.1 _ _ _ _ _ he⟩
  · intro k d p left right us op us1 r hus hop hp hr hstop j hj
    exact parseInfix_operator_operand k d p left right us op us1 r hus hop hp hr hstop j hj
  · intro k d cs us s r hs
    exact (statement_nest k).1 _ _ _ _ _ hs

set_option maxRecDepth 100000 in
/-- C15 at two bodies. In the body of the subroutine of `TestInfixExpression`
the comment `// end` before the closing brace is the Infix comment of the
body. In `unset req.http.Foo; // same line`, `// end` and the closing brace,
the comment on the line of the semicolon is the Trailing comment of the
statement and `// end` is the Infix comment of the body. -/
theorem parseBlockStatement_comments_and_nest_witness :
    parseBlockStatement 15 0 [] (tokensOf ParserTest.bodySource)
        = .ok ((.mk { Nest := 1, Infix := [⟨"// end"⟩] } [ParserTest.infixExpressionIf], 8),
            (tokensOf ParserTest.bodySource).drop 19)
      ∧ parseBlockStatement 6 0 [] (tokensOf ParserTest.trailingInfixSource)
        = .ok ((.mk { Nest := 1, Infix := [⟨"// end"⟩] } [ParserTest.trailingInfixUnset], 4),
            (tokensOf ParserTest.trailingInfixSource).drop 6)
      ∧ List.Perm
          (Statement.commentsOfAll [ParserTest.trailingInfixUnset]
            ++ commentTokens ((tokensOf ParserTest.trailingInfixSource).drop 4))
          (commentTokens (tokensOf ParserTest.trailingInfixSource)) :=
  ⟨(parseBlockStatement_comments_and_nest 12 0 [] (tokensOf ParserTest.bodySource)
      [ParserTest.infixExpressionIf] ((tokensOf ParserTest.bodySource).drop 17)
      ⟨.RIGHT_BRACE, "\x7d", 8⟩ ((tokensOf ParserTest.bodySource).drop 19) 15
      (.next _ ⟨.IF, "if", 3⟩ ((tokensOf ParserTest.bodySource).drop 2)
        ParserTest.infixExpressionIf _ _ _ (by rfl) (by decide) (by rfl) (.done _))
      (by rfl) rfl (by decide)).1,
    (parseBlockStatement_comments_and_nest 3 0 [] (tokensOf ParserTest.trailingInfixSource)
      [ParserTest.trailingInfixUnset] ((tokensOf ParserTest.trailingInfixSource).drop 4)
      ⟨.RIGHT_BRACE, "\x7d", 4⟩ ((tokensOf ParserTest.trailingInfixSource).drop 6) 6
      (.next _ ⟨.UNSET, "unset", 2⟩ ((tokensOf ParserTest.trailingInfixSource).drop 1)
        ParserTest.trailingInfixUnset _ _ _ (by rfl) (by decide) (by rfl) (.done _))
      (by rfl) rfl (by decide)).1,
    (parseBlockStatement_comments_and_nest 3 0 [] (tokensOf ParserTest.trailingInfixSource)
      [ParserTest.trailingInfixUnset] ((tokensOf ParserTest.trailingInfixSource).drop 4)
      ⟨.RIGHT_BRACE, "\x7d", 4⟩ ((tokensOf ParserTest.trailingInfixSource).drop 6) 6
      (.next _ ⟨.UNSET, "unset", 2⟩ ((tokensOf ParserTest.trailingInfixSource).drop 1)
        ParserTest.trailingInfixUnset _ _ _ (by rfl) (by decide) (by rfl) (.done _))
      (by rfl) rfl (by decide)).2.1⟩

end Parser

/-! ### The failed assertion -/

namespace Testings

/-- C21: for valid arguments whose first string `x` does not end with the
second string `y`, `Assert_ends_with` returns the Boolean false together with
an assertion error. With a third argument that is not the empty string the
error is built from that message alone; without a third argument, or with the
empty string, it is built from the default text
`%s should end with string %s` with `x` and `y`. -/
theorem Assert_ends_with_failure (args : List Value) (x y : String)
    (hv : ValidArguments args) (hx : args[0]? = some (.String x))
    (hy : args[1]? = some (.String y)) (hs : HasSuffix x y = false) :
    (∃ format fargs,
        Assert_ends_with args
          = .returned (some (.Boolean false), some (.AssertionError format fargs)))
      ∧ (∀ m, args[2]? = some (.String m) → m ≠ "" →
          Assert_ends_with args
            = .returned (some (.Boolean false), some (.AssertionError m [])))
      ∧ (args[2]? = none ∨ args[2]? = some (.String "") →
          Assert_ends_with args
            = .returned (some (.Boolean false),
                some (.AssertionError "%s should end with string %s" [x, y])))
      ∧ Assert_ends_with [.String "example.com", .String ".org"]
          = .returned (some (.Boolean false),
              some (.AssertionError "%s should end with string %s" ["example.com", ".org"]))
      ∧ Assert_ends_with [.String "example.com", .String ".org", .String ""]
          = .returned (some (.Boolean false),
              some (.AssertionError "%s should end with string %s" ["example.com", ".org"]))
      ∧ Assert_ends_with [.String "example.com", .String ".org", .String "wrong host"]
          = .returned (some (.Boolean false), some (.AssertionError "wrong host" [])) := by
  refine ⟨?_, ?_, ?_, by decide, by decide, by decide⟩
  all_goals obtain ⟨hlen, hty⟩ := hv
  all_goals rcases length_two_or_three args hlen with ⟨a, b, rfl⟩ | ⟨a, b, c, rfl⟩
  all_goals simp only [List.getElem?_cons_zero, List.getElem?_cons_succ,
    Option.some.injEq] at hx hy
  all_goals subst hx hy
  · simp [Assert_ends_with, Assert_ends_with_lookup_Validate, validateArgumentTypes,
      Assert_ends_with_lookup_ArgumentTypes, Value.Type, unwrapString, hs]
  · obtain ⟨m, rfl⟩ := (type_string_iff c).1 (hty c (by simp))
    by_cases hm : m = "" <;>
      simp [Assert_ends_with, Assert_ends_with_lookup_Validate, validateArgumentTypes,
        Assert_ends_with_lookup_ArgumentTypes, Value.Type, unwrapString, hs, hm]
  · intro m hm
    simp at hm
  · intro m hm hne
    simp only [List.getElem?_cons_zero, List.getElem?_cons_succ, Option.some.injEq] at hm
    subst hm
    simp [Assert_ends_with, Assert_ends_with_lookup_Validate, validateArgumentTypes,
      Assert_ends_with_lookup_ArgumentTypes, Value.Type, unwrapString, hs, hne]
  · intro _
    simp [Assert_ends_with, Assert_ends_with_lookup_Validate, validateArgumentTypes,
      Assert_ends_with_lookup_ArgumentTypes, Value.Type, unwrapString, hs]
  · intro hm
    simp only [List.getElem?_cons_zero, List.getElem?_cons_succ, Option.some.injEq,
      false_or] at hm
    rcases hm with hm | hm
    · exact absurd hm (by simp)
    subst hm
    simp [Assert_ends_with, Assert_ends_with_lookup_Validate, validateArgumentTypes,
      Assert_ends_with_lookup_ArgumentTypes, Value.Type, unwrapString, hs]

/-- C21 at concrete arguments: `example.com` does not end with `.org`, and the
third argument is the message. -/
theorem Assert_ends_with_failure_witness :
    Assert_ends_with [.String "example.com", .String ".org", .String "wrong host"]
      = .returned (some (.Boolean false), some (.AssertionError "wrong host" [])) :=
  (Assert_ends_with_failure [.String "example.com", .String ".org", .String "wrong host"]
    "example.com" ".org" ⟨Or.inr rfl, by decide⟩ rfl rfl (by decide)).2.1
    "wrong host" rfl (by decide)

end Testings

/-! ### The leading comments of the consequence blocks -/

theorem formatBlockStatement_withoutLeading {β : Type} [Append β] [Writer β] (f : Formatter β)
    (b : BlockStatement) :
    formatBlockStatement f b.withoutLeading false = formatBlockStatement f b false := by
  cases b
  simp only [BlockStatement.withoutLeading, formatBlockStatement]
  rfl

theorem formatElseIf_withoutBlockLeading {β : Type} [Append β] [Writer β] (f : Formatter β)
    (a : IfStatement) :
    formatElseIf f a.branchWithoutBlockLeading = formatElseIf f a := by
  cases a
  simp only [IfStatement.branchWithoutBlockLeading, formatElseIf,
    formatBlockStatement_withoutLeading]

theorem formatAnother_withoutBlockLeading {β : Type} [Append β] [Writer β] (f : Formatter β)
    (another : List IfStatement) :
    formatAnother f (another.map IfStatement.branchWithoutBlockLeading)
      = formatAnother f another := by
  induction another with
  | nil => rfl
  | cons a rest ih =>
    simp only [List.map_cons, formatAnother, ih, formatElseIf_withoutBlockLeading]

theorem formatIfStatement_withoutBlockLeading {β : Type} [Append β] [Writer β]
    (f : Formatter β) (s : IfStatement) :
    formatIfStatement f s.withoutBlockLeading = formatIfStatement f s := by
  cases s
  simp only [IfStatement.withoutBlockLeading, formatIfStatement,
    formatBlockStatement_withoutLeading, formatAnother_withoutBlockLeading]

/-- C22: the output of `formatIfStatement` does not depend on the leading
comments of the consequence block of the primary branch nor of the consequence
block of an else-if branch: two if statements that are the same but for those
comments are formatted alike, by every formatter and in every output type. The
blocks are formatted as non-independent blocks, whose text starts at the
opening brace and holds neither the leading comments of the block nor an
indent before the brace. -/
theorem formatIfStatement_ignores_block_leading {β : Type} [Append β] [Writer β]
    (f : Formatter β) (s t : IfStatement)
    (h : s.withoutBlockLeading = t.withoutBlockLeading) :
    formatIfStatement f s = formatIfStatement f t
      ∧ (∀ (g : Formatter String) (b : BlockStatement),
          formatBlockStatement g b false
            = "\x7b\n"
              ++ (String.join (b.Statements.map fun c => formatStatement g c ++ "\n")
              ++ ((if b.toMeta.Infix = [] then ""
                   else g.formatComment b.toMeta.Infix "\n" b.toMeta.Nest)
              ++ (g.indent (b.toMeta.Nest - 1)
              ++ ("\x7d" ++ g.trailing b.toMeta.Trailing))))) := by
  constructor
  · rw [← formatIfStatement_withoutBlockLeading f s, h,
      formatIfStatement_withoutBlockLeading f t]
  · intro g b
    rw [formatBlockStatement_eq]
    simp

/-- C22 at two trees of `if (a) { esi; } else if (b) { }` that hold different
leading comments in their consequence blocks: one text for both. -/
theorem formatIfStatement_ignores_block_leading_witness :
    ifBlockLeadingFirst.Consequence.toMeta.Leading
        ≠ ifBlockLeadingSecond.Consequence.toMeta.Leading
      ∧ formatIfStatement (textFormatter defaultConfig) ifBlockLeadingFirst
        = formatIfStatement (textFormatter defaultConfig) ifBlockLeadingSecond
      ∧ formatIfStatement (textFormatter defaultConfig) ifBlockLeadingFirst
        = "if (a) \x7b\n  esi;\n\x7d else if (b) \x7b\n\x7d" :=
  ⟨by decide,
    (formatIfStatement_ignores_block_leading (textFormatter defaultConfig)
      ifBlockLeadingFirst ifBlockLeadingSecond rfl).1,
    by decide⟩

end Falco
